import Mathlib

/-!
# EduResource: a verification development

Shallow embedding of the logic of the EduResource learning management system
(enrollment, search, gradebook, registration and login, submissions, grading, and the
cloud functions for statistics and notification emails) and theorems about it.

Conventions of the embedding.

* A JavaScript value that may be `undefined`/`null` is an `Option`.
* An `async` function that may throw returns an `Except JSError`; mutation of
  `this` and of the document store is explicit state passing.
* Whether a backend call (a document read or write) fails is not decided by
  the program: it is an input of the model (`getDocFails`, `WriteFault`, ...).
* Numbers are `Int`; document ids and field names are `String`.
-/

namespace EduResource

/-! ## Common data -/

/-- Identifier of a document in a collection. -/
abbrev DocId := String

/-- The fields of a document that the modelled code never inspects, by field name. -/
abbrev Fields := List (String × String)

/-- A thrown JavaScript exception: an `Error` the program builds with a message, the
`TypeError` the engine raises itself, or the error with which the document store
rejects a call. -/
inductive JSError where
  | error (message : String)
  | typeError (message : String)
  | firestoreError (code : String)
  deriving DecidableEq, Repr

/-! ## `public/app.js`: `enrollInCourse` -/

namespace PublicApp

/-- A document of the `users` collection as `enrollInCourse` sees it.
`enrolledCourses = none` stands for a missing (falsy) field. -/
structure UserDoc where
  enrolledCourses : Option (List DocId)
  fields : Fields
  deriving DecidableEq, Repr

/-- A document of the `courses` collection. -/
structure CourseDoc where
  fields : Fields
  deriving DecidableEq, Repr

/-- The document store: the two collections, keyed by document id. -/
structure Firestore where
  users : DocId → Option UserDoc
  courses : DocId → Option CourseDoc

/-- The call `updateDoc(userRef, { enrolledCourses })`. -/
structure UpdateCall where
  uid : DocId
  enrolledCourses : List DocId
  deriving DecidableEq, Repr

/-- Outcome of the backend calls of one run, fixed from outside. -/
structure Backend where
  getDocFails : Bool
  updateDocFails : Bool
  deriving DecidableEq, Repr

/-- Everything one run of `enrollInCourse` leaves behind. -/
structure Outcome where
  db : Firestore
  writes : List UpdateCall
  redirect : Option String
  toast : Option (String × String)
  modal : Option String

/-- Effect of a successful `updateDoc(userRef, { enrolledCourses })` on the store:
only the named field of the referenced document is replaced. -/
def updateDoc (db : Firestore) (uid : DocId) (enrolledCourses : List DocId) : Firestore :=
  { db with
    users := fun k =>
      if k = uid then
        (db.users uid).map (fun u => { u with enrolledCourses := some enrolledCourses })
      else db.users k }

/-- The page a course id redirects to. -/
def courseUrl (courseId : DocId) : String :=
  "course.html?id=" ++ courseId

/-- Translation of `enrollInCourse(courseId)`; `currentUser` is the uid of the signed-in
user, if any. -/
def enrollInCourse (env : Backend) (currentUser : Option DocId) (db : Firestore)
    (courseId : DocId) : Outcome :=
  match currentUser with
  | none => { db := db, writes := [], redirect := none, toast := none, modal := some "signup" }
  | some uid =>
    if env.getDocFails then
      { db := db, writes := [], redirect := none,
        toast := some ("Error enrolling in course", "error"), modal := none }
    else
      match db.users uid with
      | none => { db := db, writes := [], redirect := none, toast := none, modal := none }
      | some userDoc =>
        let enrolledCourses := userDoc.enrolledCourses.getD []
        if ¬ enrolledCourses.contains courseId then
          let enrolledCourses := enrolledCourses ++ [courseId]
          let call : UpdateCall := { uid := uid, enrolledCourses := enrolledCourses }
          if env.updateDocFails then
            { db := db, writes := [call], redirect := none,
              toast := some ("Error enrolling in course", "error"), modal := none }
          else
            { db := updateDoc db uid enrolledCourses, writes := [call],
              redirect := some (courseUrl courseId),
              toast := some ("Successfully enrolled in course!", "success"), modal := none }
        else
          { db := db, writes := [], redirect := some (courseUrl courseId),
            toast := none, modal := none }

end PublicApp

/-! ## `public/js/dataManager.js` and the inline copy in `public/js/app.js` -/

/-- A course object held in `currentUserData.courses`; `id = none` is `undefined`. -/
structure Course where
  id : Option String
  fields : Fields
  deriving DecidableEq, Repr

/-- The user data object held in memory and stored as the user document.
`courses = none` stands for a missing (falsy) `courses` property. -/
structure UserData where
  courses : Option (List Course)
  fields : Fields
  deriving DecidableEq, Repr

/-- Field-wise merge of `set(data, { merge: true })` on the uninspected fields:
fields of `new` win, fields only in `old` stay. -/
def mergeFields (new old : Fields) : Fields :=
  new ++ old.filter (fun p => ¬ new.any (fun q => q.1 = p.1))

/-- Document that `set(userData, { merge: true })` leaves in the store. -/
def mergeDoc (userData : UserData) : Option UserData → UserData
  | none => userData
  | some old =>
    { courses := match userData.courses with
        | some cs => some cs
        | none => old.courses
      fields := mergeFields userData.fields old.fields }

/-- State of a `DataManager` together with the `users` collection it writes to.
`setCalls` records every `set` issued, oldest first. -/
structure DMState where
  currentUserData : Option UserData
  users : DocId → Option UserData
  setCalls : List (DocId × UserData)

/-- The fault is `some code` when the document store is to reject the next write with that error code. -/
abbrev WriteFault := Option String

namespace DataManager

/-- Translation of `saveUserData(userId, userData)` of `js/dataManager.js`. -/
def saveUserData (fault : WriteFault) (s : DMState) (userId : DocId) (userData : UserData) :
    Except JSError Unit × DMState :=
  let s1 := { s with setCalls := s.setCalls ++ [(userId, userData)] }
  match fault with
  | some code => (.error (.firestoreError code), s1)
  | none =>
    (.ok (),
      { s1 with
        users := fun k => if k = userId then some (mergeDoc userData (s.users userId)) else s.users k
        currentUserData := some userData })

/-- Translation of `enrollCourse(userId, course)` of `js/dataManager.js`. -/
def enrollCourse (fault : WriteFault) (s : DMState) (userId : DocId) (course : Course) :
    Except JSError UserData × DMState :=
  match s.currentUserData with
  | none => (.error (.typeError "Cannot read properties of null (reading courses)"), s)
  | some ud =>
    -- if (!this.currentUserData.courses) this.currentUserData.courses = [];
    let courses := match ud.courses with
      | none => []
      | some cs => cs
    let s1 := { s with currentUserData := some { ud with courses := some courses } }
    if courses.any (fun c => c.id = course.id) then
      (.error (.error "Already enrolled in this course"), s1)
    else
      let pushed : UserData := { ud with courses := some (courses ++ [course]) }
      let s2 := { s with currentUserData := some pushed }
      match saveUserData fault s2 userId pushed with
      | (.error e, s3) => (.error e, s3)
      | (.ok (), s3) =>
        match s3.currentUserData with
        | some r => (.ok r, s3)
        | none => (.ok pushed, s3)

end DataManager

namespace AppJs

/-- Translation of `DataManager.saveUserData` of the inline copy in `js/app.js`. -/
def saveUserData (fault : WriteFault) (s : DMState) (userId : DocId) (userData : UserData) :
    Except JSError Unit × DMState :=
  let s1 := { s with setCalls := s.setCalls ++ [(userId, userData)] }
  match fault with
  | some code => (.error (.firestoreError code), s1)
  | none =>
    (.ok (),
      { s1 with
        users := fun k => if k = userId then some (mergeDoc userData (s.users userId)) else s.users k
        currentUserData := some userData })

/-- Translation of `DataManager.enrollCourse` of the inline copy in `js/app.js`. -/
def enrollCourse (fault : WriteFault) (s : DMState) (userId : DocId) (course : Course) :
    Except JSError UserData × DMState :=
  match s.currentUserData with
  | none => (.error (.typeError "Cannot read properties of null (reading courses)"), s)
  | some ud =>
    let courses := match ud.courses with
      | none => []
      | some cs => cs
    let s1 := { s with currentUserData := some { ud with courses := some courses } }
    if courses.any (fun c => c.id = course.id) then
      (.error (.error "Already enrolled"), s1)
    else
      let pushed : UserData := { ud with courses := some (courses ++ [course]) }
      let s2 := { s with currentUserData := some pushed }
      match saveUserData fault s2 userId pushed with
      | (.error e, s3) => (.error e, s3)
      | (.ok (), s3) =>
        match s3.currentUserData with
        | some r => (.ok r, s3)
        | none => (.ok pushed, s3)

end AppJs

/-! ## `public/js/search.js`: `SearchManager` -/

namespace SearchManager

/-- Translation of `haystack.includes(needle)` on the characters of the two strings. -/
def includesChars : List Char → List Char → Bool
  | [], needle => needle.isEmpty
  | c :: s, needle => needle.isPrefixOf (c :: s) || includesChars s needle

/-- Translation of `String.prototype.includes`. -/
def includes (haystack needle : String) : Bool :=
  includesChars haystack.data needle.data

/-- The expression `field?.toLowerCase().includes(queryLower)` used as a condition:
on a missing field the optional chain yields `undefined`, which is falsy. -/
def fieldIncludes (toLowerCase : String → String) (field : Option String)
    (queryLower : String) : Bool :=
  match field with
  | none => false
  | some s => includes (toLowerCase s) queryLower

/-- What an identifier in call position is bound to when the call is evaluated. -/
inductive Callee where
  | sdkFunction
  | stringValue (s : String)
  | docSnapshot (id : DocId)
  deriving DecidableEq, Repr

/-- Calling a value: only a function can be called, anything else is a `TypeError`. -/
def call (name : String) (callee : Callee) : Except JSError Unit :=
  match callee with
  | .sdkFunction => .ok ()
  | .stringValue _ => .error (.typeError (name ++ " is not a function"))
  | .docSnapshot _ => .error (.typeError (name ++ " is not a function"))

/-- Data of a `courses` document. -/
structure CourseData where
  title : Option String
  description : Option String
  code : Option String
  fields : Fields
  deriving DecidableEq, Repr

/-- Data of an `assignments` document. -/
structure AssignmentData where
  title : Option String
  description : Option String
  courseId : Option String
  fields : Fields
  deriving DecidableEq, Repr

/-- Data of a `users` document. -/
structure UserData where
  name : Option String
  email : Option String
  fields : Fields
  deriving DecidableEq, Repr

/-- Data of a `lessons` document. -/
structure LessonData where
  title : Option String
  description : Option String
  fields : Fields
  deriving DecidableEq, Repr

/-- A document snapshot: its id and its data. -/
structure Doc (α : Type) where
  id : DocId
  data : α
  deriving DecidableEq, Repr

/-- The object `{ id: doc.id, ...data }`: a data field named `id` overrides the document id. -/
structure Hit (α : Type) where
  id : String
  data : α
  deriving DecidableEq, Repr

/-- An assignment hit, with the `courseName` that is attached when the course is found. -/
structure AssignmentHit where
  id : String
  data : AssignmentData
  courseName : Option String
  deriving DecidableEq, Repr

/-- The `id` of `{ id: doc.id, ...data }`. -/
def spreadId (docId : DocId) (fields : Fields) : String :=
  match fields.lookup "id" with
  | some v => v
  | none => docId

/-- The backend as the search functions see it: the four collections in snapshot order,
the answer of the title range query `title >= lo, title <= hi, limit(10)` on a
collection, the transformation `toLowerCase`, and whether `getDocs` throws. -/
structure Backend where
  courses : List (Doc CourseData)
  assignments : List (Doc AssignmentData)
  users : List (Doc UserData)
  lessons : List (Doc LessonData)
  coursesByTitle : String → String → List (Doc CourseData)
  assignmentsByTitle : String → String → List (Doc AssignmentData)
  toLowerCase : String → String
  getDocsFails : Bool

/-- The upper bound of the title range: the query followed by the code point `U+F8FF`. -/
def titleUpper (query : String) : String :=
  query.push (Char.ofNat 0xf8ff)

/-- Translation of `array.slice(0, 10)`. -/
def slice10 {α : Type} (l : List α) : List α :=
  l.take 10

/-- The description/code loop of `searchCourses`. -/
def courseFallback (env : Backend) (query : String) :
    List (Doc CourseData) → List (Hit CourseData) → List (Hit CourseData)
  | [], courses => courses
  | doc :: rest, courses =>
    let course := doc.data
    let queryLower := env.toLowerCase query
    if fieldIncludes env.toLowerCase course.description queryLower
        || fieldIncludes env.toLowerCase course.code queryLower then
      courseFallback env query rest (courses ++ [{ id := spreadId doc.id course.fields, data := course }])
    else
      courseFallback env query rest courses

/-- Body of `searchCourses(query)` with the binding of the identifier `query` in
call position (`const q = query(collection(...), where(...), limit(10))`) made explicit.
Every exception is caught and turned into `[]`. -/
def searchCoursesWith (queryCallee : Callee) (env : Backend) (query : String) :
    List (Hit CourseData) :=
  match call "query" queryCallee with
  | .error _ => []
  | .ok () =>
    if env.getDocsFails then []
    else
      let courses := (env.coursesByTitle query (titleUpper query)).map
        (fun doc => ({ id := spreadId doc.id doc.data.fields, data := doc.data } : Hit CourseData))
      let courses := if courses.length = 0 then courseFallback env query env.courses courses
        else courses
      slice10 courses

/-- Translation of `searchCourses(query)`: inside the method the identifier `query` is
the parameter, a string, which shadows the SDK function of the same name. -/
def searchCourses (env : Backend) (query : String) : List (Hit CourseData) :=
  searchCoursesWith (.stringValue query) env query

/-- The lookup `getDoc(doc(db, 'courses', courseId))` followed by reading the title, with the
binding of the identifier `doc` in call position made explicit. -/
def courseNameOf (docCallee : Callee) (env : Backend) (courseId : Option String) :
    Except JSError (Option String) :=
  match courseId with
  | none => .ok none
  | some cid =>
    if cid = "" then .ok none
    else
      match call "doc" docCallee with
      | .error e => .error e
      | .ok () =>
        match env.courses.find? (fun d => d.id = cid) with
        | some c => .ok c.data.title
        | none => .ok none

/-- The title loop of `searchAssignments`; inside `for (const doc of ...)` the identifier
`doc` is the loop variable, a document snapshot. -/
def assignmentTitleLoop (env : Backend) :
    List (Doc AssignmentData) → List AssignmentHit → Except JSError (List AssignmentHit)
  | [], acc => .ok acc
  | doc :: rest, acc =>
    match courseNameOf (.docSnapshot doc.id) env doc.data.courseId with
    | .error e => .error e
    | .ok name =>
      assignmentTitleLoop env rest
        (acc ++ [{ id := spreadId doc.id doc.data.fields, data := doc.data, courseName := name }])

/-- The description loop of `searchAssignments`. -/
def assignmentFallback (env : Backend) (query : String) :
    List (Doc AssignmentData) → List AssignmentHit → Except JSError (List AssignmentHit)
  | [], acc => .ok acc
  | doc :: rest, acc =>
    let queryLower := env.toLowerCase query
    if fieldIncludes env.toLowerCase doc.data.description queryLower then
      match courseNameOf (.docSnapshot doc.id) env doc.data.courseId with
      | .error e => .error e
      | .ok name =>
        assignmentFallback env query rest
          (acc ++ [{ id := spreadId doc.id doc.data.fields, data := doc.data, courseName := name }])
    else
      assignmentFallback env query rest acc

/-- Body of `searchAssignments(query)` with the binding of `query` in call position made
explicit. Every exception is caught and turned into `[]`. -/
def searchAssignmentsWith (queryCallee : Callee) (env : Backend) (query : String) :
    List AssignmentHit :=
  match call "query" queryCallee with
  | .error _ => []
  | .ok () =>
    if env.getDocsFails then []
    else
      match assignmentTitleLoop env (env.assignmentsByTitle query (titleUpper query)) [] with
      | .error _ => []
      | .ok assignments =>
        if assignments.length = 0 then
          match assignmentFallback env query env.assignments assignments with
          | .error _ => []
          | .ok assignments => slice10 assignments
        else slice10 assignments

/-- Translation of `searchAssignments(query)`. -/
def searchAssignments (env : Backend) (query : String) : List AssignmentHit :=
  searchAssignmentsWith (.stringValue query) env query

/-- The condition under which `searchUsers` pushes a user. -/
def userMatches (env : Backend) (queryLower : String) (user : UserData) : Bool :=
  fieldIncludes env.toLowerCase user.name queryLower
    || fieldIncludes env.toLowerCase user.email queryLower

/-- The loop of `searchUsers`, leaving by `break` once ten users are collected. -/
def usersLoop (env : Backend) (queryLower : String) :
    List (Doc UserData) → List (Hit UserData) → List (Hit UserData)
  | [], users => users
  | doc :: rest, users =>
    let user := doc.data
    let users := if userMatches env queryLower user then
        users ++ [{ id := spreadId doc.id user.fields, data := user }]
      else users
    if users.length ≥ 10 then users else usersLoop env queryLower rest users

/-- Translation of `searchUsers(query)`. -/
def searchUsers (env : Backend) (query : String) : List (Hit UserData) :=
  let queryLower := env.toLowerCase query
  if env.getDocsFails then []
  else usersLoop env queryLower env.users []

/-- The condition under which `searchMaterials` pushes a lesson. -/
def lessonMatches (env : Backend) (queryLower : String) (lesson : LessonData) : Bool :=
  fieldIncludes env.toLowerCase lesson.title queryLower
    || fieldIncludes env.toLowerCase lesson.description queryLower

/-- The loop of `searchMaterials`, leaving by `break` once ten lessons are collected. -/
def materialsLoop (env : Backend) (queryLower : String) :
    List (Doc LessonData) → List (Hit LessonData) → List (Hit LessonData)
  | [], materials => materials
  | doc :: rest, materials =>
    let lesson := doc.data
    let materials := if lessonMatches env queryLower lesson then
        materials ++ [{ id := spreadId doc.id lesson.fields, data := lesson }]
      else materials
    if materials.length ≥ 10 then materials else materialsLoop env queryLower rest materials

/-- Translation of `searchMaterials(query)`. -/
def searchMaterials (env : Backend) (query : String) : List (Hit LessonData) :=
  let queryLower := env.toLowerCase query
  if env.getDocsFails then []
  else materialsLoop env queryLower env.lessons []

/-- The hit `searchUsers` builds from a document. -/
def userHit (doc : Doc UserData) : Hit UserData :=
  { id := spreadId doc.id doc.data.fields, data := doc.data }

/-- The hit `searchCourses` builds from a document. -/
def courseHit (doc : Doc CourseData) : Hit CourseData :=
  { id := spreadId doc.id doc.data.fields, data := doc.data }

/-- The string `needle` occurs in `haystack` as a contiguous run of characters. -/
def IsSubstring (needle haystack : String) : Prop :=
  ∃ before after : List Char, haystack.data = before ++ needle.data ++ after

/-- A user whose name or whose email, lower-cased, contains the lower-cased query. -/
def UserContains (env : Backend) (q : String) (u : UserData) : Prop :=
  (∃ n, u.name = some n ∧ IsSubstring (env.toLowerCase q) (env.toLowerCase n)) ∨
  (∃ e, u.email = some e ∧ IsSubstring (env.toLowerCase q) (env.toLowerCase e))

/-- A course whose description or whose code contains the query, case-insensitively. -/
def CourseContains (env : Backend) (q : String) (c : CourseData) : Prop :=
  (∃ d, c.description = some d ∧ IsSubstring (env.toLowerCase q) (env.toLowerCase d)) ∨
  (∃ k, c.code = some k ∧ IsSubstring (env.toLowerCase q) (env.toLowerCase k))

end SearchManager

/-! ## Numbers: IEEE 754 binary64 arithmetic

A finite number is given by the rational that is its value, the two zeros being one value;
`none` stands for a number that is not finite, `NaN` or an infinity. Every operation rounds
the exact result to the nearest double, ties to the even mantissa. -/

namespace Float64

/-- The number of halvings that take `n` below 2, counted with the given fuel. -/
def log2Aux : Nat → Nat → Nat
  | 0, _ => 0
  | fuel + 1, n => if 2 ≤ n then log2Aux fuel (n / 2) + 1 else 0

/-- The position of the leading binary digit of a positive `n`. -/
def log2 (n : Nat) : Nat :=
  log2Aux n n

/-- The position of the leading binary digit of `n / d`, for positive `n` and `d`: the
integer `k` with `2 ^ k ≤ n / d < 2 ^ (k + 1)`. -/
def floorLog2 (n d : Nat) : Int :=
  let k : Int := (log2 n : Int) - (log2 d : Int)
  if d * 2 ^ k.toNat ≤ n * 2 ^ (-k).toNat then k else k - 1

/-- The integer nearest to `n / d`, the even one of the two when `n / d` lies halfway. -/
def roundHalfEven (n d : Nat) : Nat :=
  let q := n / d
  let r := n % d
  if 2 * r < d then q
  else if d < 2 * r then q + 1
  else if q % 2 = 0 then q else q + 1

/-- The exponent of the unit in the last place of the double nearest to `q`, for `q` other
than zero: 52 below the leading binary digit, and at least `-1074`. -/
def exponent (q : ℚ) : Int :=
  max (floorLog2 q.num.natAbs q.den - 52) (-1074)

/-- The magnitude of `q` in units of the last place, rounded to the nearest integer, ties
to even. -/
def mantissa (q : ℚ) : Nat :=
  roundHalfEven (q.num.natAbs * 2 ^ (-exponent q).toNat) (q.den * 2 ^ (exponent q).toNat)

/-- The double nearest to a rational (round to nearest, ties to even); `none` when that is
an infinity. -/
def ofRat (q : ℚ) : Option ℚ :=
  if q = 0 then some 0
  else if 2 ^ 1024 ≤ mantissa q * 2 ^ (exponent q).toNat then none
  else some ((if q < 0 then -1 else 1) * (mantissa q : ℚ) * 2 ^ exponent q)

/-- The Number value for an integer, as `parseInt` gives it and as a stored integer is read:
the integer itself when it is a double, else the double nearest to it, `none` for an
infinity. -/
def ofInt (n : Int) : Option ℚ :=
  ofRat n

/-- The quotient `a / b` of a number `a` and the Number value for the integer `b`. The
integer `b` is not `NaN`, so that a missing Number value for it is an infinity, by which a
finite number divides to zero. -/
def divInt (a : Option ℚ) (b : Int) : Option ℚ :=
  match a, ofInt b with
  | some x, some y => if y = 0 then none else ofRat (x / y)
  | some _, none => some 0
  | none, _ => none

/-- The product `a * b` of two numbers. -/
def mul (a b : Option ℚ) : Option ℚ :=
  match a, b with
  | some x, some y => ofRat (x * y)
  | _, _ => none

/-- The sum `a + b` of two numbers. -/
def add (a b : Option ℚ) : Option ℚ :=
  match a, b with
  | some x, some y => ofRat (x + y)
  | _, _ => none

/-- The value of `Math.round(a)`: the integer nearest to `a`, the greater one of the two when
`a` lies halfway. -/
def mathRound (a : Option ℚ) : Option Int :=
  a.map (fun x => ⌊x + 1 / 2⌋)

/-- The value of `(a / b) * 100` for the Number values for two integers. -/
def percentOf (a b : Int) : Option ℚ :=
  mul (divInt (ofInt a) b) (some 100)

end Float64

/-! ## `public/js/gradebook.js`: `GradebookManager` -/

namespace GradebookManager

/-- A row of the gradebook. `grade`, `maxPoints`, `courseId` and `submittedAt` (milliseconds)
are `none` when the property is `undefined` or `null`. -/
structure GradeEntry where
  id : DocId
  studentName : String
  courseId : Option String
  grade : Option Int
  maxPoints : Option Int
  status : Option String
  submittedAt : Option Int
  fields : Fields
  deriving DecidableEq, Repr

/-- The fields of a `GradebookManager` that filtering, sorting and paging use. -/
structure Gradebook where
  allGrades : List GradeEntry
  filteredGrades : List GradeEntry
  currentPage : Nat
  itemsPerPage : Nat
  deriving DecidableEq, Repr

/-- Translation of `calculatePercentage(grade, maxPoints)`. The result is an integer unless
`(grade / maxPoints) * 100` is not finite, which takes a grade of magnitude beyond `2 ^ 1000`
(see `percentOf_isSome`); such a result is given as `0`. -/
def calculatePercentage (grade maxPoints : Option Int) : Int :=
  match grade, maxPoints with
  | some g, some m =>
    if g = 0 ∨ m = 0 then 0 else (Float64.mathRound (Float64.percentOf g m)).getD 0
  | _, _ => 0

/-- Translation of `getLetterGrade(percentage)`. -/
def getLetterGrade (percentage : Int) : String :=
  if percentage ≥ 90 then "A"
  else if percentage ≥ 80 then "B"
  else if percentage ≥ 70 then "C"
  else if percentage ≥ 60 then "D"
  else "F"

/-- The table `gradeRanges` of `applyFilters`; `none` for a key it does not have. -/
def gradeRanges (key : String) : Option (Int × Int) :=
  if key = "A" then some (90, 100)
  else if key = "B" then some (80, 89)
  else if key = "C" then some (70, 79)
  else if key = "D" then some (60, 69)
  else if key = "F" then some (0, 59)
  else none

/-- The callback that `applyFilters` passes to `allGrades.filter`. Indexing the
`undefined` range of an unknown grade filter throws. -/
def filterCallback (courseFilter gradeFilter : String) (grade : GradeEntry) :
    Except JSError Bool :=
  if courseFilter ≠ "" ∧ grade.courseId ≠ some courseFilter then .ok false
  else if gradeFilter ≠ "" then
    let percentage := calculatePercentage grade.grade grade.maxPoints
    match gradeRanges gradeFilter with
    | none => .error (.typeError "Cannot read properties of undefined (reading 0)")
    | some range =>
      if percentage < range.1 ∨ percentage > range.2 then .ok false
      else .ok true
  else .ok true

/-- Model of `Array.prototype.filter` with a callback that may throw. -/
def filterE {α : Type} (f : α → Except JSError Bool) : List α → Except JSError (List α)
  | [] => .ok []
  | a :: l =>
    match f a with
    | .error e => .error e
    | .ok keep =>
      match filterE f l with
      | .error e => .error e
      | .ok r => .ok (if keep then a :: r else r)

/-- Translation of `applyFilters()`; the two arguments are the values of the
`courseFilter` and `gradeFilter` select boxes. -/
def applyFilters (courseFilter gradeFilter : String) (s : Gradebook) :
    Except JSError Gradebook :=
  match filterE (filterCallback courseFilter gradeFilter) s.allGrades with
  | .error e => .error e
  | .ok filtered => .ok { s with filteredGrades := filtered, currentPage := 1 }

/-- Translation of `array.slice(start, end)` for `0 ≤ start` and `0 ≤ end`. -/
def slice {α : Type} (l : List α) (start stop : Nat) : List α :=
  (l.take stop).drop start

/-- The rows `displayGrades()` renders: `pageGrades`. -/
def displayGrades (s : Gradebook) : List GradeEntry :=
  let start := (s.currentPage - 1) * s.itemsPerPage
  let stop := start + s.itemsPerPage
  slice s.filteredGrades start stop

/-- Translation of `Math.ceil(filteredGrades.length / itemsPerPage)`, the `maxPage` of the pager. -/
def maxPage (s : Gradebook) : Nat :=
  (s.filteredGrades.length + s.itemsPerPage - 1) / s.itemsPerPage

/-- The value of a comparator as `Array.prototype.sort` uses it: `NaN` and `undefined`
(`none`) count as `0`. -/
def sortCompare (v : Option Int) : Int :=
  match v with
  | some x => x
  | none => 0

/-- The subtraction `x - y` of two numbers, `NaN` (`none`) when one is not a number. -/
def jsSub (x y : Option Int) : Option Int :=
  match x, y with
  | some a, some b => some (a - b)
  | _, _ => none

/-- The comparator of `sortGrades()` for a given value of the `sortBy` select box. -/
def compareGrades (localeCompare : String → String → Int) (sortBy : String)
    (a b : GradeEntry) : Option Int :=
  if sortBy = "name" then some (localeCompare a.studentName b.studentName)
  else if sortBy = "grade" then jsSub b.grade a.grade
  else if sortBy = "submitted" then jsSub b.submittedAt a.submittedAt
  else none

/-- Insertion of one element by a comparator: before the first element it does not
compare greater than. -/
def sortInsert {α : Type} (cmp : α → α → Int) (a : α) : List α → List α
  | [] => [a]
  | b :: l => if cmp a b ≤ 0 then a :: b :: l else b :: sortInsert cmp a l

/-- Model of `Array.prototype.sort(compareFn)`, which ECMAScript requires to be stable, as a
stable insertion sort. -/
def jsSort {α : Type} (cmp : α → α → Int) : List α → List α
  | [] => []
  | a :: l => sortInsert cmp a (jsSort cmp l)

/-- Translation of `sortGrades()`. -/
def sortGrades (localeCompare : String → String → Int) (sortBy : String) (s : Gradebook) :
    Gradebook :=
  { s with
    filteredGrades :=
      jsSort (fun a b => sortCompare (compareGrades localeCompare sortBy a b)) s.filteredGrades }

end GradebookManager

/-! ## Specification predicates and sample data -/

namespace PublicApp

/-- A store with one user, enrolled in `cs101`, and one course. -/
def sampleDb : Firestore where
  users := fun k =>
    if k = "u1" then some { enrolledCourses := some ["cs101"], fields := [("role", "student")] }
    else none
  courses := fun k => if k = "cs101" then some { fields := [("title", "Programming")] } else none

end PublicApp

/-- The sample course of `handleJoinCourse`. -/
def sampleCourse : Course :=
  { id := some "cs101", fields := [("code", "CS101")] }

/-- Another course. -/
def otherCourse : Course :=
  { id := some "ma201", fields := [("code", "MA201")] }

/-- A loaded `DataManager` whose user is enrolled in the sample course. -/
def sampleState : DMState where
  currentUserData := some { courses := some [sampleCourse], fields := [("name", "Ada")] }
  users := fun k =>
    if k = "u1" then some { courses := some [sampleCourse], fields := [("name", "Ada")] }
    else none
  setCalls := []

/-- What `enrollCourse` (either copy) does, up to the message of its own error:
it raises `Error(message)` exactly when a held course has the id of `course`; then the
state is untouched and nothing is written; and when no held course has that id and the
write succeeds, it returns the user data with `course` appended, which is also the new
`currentUserData`, after one `set` of that data. -/
def EnrollCourseSpec
    (enroll : WriteFault → DMState → DocId → Course → Except JSError UserData × DMState)
    (message : String) : Prop :=
  (∀ fault s userId course,
    (enroll fault s userId course).1 = .error (.error message) ↔
      ∃ ud, s.currentUserData = some ud ∧ ∃ c ∈ ud.courses.getD [], c.id = course.id) ∧
  (∀ fault s userId course,
    (enroll fault s userId course).1 = .error (.error message) →
      (enroll fault s userId course).2.currentUserData = s.currentUserData ∧
      (enroll fault s userId course).2.setCalls = s.setCalls ∧
      (enroll fault s userId course).2.users = s.users) ∧
  (∀ s userId course ud,
    s.currentUserData = some ud → (∀ c ∈ ud.courses.getD [], c.id ≠ course.id) →
      (enroll none s userId course).1 =
        .ok { courses := some (ud.courses.getD [] ++ [course]), fields := ud.fields } ∧
      (enroll none s userId course).2.currentUserData =
        some { courses := some (ud.courses.getD [] ++ [course]), fields := ud.fields } ∧
      (enroll none s userId course).2.setCalls = s.setCalls ++
        [(userId, { courses := some (ud.courses.getD [] ++ [course]), fields := ud.fields })])

namespace SearchManager

/-- ASCII lower-casing, the `toLowerCase` of the sample backend. -/
def asciiLower (s : String) : String :=
  ⟨s.data.map Char.toLower⟩

/-- A backend whose only course mentions Python in its description, not in its title. -/
def sampleBackend : Backend where
  courses := [{ id := "c1", data := { title := some "Intro to Programming",
                                      description := some "Learn Python basics",
                                      code := some "CS101", fields := [] } }]
  assignments := []
  users := [{ id := "u1", data := { name := some "Ada Lovelace", email := some "ada@example.org",
                                    fields := [] } },
            { id := "u2", data := { name := none, email := some "bob@example.org",
                                    fields := [] } }]
  lessons := []
  coursesByTitle := fun _ _ => []
  assignmentsByTitle := fun _ _ => []
  toLowerCase := asciiLower
  getDocsFails := false

end SearchManager

namespace GradebookManager

/-- The entry passes the course filter `c` and the grade filter `g`: `c` is empty or is the
course of the entry, and `g` is empty or the percentage of the entry lies in the band of
`g`. -/
def PassesFilters (c g : String) (e : GradeEntry) : Prop :=
  (c = "" ∨ e.courseId = some c) ∧
  (g = "" ∨
    (g = "A" ∧ 90 ≤ calculatePercentage e.grade e.maxPoints ∧
      calculatePercentage e.grade e.maxPoints ≤ 100) ∨
    (g = "B" ∧ 80 ≤ calculatePercentage e.grade e.maxPoints ∧
      calculatePercentage e.grade e.maxPoints ≤ 89) ∨
    (g = "C" ∧ 70 ≤ calculatePercentage e.grade e.maxPoints ∧
      calculatePercentage e.grade e.maxPoints ≤ 79) ∨
    (g = "D" ∧ 60 ≤ calculatePercentage e.grade e.maxPoints ∧
      calculatePercentage e.grade e.maxPoints ≤ 69) ∨
    (g = "F" ∧ 0 ≤ calculatePercentage e.grade e.maxPoints ∧
      calculatePercentage e.grade e.maxPoints ≤ 59))

instance (c g : String) (e : GradeEntry) : Decidable (PassesFilters c g e) := by
  unfold PassesFilters
  infer_instance

/-- A gradebook of three rows in two courses. -/
def sampleGradebook : Gradebook where
  allGrades :=
    [{ id := "s1", studentName := "Ada", courseId := some "c1", grade := some 85,
       maxPoints := some 100, status := some "graded", submittedAt := some 3, fields := [] },
     { id := "s2", studentName := "Bob", courseId := some "c2", grade := some 88,
       maxPoints := some 100, status := some "graded", submittedAt := some 1, fields := [] },
     { id := "s3", studentName := "Cy", courseId := some "c1", grade := some 45,
       maxPoints := some 50, status := some "graded", submittedAt := some 2, fields := [] }]
  filteredGrades := []
  currentPage := 3
  itemsPerPage := 20

/-- A gradebook with 25 filtered rows, which fill two pages. -/
def pagedGradebook : Gradebook where
  allGrades := []
  filteredGrades := (List.range 25).map (fun i =>
    { id := "s", studentName := "Ada", courseId := some "c1", grade := some (Int.ofNat i),
      maxPoints := some 100, status := some "graded", submittedAt := none, fields := [] })
  currentPage := 1
  itemsPerPage := 20

/-- The numeric grade of an entry, `0` standing in when there is none. -/
def gradeValue (e : GradeEntry) : Int :=
  e.grade.getD 0

end GradebookManager

/-! ## `public/js/utils.js` and `public/app.js`: `isValidEmail` -/

namespace Utils

/-- The number of UTF-16 code units of a string, its JavaScript `length`. -/
def jsLength (s : String) : Nat :=
  (s.data.map (fun c => if c.toNat < 65536 then 1 else 2)).sum

/-- The class `\s` of a JavaScript regular expression, by code point. -/
def isRegexSpace (c : Char) : Bool :=
  c.toNat = 9 || c.toNat = 10 || c.toNat = 11 || c.toNat = 12 || c.toNat = 13 ||
  c.toNat = 32 || c.toNat = 160 || c.toNat = 5760 ||
  (8192 ≤ c.toNat && c.toNat ≤ 8202) ||
  c.toNat = 8232 || c.toNat = 8233 || c.toNat = 8239 || c.toNat = 8287 ||
  c.toNat = 12288 || c.toNat = 65279

/-- How often a regular expression item is repeated: once, or one or more times (`+`). -/
inductive Quant where
  | one
  | plus
  deriving DecidableEq, Repr

/-- One item of a regular expression: a character class with its quantifier. -/
structure Item where
  cls : Char → Bool
  quant : Quant

/-- Whether the whole input matches the items in sequence, as `/^...$/.test(input)`
decides it: an item consumes one character of its class, and a `+` item may then
consume more or hand over to the next item. -/
def matchItems : List Item → List Char → Bool
  | [], s => s.isEmpty
  | _ :: _, [] => false
  | it :: rest, c :: s =>
    it.cls c &&
      (match it.quant with
      | .one => matchItems rest s
      | .plus => matchItems (it :: rest) s || matchItems rest s)

/-- The character `@`. -/
def atSign : Char := Char.ofNat 64

/-- The character `.`. -/
def dot : Char := Char.ofNat 46

/-- The class `[^\s@]`. -/
def notSpaceNorAt (c : Char) : Bool :=
  !(isRegexSpace c) && !(c = atSign)

/-- The regular expression `/^[^\s@]+@[^\s@]+\.[^\s@]+$/` of `js/utils.js`. -/
def emailRegex : List Item :=
  [⟨notSpaceNorAt, .plus⟩, ⟨fun c => c = atSign, .one⟩, ⟨notSpaceNorAt, .plus⟩,
   ⟨fun c => c = dot, .one⟩, ⟨notSpaceNorAt, .plus⟩]

/-- Translation of `isValidEmail(email)` of `js/utils.js`. -/
def isValidEmail (email : String) : Bool :=
  matchItems emailRegex email.data

/-- Translation of `getErrorMessage(errorCode)` of `js/utils.js`; `none` is an error
without a `code`. -/
def getErrorMessage (errorCode : Option String) : String :=
  match errorCode with
  | some "auth/user-not-found" => "No account found with this email address"
  | some "auth/wrong-password" => "Incorrect password"
  | some "auth/email-already-in-use" => "Email already in use"
  | some "auth/weak-password" => "Password is too weak"
  | some "auth/invalid-email" => "Invalid email address"
  | some "auth/user-disabled" => "This account has been disabled"
  | some "auth/too-many-requests" => "Too many login attempts. Try again later"
  | some "auth/popup-closed-by-user" => "You closed the sign-in window"
  | some "auth/account-exists-with-different-credential" =>
    "An account already exists with this email"
  | some "auth/popup-blocked" => "Popup was blocked. Please allow popups"
  | some "auth/operation-not-allowed" => "This operation is not enabled"
  | some "auth/unauthorized-domain" => "This domain is not authorized"
  | some "auth/cancelled-popup-request" => "Sign in was cancelled"
  | _ => "An error occurred. Please try again."

end Utils

namespace PublicApp

/-- The regular expression `/^[^\s@]+@[^\s@]+\.[^\s@]+$/` of `public/app.js`. -/
def emailRegex : List Utils.Item :=
  [⟨Utils.notSpaceNorAt, .plus⟩, ⟨fun c => c = Utils.atSign, .one⟩,
   ⟨Utils.notSpaceNorAt, .plus⟩, ⟨fun c => c = Utils.dot, .one⟩, ⟨Utils.notSpaceNorAt, .plus⟩]

/-- Translation of `isValidEmail(email)` of `public/app.js`. -/
def isValidEmail (email : String) : Bool :=
  Utils.matchItems emailRegex email.data

end PublicApp

/-! ## `public/js/authManager.js`: `registerWithEmail` -/

namespace AuthManager

/-- The `userData` argument of `registerWithEmail`. -/
structure RegisterData where
  name : Option String
  role : Option String
  major : Option String
  deriving DecidableEq, Repr

/-- The user document that `createUserDocument` writes. `roleData` names the role-specific
entry (`studentData` or `instructorData`) when there is one. -/
structure UserDocument where
  uid : DocId
  name : String
  email : String
  role : String
  major : String
  roleData : Option String
  deriving DecidableEq, Repr

/-- The auth backend and the document store as one registration sees them: the uid the
backend gives a new account, and for each call the error code with which it is rejected,
if it is. -/
structure AuthBackend where
  newUid : DocId
  createUserFault : Option String
  updateProfileFault : Option String
  setFault : Option String
  deriving DecidableEq, Repr

/-- Everything one run of `registerWithEmail` leaves behind: its result (the uid of the
new user, or the error thrown) and the calls made to the backend, oldest first. -/
structure RegisterOutcome where
  result : Except JSError DocId
  createUserCalls : List (String × String)
  updateProfileCalls : List (Option String)
  documentWrites : List (DocId × UserDocument)

/-- A string operand of `||`: `undefined` and the empty string are falsy. -/
def truthy (v : Option String) : Option String :=
  match v with
  | some s => if s = "" then none else some s
  | none => none

/-- The document built by `createUserDocument(user, userData)` for a user just created with
an email and a password, whose `displayName` is the `userData.name` just set, if any. -/
def buildUserDocument (uid : DocId) (email : String) (userData : RegisterData) : UserDocument :=
  { uid := uid
    name := (truthy userData.name).getD "User"
    email := email
    role := (truthy userData.role).getD "student"
    major := (truthy userData.major).getD "Computer Science"
    roleData :=
      if userData.role = some "student" then some "studentData"
      else if userData.role = some "instructor" then some "instructorData"
      else none }

/-- Translation of `registerWithEmail(email, password, confirmPassword, userData)`. -/
def registerWithEmail (backend : AuthBackend) (email password confirmPassword : String)
    (userData : RegisterData) : RegisterOutcome :=
  if email = "" ∨ password = "" ∨ confirmPassword = "" then
    { result := .error (.error "Please fill in all fields"), createUserCalls := [],
      updateProfileCalls := [], documentWrites := [] }
  else if password ≠ confirmPassword then
    { result := .error (.error "Passwords do not match"), createUserCalls := [],
      updateProfileCalls := [], documentWrites := [] }
  else if Utils.jsLength password < 6 then
    { result := .error (.error "Password must be at least 6 characters"), createUserCalls := [],
      updateProfileCalls := [], documentWrites := [] }
  else if ¬ Utils.isValidEmail email then
    { result := .error (.error "Invalid email address"), createUserCalls := [],
      updateProfileCalls := [], documentWrites := [] }
  else
    match backend.createUserFault with
    | some code =>
      { result := .error (.error (Utils.getErrorMessage (some code))),
        createUserCalls := [(email, password)], updateProfileCalls := [], documentWrites := [] }
    | none =>
      match backend.updateProfileFault with
      | some code =>
        { result := .error (.error (Utils.getErrorMessage (some code))),
          createUserCalls := [(email, password)], updateProfileCalls := [userData.name],
          documentWrites := [] }
      | none =>
        let userDoc := buildUserDocument backend.newUid email userData
        match backend.setFault with
        | some code =>
          { result := .error (.error (Utils.getErrorMessage (some code))),
            createUserCalls := [(email, password)], updateProfileCalls := [userData.name],
            documentWrites := [(backend.newUid, userDoc)] }
        | none =>
          { result := .ok backend.newUid,
            createUserCalls := [(email, password)], updateProfileCalls := [userData.name],
            documentWrites := [(backend.newUid, userDoc)] }

end AuthManager

namespace Utils

/-- The shape of an accepted email address: no white space, exactly one at sign with at
least one character before it, and after it a dot with at least one character before it
and at least one after it. -/
def ValidEmailShape (s : String) : Prop :=
  (∀ c ∈ s.data, isRegexSpace c = false) ∧
  s.data.count atSign = 1 ∧
  ∃ loc dom, s.data = loc ++ atSign :: dom ∧ loc ≠ [] ∧
    ∃ b c, dom = b ++ dot :: c ∧ b ≠ [] ∧ c ≠ []

end Utils

namespace AuthManager

/-- The run threw `Error(message)` without having called the auth backend or written a
document. -/
def ThrowsBeforeAnyCall (o : RegisterOutcome) (message : String) : Prop :=
  o.result = .error (.error message) ∧ o.createUserCalls = [] ∧
  o.updateProfileCalls = [] ∧ o.documentWrites = []

end AuthManager

/-! ## `public/js/submissionManager.js`: `handleFileSelect` -/

namespace SubmissionManager

/-- A `File` object: its name, its `size` in bytes and its MIME `type`. -/
structure File where
  name : String
  size : Nat
  type : String
  deriving DecidableEq, Repr

/-- The part of a `SubmissionManager` and of its page that file selection touches:
`selectedFile`, the file shown in the preview (if the preview is shown), and the toasts
shown so far, oldest first. -/
structure FileState where
  selectedFile : Option File
  preview : Option File
  toasts : List (String × String)
  deriving DecidableEq, Repr

/-- The constant `maxSize` of `handleFileSelect`. -/
def maxSize : Nat := 10 * 1024 * 1024

/-- The array `allowedTypes` of `handleFileSelect`. -/
def allowedTypes : List String :=
  ["application/pdf",
   "application/vnd.openxmlformats-officedocument.wordprocessingml.document",
   "application/msword", "text/plain", "image/jpeg", "image/png"]

/-- Translation of `handleFileSelect(file)`. -/
def handleFileSelect (s : FileState) (file : File) : FileState :=
  if file.size > maxSize then
    { s with toasts := s.toasts ++ [("File size exceeds 10MB limit", "error")] }
  else if ¬ allowedTypes.contains file.type then
    { s with toasts := s.toasts ++ [("File type not supported", "error")] }
  else
    { s with selectedFile := some file, preview := some file }

end SubmissionManager

/-! ## `public/app.js`: `handleGoogleLogin` -/

namespace PublicApp

/-- The user object a Google sign-in returns. -/
structure GoogleUser where
  uid : DocId
  displayName : Option String
  email : Option String
  photoURL : Option String
  providerId : Option String
  emailVerified : Bool
  deriving DecidableEq, Repr

/-- Outcome of the backend calls of one Google login, fixed from outside: the sign-in
returns a user or is rejected with an error code, and the document read and the document
write may each be rejected with an error code. -/
structure GoogleBackend where
  signIn : Except String GoogleUser
  getDocFault : Option String
  setDocFault : Option String

/-- Everything one run of `handleGoogleLogin` leaves behind: the store, the `setDoc` calls
issued (document id and document) and the toast shown. -/
structure GoogleOutcome where
  db : Firestore
  setCalls : List (DocId × UserDoc)
  toast : Option (String × String)

/-- An optional string as a field value, `null` when missing. -/
def orNull (v : Option String) : String :=
  v.getD "null"

/-- The profile object that `createGoogleUserProfile(user)` passes to `setDoc`; the nested
maps `settings` and `preferences` are listed by field path, the empty map `progress` has no
entry. -/
def googleProfile (user : GoogleUser) : UserDoc :=
  let displayName := match user.displayName with
    | some n => if n = "" then "Google User" else n
    | none => "Google User"
  let parts := displayName.splitOn " "
  { enrolledCourses := some []
    fields :=
      [("uid", user.uid), ("name", displayName), ("firstName", parts.headD ""),
       ("lastName", " ".intercalate parts.tail), ("email", orNull user.email),
       ("photoURL", orNull user.photoURL), ("role", "student"), ("provider", "google"),
       ("providerId", match user.providerId with
          | some p => if p = "" then "google.com" else p
          | none => "google.com"),
       ("createdAt", "serverTimestamp"), ("lastLogin", "serverTimestamp"),
       ("emailVerified", if user.emailVerified then "true" else "false"),
       ("settings.emailNotifications", "true"), ("settings.darkMode", "false"),
       ("settings.language", "en"), ("preferences.receiveMarketingEmails", "false"),
       ("preferences.showOnlineStatus", "true")] }

/-- Effect of a successful `setDoc(doc(db, 'users', uid), profile)`: the document is
replaced. -/
def setUserDoc (db : Firestore) (uid : DocId) (profile : UserDoc) : Firestore :=
  { db with users := fun k => if k = uid then some profile else db.users k }

/-- Translation of `getErrorMessage(code)` of `public/app.js`. -/
def getErrorMessage (code : String) : String :=
  if code = "auth/user-not-found" then "No account found with this email address"
  else if code = "auth/wrong-password" then "Incorrect password"
  else if code = "auth/email-already-in-use" then "This email is already registered"
  else if code = "auth/weak-password" then "Password is too weak. Use at least 6 characters"
  else if code = "auth/invalid-email" then "Invalid email address"
  else if code = "auth/operation-not-allowed" then "This operation is not allowed"
  else if code = "auth/too-many-requests" then
    "Too many login attempts. Please try again later"
  else if code = "auth/popup-closed-by-user" then "Sign in was cancelled"
  else if code = "auth/popup-blocked" then
    "Popup was blocked. Please allow popups for this site"
  else if code = "auth/network-request-failed" then
    "Network error. Please check your connection"
  else "An error occurred. Please try again."

/-- The toast of the `catch` block of `handleGoogleLogin` for an error code. -/
def googleErrorToast (code : String) : String × String :=
  if code = "auth/popup-closed-by-user" then ("Sign in cancelled", "info")
  else if code = "auth/popup-blocked" then
    ("Popup blocked. Please allow popups for this site.", "error")
  else (getErrorMessage code, "error")

/-- Translation of `handleGoogleLogin()` together with `createGoogleUserProfile(user)`. -/
def handleGoogleLogin (env : GoogleBackend) (db : Firestore) : GoogleOutcome :=
  match env.signIn with
  | .error code => { db := db, setCalls := [], toast := some (googleErrorToast code) }
  | .ok user =>
    match env.getDocFault with
    | some code => { db := db, setCalls := [], toast := some (googleErrorToast code) }
    | none =>
      match db.users user.uid with
      | none =>
        let profile := googleProfile user
        match env.setDocFault with
        | some code =>
          { db := db, setCalls := [(user.uid, profile)], toast := some (googleErrorToast code) }
        | none =>
          { db := setUserDoc db user.uid profile, setCalls := [(user.uid, profile)],
            toast := some ("Welcome to EduLMS! Profile created successfully.", "success") }
      | some _ => { db := db, setCalls := [], toast := some ("Login successful!", "success") }

end PublicApp

namespace SubmissionManager

/-- A PDF of 2 kB. -/
def samplePdf : File :=
  { name := "essay.pdf", size := 2048, type := "application/pdf" }

/-- An archive, which is not an allowed type. -/
def sampleZip : File :=
  { name := "essay.zip", size := 2048, type := "application/zip" }

end SubmissionManager

namespace PublicApp

/-- A user signing in with Google for the first time. -/
def sampleGoogleUser : GoogleUser :=
  { uid := "g1", displayName := some "Grace Hopper", email := some "grace@example.org",
    photoURL := none, providerId := some "google.com", emailVerified := true }

end PublicApp

/-! ## `public/js/gradebook.js`: `exportToCSV` -/

namespace GradebookManager

/-- The line feed character, the `'\n'` that joins the lines of the CSV text. -/
def lineFeed : Char := Char.ofNat 10

/-- The double quote character. -/
def doubleQuote : Char := Char.ofNat 34

/-- Concatenation of character lists with a separator between consecutive ones. -/
def joinChars (sep : List Char) : List (List Char) → List Char
  | [] => []
  | [a] => a
  | a :: b :: l => a ++ sep ++ joinChars sep (b :: l)

/-- Translation of `array.join(sep)` on an array of strings. -/
def join (sep : String) (l : List String) : String :=
  ⟨joinChars sep.data (l.map String.data)⟩

/-- A missing value inside a template literal prints as `undefined`. -/
def showOpt (v : Option String) : String :=
  v.getD "undefined"

/-- An integer inside a template literal or concatenated to a string. -/
def showInt (n : Int) : String :=
  toString n

/-- The array `headers` of `exportToCSV`. -/
def csvHeaders : List String :=
  ["Student Name", "Email", "Course", "Assignment", "Grade", "Max Points", "Percentage",
   "Letter Grade", "Status", "Submitted Date"]

/-- The row that `exportToCSV` builds for one entry. `formatSubmitted` stands for
`this.formatDate(submittedDate)` as a function of the `submittedAt` property, and is `none`
where `Intl.DateTimeFormat` throws (an invalid date). The percentage is an integer already,
so `Math.round(percentage)` is the percentage. -/
def csvRow (formatSubmitted : Option Int → Option String) (grade : GradeEntry) :
    Option (List String) :=
  let percentage := calculatePercentage grade.grade grade.maxPoints
  let letterGrade := getLetterGrade percentage
  match formatSubmitted grade.submittedAt with
  | none => none
  | some submitted =>
    some
      [grade.studentName,
       showOpt (grade.fields.lookup "studentEmail"),
       showOpt (grade.fields.lookup "courseName"),
       showOpt (grade.fields.lookup "assignmentName"),
       (match grade.grade with
        | some g => if g = 0 then "-" else showInt g
        | none => "-"),
       (match grade.maxPoints with
        | some m => showInt m
        | none => "undefined"),
       showInt percentage ++ "%",
       letterGrade,
       showOpt grade.status,
       submitted]

/-- The rows of all entries, or `none` as soon as building one row throws. -/
def csvRows (formatSubmitted : Option Int → Option String) :
    List GradeEntry → Option (List (List String))
  | [] => some []
  | g :: rest =>
    match csvRow formatSubmitted g with
    | none => none
    | some row =>
      match csvRows formatSubmitted rest with
      | none => none
      | some rows => some (row :: rows)

/-- The cell between double quotes. -/
def quoteCell (cell : String) : String :=
  ⟨doubleQuote :: cell.data ++ [doubleQuote]⟩

/-- The text of one data line: the quoted cells joined by commas. -/
def csvLine (row : List String) : String :=
  join "," (row.map quoteCell)

/-- Translation of `exportToCSV()`: the `csvContent` that is offered for download, or `none`
when an exception is caught and only the error toast is shown. -/
def exportToCSV (formatSubmitted : Option Int → Option String) (s : Gradebook) :
    Option String :=
  match csvRows formatSubmitted s.filteredGrades with
  | none => none
  | some rows =>
    some (join (String.singleton lineFeed) (join "," csvHeaders :: rows.map csvLine))

/-- The lines of a text: the pieces between line feeds. -/
def splitLines : List Char → List (List Char)
  | [] => [[]]
  | c :: s =>
    if c = lineFeed then [] :: splitLines s
    else
      match splitLines s with
      | l :: ls => (c :: l) :: ls
      | [] => [[c]]

/-- The lines of a string. -/
def linesOf (text : String) : List String :=
  (splitLines text.data).map String.mk

/-- A formatter of submission times for the examples: the number of milliseconds. -/
def sampleFormat (submittedAt : Option Int) : Option String :=
  submittedAt.map (fun t => "t" ++ showInt t)

end GradebookManager

/-! ## The document store as the cloud functions and the dashboards see it -/

/-- A document of a collection: its id and its data. -/
structure Stored (α : Type) where
  id : DocId
  data : α
  deriving DecidableEq, Repr

/-- The data of the document with the given id, `none` when there is no such document. -/
def findDoc {α : Type} (collection : List (Stored α)) (id : DocId) : Option α :=
  (collection.find? (fun d => d.id = id)).map (fun d => d.data)

/-- Data of a `users` document. -/
structure UserRecord where
  email : Option String
  enrolledCourses : Option (List DocId)
  submissions : Option Int
  fields : Fields
  deriving DecidableEq, Repr

/-- Data of a `courses` document. -/
structure CourseRecord where
  title : Option String
  fields : Fields
  deriving DecidableEq, Repr

/-- Data of an `assignments` document; `dueDate` in milliseconds. -/
structure AssignmentRecord where
  courseId : Option DocId
  title : Option String
  maxScore : Option Int
  dueDate : Option Int
  fields : Fields
  deriving DecidableEq, Repr

/-- Data of a document `assignments/{assignmentId}/submissions/{studentId}`; a `score` of
`none` is a missing score or `NaN`. -/
structure SubmissionRecord where
  status : Option String
  score : Option Int
  feedback : Option String
  fields : Fields
  deriving DecidableEq, Repr

/-- A document of the subcollection `submissions` of an assignment, with its path. -/
structure NestedSubmission where
  assignmentId : DocId
  studentId : DocId
  data : SubmissionRecord
  deriving DecidableEq, Repr

/-- Data of a document of the top-level collection `submissions`. -/
structure SubmissionDoc where
  assignmentId : DocId
  courseId : Option DocId
  studentId : DocId
  status : String
  comments : String
  content : Option String
  fileUrl : Option String
  fileName : Option String
  deriving DecidableEq, Repr

/-- Data of a `grades` document. A `score` or `maxScore` that is `none` is missing or `NaN`,
and an integer beyond the doubles stands for an infinity; a `percentage` that is `none` is
not a finite number. -/
structure GradeRecord where
  studentId : DocId
  courseId : Option DocId
  assignment : Option String
  score : Option Int
  maxScore : Option Int
  percentage : Option Int
  feedback : String
  gradedBy : DocId
  deriving DecidableEq, Repr

/-- The collections of the document store, each in snapshot order. -/
structure LmsDb where
  users : List (Stored UserRecord)
  courses : List (Stored CourseRecord)
  assignments : List (Stored AssignmentRecord)
  nestedSubmissions : List NestedSubmission
  submissions : List (Stored SubmissionDoc)
  grades : List GradeRecord
  deriving DecidableEq, Repr

/-- The document `assignments/{assignmentId}/submissions/{studentId}`, if it exists. -/
def findNested (db : LmsDb) (assignmentId studentId : DocId) : Option SubmissionRecord :=
  (db.nestedSubmissions.find?
    (fun d => d.assignmentId = assignmentId ∧ d.studentId = studentId)).map (fun d => d.data)

/-! ## `functions/index.js`: `getUserStats` -/

namespace Functions

/-- The object `stats` of `getUserStats`; an `averageGrade` that is not a finite number is
`none`. -/
structure Stats where
  activeCourses : Nat
  completedCourses : Nat
  pendingAssignments : Nat
  submittedAssignments : Nat
  averageGrade : Option Int
  deriving DecidableEq, Repr

/-- The JSON body of a response. -/
inductive ResponseBody where
  | error (error : String) (details : Option String)
  | stats (stats : Stats)
  deriving DecidableEq, Repr

/-- An HTTP response: status code and body. -/
structure Response where
  status : Nat
  body : ResponseBody
  deriving DecidableEq, Repr

/-- For each kind of read of `getUserStats`, the message of the error with which the store
rejects it, if it does. -/
structure ReadFaults where
  userRead : Option String
  gradesRead : Option String
  assignmentsRead : Option String
  submissionRead : Option String
  deriving DecidableEq, Repr

/-- The reads all succeed. -/
def noReadFaults : ReadFaults :=
  { userRead := none, gradesRead := none, assignmentsRead := none, submissionRead := none }

/-- The term `(grade.score / grade.maxScore) * 100`; `none` when it is not a finite number. -/
def gradePercent (g : GradeRecord) : Option ℚ :=
  match g.score, g.maxScore with
  | some s, some m => Float64.percentOf s m
  | _, _ => none

/-- The sum `totalScore` over the grade documents, added up from zero in snapshot order;
`none` when it is not a finite number. -/
def totalScore (grades : List GradeRecord) : Option ℚ :=
  grades.foldl (fun total grade => Float64.add total (gradePercent grade)) (some 0)

/-- The value of `averageGrade` for the grade documents of a user: `0` without grades, else
`Math.round(totalScore / size)`. -/
def averageGrade (grades : List GradeRecord) : Option Int :=
  if grades.length > 0 then
    Float64.mathRound (Float64.divInt (totalScore grades) grades.length)
  else some 0

/-- The inner loop of `getUserStats` over the assignments of one course: the pair of
`pendingAssignments` and `submittedAssignments`, or the message of a failed read. -/
def countAssignments (faults : ReadFaults) (db : LmsDb) (uid : DocId) :
    List (Stored AssignmentRecord) → Nat × Nat → Except String (Nat × Nat)
  | [], acc => .ok acc
  | a :: rest, acc =>
    match faults.submissionRead with
    | some message => .error message
    | none =>
      match findNested db a.id uid with
      | some submission =>
        if submission.status = some "graded" then
          countAssignments faults db uid rest (acc.1, acc.2 + 1)
        else
          countAssignments faults db uid rest (acc.1 + 1, acc.2)
      | none => countAssignments faults db uid rest (acc.1 + 1, acc.2)

/-- The answer of the query `assignments where courseId == courseId`. -/
def assignmentsOfCourse (db : LmsDb) (courseId : DocId) : List (Stored AssignmentRecord) :=
  db.assignments.filter (fun a => a.data.courseId = some courseId)

/-- The outer loop of `getUserStats` over the enrolled courses. -/
def countCourses (faults : ReadFaults) (db : LmsDb) (uid : DocId) :
    List DocId → Nat × Nat → Except String (Nat × Nat)
  | [], acc => .ok acc
  | courseId :: rest, acc =>
    match faults.assignmentsRead with
    | some message => .error message
    | none =>
      match countAssignments faults db uid (assignmentsOfCourse db courseId) acc with
      | .error message => .error message
      | .ok acc => countCourses faults db uid rest acc

/-- The response of the `catch` block. -/
def internalError (message : String) : Response :=
  { status := 500, body := .error "Internal server error" (some message) }

/-- Translation of `getUserStats`; `uid` is `req.query.uid`, `none` when the parameter is
absent. -/
def getUserStats (faults : ReadFaults) (db : LmsDb) (uid : Option String) : Response :=
  match uid with
  | none => { status := 400, body := .error "Missing UID parameter" none }
  | some uid =>
    if uid = "" then { status := 400, body := .error "Missing UID parameter" none }
    else
      match faults.userRead with
      | some message => internalError message
      | none =>
        match findDoc db.users uid with
        | none => { status := 404, body := .error "User not found" none }
        | some user =>
          let enrolledCourses := user.enrolledCourses.getD []
          match faults.gradesRead with
          | some message => internalError message
          | none =>
            let grades := db.grades.filter (fun g => g.studentId = uid)
            match countCourses faults db uid enrolledCourses (0, 0) with
            | .error message => internalError message
            | .ok counts =>
              { status := 200
                body := .stats
                  { activeCourses := enrolledCourses.length
                    completedCourses := 0
                    pendingAssignments := counts.1
                    submittedAssignments := counts.2
                    averageGrade := averageGrade grades } }

end Functions

namespace Functions

/-- The submission document of the user for the assignment exists and has status
`graded`. -/
def submissionGraded (db : LmsDb) (uid : DocId) (a : Stored AssignmentRecord) : Bool :=
  match findNested db a.id uid with
  | some submission => decide (submission.status = some "graded")
  | none => false

/-- The assignment documents found for the course ids of a list, query by query. -/
def assignmentsFound (db : LmsDb) (courseIds : List DocId) : List (Stored AssignmentRecord) :=
  courseIds.flatMap (assignmentsOfCourse db)

/-- A store with one student enrolled in one course with two assignments, one of them
graded for the student. -/
def sampleDb : LmsDb where
  users := [{ id := "u1", data := { email := some "ada@example.org",
                                    enrolledCourses := some ["c1"], submissions := none,
                                    fields := [] } }]
  courses := [{ id := "c1", data := { title := some "Programming", fields := [] } }]
  assignments :=
    [{ id := "a1", data := { courseId := some "c1", title := some "Essay",
                             maxScore := some 50, dueDate := some 3600000, fields := [] } },
     { id := "a2", data := { courseId := some "c1", title := some "Quiz",
                             maxScore := some 10, dueDate := some 900000000, fields := [] } }]
  nestedSubmissions :=
    [{ assignmentId := "a2", studentId := "u1",
       data := { status := some "graded", score := some 8, feedback := some "Good",
                 fields := [] } }]
  submissions := []
  grades := []

end Functions

/-! ## `public/js/instructorDashboard.js`: `gradeSubmission` -/

namespace InstructorDashboard

/-- For each backend call of `gradeSubmission`, and for the reload of the submissions
that follows, the error code with which it is rejected, if it is. -/
structure GradeFaults where
  updateFault : Option String
  getFault : Option String
  addFault : Option String
  reloadFault : Option String
  deriving DecidableEq, Repr

/-- Everything one run of `gradeSubmission` leaves behind: the store and the messages
shown, oldest first. -/
structure GradeOutcome where
  db : LmsDb
  messages : List (String × String)
  deriving DecidableEq, Repr

/-- The value `Math.round((score / maxScore) * 100)`; `none` when it is not a finite number
(a missing operand, `NaN`, a division by zero, or a quotient beyond the doubles). -/
def jsPercentage (score maxScore : Option Int) : Option Int :=
  match score, maxScore with
  | some s, some m => Float64.mathRound (Float64.percentOf s m)
  | _, _ => none

/-- Effect of a successful `update` of `assignments/{assignmentId}/submissions/{studentId}`
with a status, a score and a feedback. -/
def updateNested (db : LmsDb) (assignmentId studentId : DocId) (score : Option Int)
    (feedback : String) : LmsDb :=
  { db with
    nestedSubmissions := db.nestedSubmissions.map (fun d =>
      if d.assignmentId = assignmentId ∧ d.studentId = studentId then
        { d with data := { d.data with status := some "graded", score := score,
                                       feedback := some feedback } }
      else d) }

/-- The message of the `catch` block. -/
def gradingFailed : String × String :=
  ("Failed to grade submission", "error")

/-- The message of the `catch` block of `loadSubmissions`, which keeps its errors to itself. -/
def loadingFailed : String × String :=
  ("Failed to load submissions", "error")

/-- Translation of `gradeSubmission(assignmentId, studentId, score, feedback)`; `parseInt`
is the function of that name and `currentUser` the uid of `this.currentUser`. -/
def gradeSubmission (parseInt : String → Option Int) (faults : GradeFaults)
    (currentUser : Option DocId) (db : LmsDb) (assignmentId studentId : DocId)
    (score feedback : String) : GradeOutcome :=
  match faults.updateFault with
  | some _ => { db := db, messages := [gradingFailed] }
  | none =>
    match findNested db assignmentId studentId with
    | none => { db := db, messages := [gradingFailed] }
    | some _ =>
      let db1 := updateNested db assignmentId studentId (parseInt score) feedback
      match faults.getFault with
      | some _ => { db := db1, messages := [gradingFailed] }
      | none =>
        match findDoc db1.assignments assignmentId, currentUser with
        | some assignment, some gradedBy =>
          match faults.addFault with
          | some _ => { db := db1, messages := [gradingFailed] }
          | none =>
            let grade : GradeRecord :=
              { studentId := studentId
                courseId := assignment.courseId
                assignment := assignment.title
                score := parseInt score
                maxScore := assignment.maxScore
                percentage := jsPercentage (parseInt score) assignment.maxScore
                feedback := feedback
                gradedBy := gradedBy }
            let db2 := { db1 with grades := db1.grades ++ [grade] }
            let success := ("Submission graded successfully!", "success")
            match faults.reloadFault with
            | some _ => { db := db2, messages := [success, loadingFailed] }
            | none => { db := db2, messages := [success] }
        | _, _ => { db := db1, messages := [gradingFailed] }

/-- No call of `gradeSubmission` is rejected. -/
def noGradeFaults : GradeFaults :=
  { updateFault := none, getFault := none, addFault := none, reloadFault := none }

/-- The number written by decimal digits, after the digits already read. -/
def parseDigits : List Char → Nat → Option Nat
  | [], n => some n
  | c :: cs, n =>
    if 48 ≤ c.toNat ∧ c.toNat ≤ 57 then parseDigits cs (10 * n + (c.toNat - 48)) else none

/-- A `parseInt` for the examples, defined on non-empty strings of decimal digits. -/
def sampleParseInt (s : String) : Option Int :=
  if s.data = [] then none else (parseDigits s.data 0).map Int.ofNat

/-- The sample store with a third assignment, of 40 points, handed in by its student. -/
def halfPointDb : LmsDb :=
  { Functions.sampleDb with
    assignments := Functions.sampleDb.assignments ++
      [{ id := "a3", data := { courseId := some "c1", title := some "Project",
                               maxScore := some 40, dueDate := some 900000000, fields := [] } }]
    nestedSubmissions := Functions.sampleDb.nestedSubmissions ++
      [{ assignmentId := "a3", studentId := "u1",
         data := { status := some "pending", score := none, feedback := none,
                   fields := [] } }] }

end InstructorDashboard

/-! ## `functions/index.js`: `confirmCourseEnrollment` -/

namespace Functions

/-- An enrollment confirmation handed to the mail transport: the recipient, and the course
whose title and details fill the subject and the body. -/
structure EnrollmentEmail where
  recipient : Option String
  courseId : DocId
  courseTitle : Option String
  deriving DecidableEq, Repr

/-- The error with which the read of the course or the mail transport fails, if it does. -/
structure MailFaults where
  courseRead : Option String
  sendMail : Option String
  deriving DecidableEq, Repr

/-- What one run of the trigger leaves behind: its return value and the mails sent. -/
structure TriggerOutcome where
  result : Bool
  sent : List EnrollmentEmail
  deriving DecidableEq, Repr

/-- The value `newCourseId`: the first id of the new list that the old list does not
include. -/
def newCourseId (oldCourses newCourses : List DocId) : Option DocId :=
  newCourses.find? (fun id => !oldCourses.contains id)

/-- Translation of `confirmCourseEnrollment`; `before` and `after` are the data of the user
document before and after the update. -/
def confirmCourseEnrollment (faults : MailFaults) (db : LmsDb) (before after : UserRecord) :
    TriggerOutcome :=
  let oldCourses := before.enrolledCourses.getD []
  let newCourses := after.enrolledCourses.getD []
  match newCourseId oldCourses newCourses with
  | none => { result := true, sent := [] }
  | some id =>
    if id = "" then { result := true, sent := [] }
    else
      match faults.courseRead with
      | some _ => { result := false, sent := [] }
      | none =>
        match findDoc db.courses id with
        | none => { result := false, sent := [] }
        | some course =>
          match faults.sendMail with
          | some _ => { result := false, sent := [] }
          | none =>
            { result := true
              sent := [{ recipient := after.email, courseId := id, courseTitle := course.title }] }

/-- The read of the course and the mail transport both succeed. -/
def noMailFaults : MailFaults :=
  { courseRead := none, sendMail := none }

end Functions

namespace Functions

/-- A user document without enrolled courses. -/
def sampleBefore : UserRecord :=
  { email := some "ada@example.org", enrolledCourses := some [], submissions := none,
    fields := [] }

/-- The same user enrolled in a course id that has no document. -/
def sampleAfterGhost : UserRecord :=
  { email := some "ada@example.org", enrolledCourses := some ["ghost"], submissions := none,
    fields := [] }

/-- The same user enrolled in the course of the sample store. -/
def sampleAfter : UserRecord :=
  { email := some "ada@example.org", enrolledCourses := some ["c1"], submissions := none,
    fields := [] }

end Functions

/-! ## `functions/index.js`: `sendAssignmentReminders` -/

namespace Functions

/-- A reminder handed to the mail transport: the recipient, the assignment and the student
it is about, and the texts that fill the subject and the body. -/
structure ReminderEmail where
  recipient : Option String
  assignmentId : DocId
  studentId : DocId
  assignmentTitle : Option String
  courseTitle : Option String
  daysUntil : Int
  deriving DecidableEq, Repr

/-- For each kind of backend call of `sendAssignmentReminders`, the error code with which
it is rejected, if it is. -/
structure ReminderFaults where
  assignmentsRead : Option String
  courseRead : Option String
  studentsRead : Option String
  submissionRead : Option String
  sendMail : Option String
  deriving DecidableEq, Repr

/-- No call of `sendAssignmentReminders` is rejected. -/
def noReminderFaults : ReminderFaults :=
  { assignmentsRead := none, courseRead := none, studentsRead := none, submissionRead := none,
    sendMail := none }

/-- What one run of `sendAssignmentReminders` leaves behind: the mails sent, oldest first,
and whether it ended by throwing. -/
structure ReminderOutcome where
  sent : List ReminderEmail
  thrown : Option JSError
  deriving DecidableEq, Repr

/-- The number of milliseconds of a day. -/
def dayMs : Int := 24 * 60 * 60 * 1000

/-- The value `Math.ceil(a / b)` for integers `a` and `b > 0`. -/
def ceilDiv (a b : Int) : Int :=
  -((-a) / b)

/-- The loop over the students enrolled in the course of one assignment. A reminder is
sent when the submission document of the student under the assignment does not exist or has
status `pending`. -/
def remindStudents (faults : ReminderFaults) (db : LmsDb) (now : Int)
    (assignment : Stored AssignmentRecord) (due : Int) (course : Option CourseRecord) :
    List (Stored UserRecord) → List ReminderEmail → ReminderOutcome
  | [], sent => { sent := sent, thrown := none }
  | student :: rest, sent =>
    match faults.submissionRead with
    | some code => { sent := sent, thrown := some (.firestoreError code) }
    | none =>
      let submission := findNested db assignment.id student.id
      if submission = none ∨ submission.bind (fun d => d.status) = some "pending" then
        match course with
        | none =>
          { sent := sent
            thrown := some (.typeError "Cannot read properties of undefined (reading title)") }
        | some course =>
          match faults.sendMail with
          | some code => { sent := sent, thrown := some (.error code) }
          | none =>
            remindStudents faults db now assignment due (some course) rest
              (sent ++ [{ recipient := student.data.email
                          assignmentId := assignment.id
                          studentId := student.id
                          assignmentTitle := assignment.data.title
                          courseTitle := course.title
                          daysUntil := ceilDiv (due - now) dayMs }])
      else remindStudents faults db now assignment due course rest sent

/-- The loop over the assignments that are due. -/
def remindAssignments (faults : ReminderFaults) (db : LmsDb) (now : Int) :
    List (Stored AssignmentRecord) → List ReminderEmail → ReminderOutcome
  | [], sent => { sent := sent, thrown := none }
  | assignment :: rest, sent =>
    match assignment.data.courseId, assignment.data.dueDate with
    | some courseId, some due =>
      match faults.courseRead with
      | some code => { sent := sent, thrown := some (.firestoreError code) }
      | none =>
        let course := findDoc db.courses courseId
        match faults.studentsRead with
        | some code => { sent := sent, thrown := some (.firestoreError code) }
        | none =>
          let students := db.users.filter (fun u =>
            (u.data.enrolledCourses.getD []).contains courseId)
          let outcome := remindStudents faults db now assignment due course students sent
          match outcome.thrown with
          | some e => { sent := outcome.sent, thrown := some e }
          | none => remindAssignments faults db now rest outcome.sent
    | _, _ =>
      { sent := sent, thrown := some (.firestoreError "invalid-argument") }

/-- Translation of `sendAssignmentReminders`; `now` is the time of the run in
milliseconds. The due assignments are visited in collection order; the store returns them
by due date, which only changes the order of the mails. -/
def sendAssignmentReminders (faults : ReminderFaults) (db : LmsDb) (now : Int) :
    ReminderOutcome :=
  let tomorrow := now + dayMs
  match faults.assignmentsRead with
  | some code => { sent := [], thrown := some (.firestoreError code) }
  | none =>
    let due := db.assignments.filter (fun a =>
      match a.data.dueDate with
      | some d => decide (d ≤ tomorrow) && decide (d ≥ now)
      | none => false)
    remindAssignments faults db now due []

end Functions

/-! ## `public/js/submissionManager.js`: `submitAssignment` -/

namespace SubmissionManager

/-- The fields of a `SubmissionManager` that `submitAssignment` reads; `currentSubmission`
is the id of the document found by `checkPreviousSubmission`, if any. -/
structure SubmitState where
  currentAssignment : Option (Stored AssignmentRecord)
  currentSubmission : Option DocId
  selectedFile : Option File
  submissionType : Option String
  deriving DecidableEq, Repr

/-- What `submitAssignment` takes from the page and the backend: the signed-in user, the
contents of the three inputs, the result of the file upload (the download URL or an error
message), the id the store gives a new document, and the error messages with which the write
of the submission and the update of the user document are rejected, if they are. -/
structure SubmitEnv where
  currentUser : Option DocId
  comments : String
  textContent : String
  urlContent : String
  upload : Except String String
  newDocId : DocId
  writeFault : Option String
  statsFault : Option String

/-- Everything one run of `submitAssignment` leaves behind: the store and the last toast. -/
structure SubmitOutcome where
  db : LmsDb
  toast : String × String
  deriving DecidableEq, Repr

/-- The toast of the `catch` block. -/
def errorToast (message : String) : String × String :=
  ("Error: " ++ message, "error")

/-- Translation of `updateUserStats(userId)`, whose errors are caught and logged. -/
def updateUserStats (env : SubmitEnv) (db : LmsDb) (userId : DocId) : LmsDb :=
  match env.statsFault with
  | some _ => db
  | none =>
    { db with
      users := db.users.map (fun u =>
        if u.id = userId then
          { u with data := { u.data with
              submissions := some (u.data.submissions.getD 0 + 1) } }
        else u) }

/-- Effect of `updateDoc` on a document of `submissions`: the fields of the new data
replace the old ones, the fields it does not have stay. -/
def mergeSubmission (new old : SubmissionDoc) : SubmissionDoc :=
  { new with
    content := match new.content with
      | some c => some c
      | none => old.content
    fileUrl := match new.fileUrl with
      | some u => some u
      | none => old.fileUrl
    fileName := match new.fileName with
      | some n => some n
      | none => old.fileName }

/-- The object `submissionData` of `submitAssignment`; `fileUrl` is the URL of the uploaded
file, if a file was uploaded. -/
def buildSubmission (env : SubmitEnv) (s : SubmitState) (uid : DocId)
    (assignment : Stored AssignmentRecord) (fileUrl : Option String) : SubmissionDoc :=
  let withFile : Bool :=
    decide (s.submissionType = some "file") && decide (fileUrl ≠ none ∧ fileUrl ≠ some "")
  { assignmentId := assignment.id
    courseId := assignment.data.courseId
    studentId := uid
    status := "submitted"
    comments := env.comments
    content :=
      if withFile then none
      else if s.submissionType = some "text" then some env.textContent
      else if s.submissionType = some "url" then some env.urlContent
      else none
    fileUrl := if withFile then fileUrl else none
    fileName := if withFile then s.selectedFile.map (fun f => f.name) else none }

/-- The end of `submitAssignment`: the submission is written to the top-level collection
`submissions`, as an update of the previous submission if there is one and as a new document
otherwise, and the statistics of the user are updated. -/
def storeSubmission (env : SubmitEnv) (s : SubmitState) (db : LmsDb) (uid : DocId)
    (submissionData : SubmissionDoc) : SubmitOutcome :=
  match env.writeFault with
  | some message => { db := db, toast := errorToast message }
  | none =>
    match s.currentSubmission with
    | some previous =>
      match findDoc db.submissions previous with
      | none => { db := db, toast := errorToast "No document to update" }
      | some _ =>
        let db1 := { db with
          submissions := db.submissions.map (fun d =>
            if d.id = previous then { d with data := mergeSubmission submissionData d.data }
            else d) }
        { db := updateUserStats env db1 uid
          toast := ("Assignment resubmitted successfully", "success") }
    | none =>
      let db1 := { db with
        submissions := db.submissions ++ [{ id := env.newDocId, data := submissionData }] }
      { db := updateUserStats env db1 uid
        toast := ("Assignment submitted successfully", "success") }

/-- The file upload of `submitAssignment`: the URL of the uploaded file, `none` when no file
is uploaded, or the message of the error of the upload. -/
def uploadIfFile (env : SubmitEnv) (s : SubmitState) : Except String (Option String) :=
  if s.submissionType = some "file" ∧ s.selectedFile ≠ none then env.upload.map some
  else .ok none

/-- Translation of `submitAssignment()`. -/
def submitAssignment (env : SubmitEnv) (s : SubmitState) (db : LmsDb) : SubmitOutcome :=
  match env.currentUser with
  | none => { db := db, toast := errorToast "User not authenticated" }
  | some uid =>
    match uploadIfFile env s with
    | .error message => { db := db, toast := errorToast message }
    | .ok fileUrl =>
      match s.currentAssignment with
      | none =>
        { db := db, toast := errorToast "Cannot read properties of null (reading id)" }
      | some assignment =>
        storeSubmission env s db uid (buildSubmission env s uid assignment fileUrl)

/-- The student of the sample store about to submit a text for the first assignment. -/
def sampleSubmitState : SubmitState :=
  { currentAssignment :=
      some { id := "a1", data := { courseId := some "c1", title := some "Essay",
                                   maxScore := some 50, dueDate := some 3600000, fields := [] } }
    currentSubmission := none
    selectedFile := none
    submissionType := some "text" }

/-- The page and backend of the sample submission: user `u1` is signed in, nothing fails. -/
def sampleSubmitEnv : SubmitEnv :=
  { currentUser := some "u1", comments := "", textContent := "My essay", urlContent := "",
    upload := .ok "", newDocId := "s1", writeFault := none, statsFault := none }

end SubmissionManager

/-! ## `public/app.js`: `handleEmailLogin` and `redirectUser` -/

namespace PublicApp

/-- Outcome of the backend calls of one email login, fixed from outside: the sign-in returns
the uid of the user or is rejected with an error code, and the document read and the
document update may each be rejected with an error code. -/
structure LoginBackend where
  signIn : Except String DocId
  getDocFault : Option String
  updateDocFault : Option String

/-- Everything one run of `handleEmailLogin` leaves behind: the store, the users whose
document it updated with `provider: 'email'`, the message shown in the error element, the
toast, and the page the browser is sent to once the delay has passed. -/
structure LoginOutcome where
  db : Firestore
  updateCalls : List DocId
  error : Option String
  toast : Option (String × String)
  redirect : Option String

/-- Translation of `redirectUser(user, role = 'student')`: the page it assigns to
`window.location.href`. The argument is `none` when the call passes no role, and the
default value applies. -/
def redirectUser (role : Option String) : String :=
  let role := role.getD "student"
  if role = "instructor" then "instructor-dashboard.html"
  else if role = "admin" then "admin-dashboard.html"
  else "dashboard.html"

/-- The role stored in a user document. -/
def roleOf (u : UserDoc) : Option String :=
  u.fields.lookup "role"

/-- The test `!userData.provider`: the provider is missing or empty. -/
def providerMissing (u : UserDoc) : Bool :=
  match u.fields.lookup "provider" with
  | some provider => provider = ""
  | none => true

/-- Effect of a successful `updateDoc(userRef, { provider: 'email', lastLogin })`. -/
def setEmailProvider (db : Firestore) (uid : DocId) : Firestore :=
  { db with
    users := fun k =>
      if k = uid then
        (db.users uid).map (fun u =>
          { u with fields := mergeFields [("provider", "email"), ("lastLogin", "serverTimestamp")]
                               u.fields })
      else db.users k }

/-- Translation of `handleEmailLogin()`; `email` is the trimmed value of the email input and
`password` the value of the password input. The call in the delayed callback is
`redirectUser(userCredential.user)`, without a role. -/
def handleEmailLogin (env : LoginBackend) (db : Firestore) (email password : String) :
    LoginOutcome :=
  if email = "" ∨ password = "" then
    { db := db, updateCalls := [], error := some "Please fill in all fields", toast := none,
      redirect := none }
  else if ¬ isValidEmail email then
    { db := db, updateCalls := [], error := some "Please enter a valid email address",
      toast := none, redirect := none }
  else
    match env.signIn with
    | .error code =>
      { db := db, updateCalls := [], error := some (getErrorMessage code), toast := none,
        redirect := none }
    | .ok uid =>
      match env.getDocFault with
      | some code =>
        { db := db, updateCalls := [], error := some (getErrorMessage code), toast := none,
          redirect := none }
      | none =>
        let success : Option (String × String) := some ("Login successful!", "success")
        match db.users uid with
        | none =>
          { db := db, updateCalls := [], error := none, toast := success,
            redirect := some (redirectUser none) }
        | some userData =>
          if providerMissing userData then
            match env.updateDocFault with
            | some code =>
              { db := db, updateCalls := [uid], error := some (getErrorMessage code),
                toast := none, redirect := none }
            | none =>
              { db := setEmailProvider db uid, updateCalls := [uid], error := none,
                toast := success, redirect := some (redirectUser none) }
          else
            { db := db, updateCalls := [], error := none, toast := success,
              redirect := some (redirectUser none) }

/-- A store with an instructor who registered with an email and a password. -/
def sampleLoginDb : Firestore where
  users := fun k =>
    if k = "i1" then
      some { enrolledCourses := some [],
             fields := [("role", "instructor"), ("provider", "email")] }
    else none
  courses := fun _ => none

end PublicApp

namespace GradebookManager

/-- A row graded above the maximum: 110 of 100 points. -/
def extraCreditEntry : GradeEntry :=
  { id := "s9", studentName := "Eve", courseId := some "c1", grade := some 110,
    maxPoints := some 100, status := some "graded", submittedAt := some 4, fields := [] }

/-- A gradebook holding only the row graded above the maximum. -/
def extraCreditGradebook : Gradebook :=
  { allGrades := [extraCreditEntry], filteredGrades := [extraCreditEntry], currentPage := 1,
    itemsPerPage := 20 }

end GradebookManager

/-! ## `functions/index.js`: `updateUserStatistics` -/

namespace Functions

/-- The object `stats` that `updateUserStatistics` writes on a user document, without its
time stamp. The property `averageGrade` is `none` when it is not set, and `some none` when
it is set to a value that is not a finite number. -/
structure CachedStats where
  totalCoursesEnrolled : Nat
  averageGrade : Option (Option Int)
  deriving DecidableEq, Repr

/-- For each kind of backend call of `updateUserStatistics`, the error code with which it
is rejected, if it is. -/
structure StatsFaults where
  usersRead : Option String
  gradesRead : Option String
  update : Option String
  deriving DecidableEq, Repr

/-- No call of `updateUserStatistics` is rejected. -/
def noStatsFaults : StatsFaults :=
  { usersRead := none, gradesRead := none, update := none }

/-- What one run of `updateUserStatistics` leaves behind: the store, the updates issued
(document id and stats), oldest first, and whether it ended by throwing. -/
structure StatsOutcome where
  db : LmsDb
  updates : List (DocId × CachedStats)
  thrown : Option JSError
  deriving DecidableEq, Repr

/-- The sum `totalScore` that `updateUserStatistics` accumulates over the grade documents of
a user, from zero in snapshot order; `none` when it is not a finite number. -/
def cachedTotalScore (grades : List GradeRecord) : Option ℚ :=
  grades.foldl (fun total grade =>
    match grade.score, grade.maxScore with
    | some s, some m => Float64.add total (Float64.percentOf s m)
    | _, _ => none) (some 0)

/-- The object `stats` that `updateUserStatistics` builds for one user document. -/
def statsOf (db : LmsDb) (userDoc : Stored UserRecord) : CachedStats :=
  let grades := db.grades.filter (fun g => g.studentId = userDoc.id)
  { totalCoursesEnrolled :=
      match userDoc.data.enrolledCourses with
      | some courses => courses.length
      | none => 0
    averageGrade :=
      if grades.length > 0 then
        some (Float64.mathRound (Float64.divInt (cachedTotalScore grades) grades.length))
      else none }

/-- The fields that an update with the stats sets on the user document; an average that is
not a finite number, `NaN` or an infinity, is marked `notFinite`. -/
def renderStats (stats : CachedStats) : Fields :=
  [("lastUpdated", "serverTimestamp"),
   ("totalCoursesEnrolled", toString stats.totalCoursesEnrolled)] ++
    (match stats.averageGrade with
     | some (some n) => [("averageGrade", toString n)]
     | some none => [("averageGrade", "notFinite")]
     | none => [])

/-- Effect of a successful `userDoc.ref.update(stats)`. -/
def applyStats (db : LmsDb) (uid : DocId) (stats : CachedStats) : LmsDb :=
  { db with
    users := db.users.map (fun u =>
      if u.id = uid then
        { u with data := { u.data with fields := mergeFields (renderStats stats) u.data.fields } }
      else u) }

/-- The loop of `updateUserStatistics` over the user documents of the snapshot. -/
def updateUsers (faults : StatsFaults) : List (Stored UserRecord) → StatsOutcome → StatsOutcome
  | [], out => out
  | userDoc :: rest, out =>
    match faults.gradesRead with
    | some code => { out with thrown := some (.firestoreError code) }
    | none =>
      let stats := statsOf out.db userDoc
      match faults.update with
      | some code => { out with thrown := some (.firestoreError code) }
      | none =>
        updateUsers faults rest
          { db := applyStats out.db userDoc.id stats
            updates := out.updates ++ [(userDoc.id, stats)]
            thrown := none }

/-- Translation of `updateUserStatistics`. -/
def updateUserStatistics (faults : StatsFaults) (db : LmsDb) : StatsOutcome :=
  match faults.usersRead with
  | some code => { db := db, updates := [], thrown := some (.firestoreError code) }
  | none => updateUsers faults db.users { db := db, updates := [], thrown := none }

/-- The arithmetic mean of `score / maxScore * 100` over grade documents with numeric scores
and non-zero maximal scores. -/
def meanPercent (grades : List GradeRecord) : ℚ :=
  (grades.map (fun g => ((g.score.getD 0 : Int) : ℚ) / ((g.maxScore.getD 0 : Int) : ℚ) * 100)).sum
    / (grades.length : ℚ)

/-- The sample store with two grades of its student: 8 of 10 and 45 of 50 points. -/
def sampleGradesDb : LmsDb :=
  { sampleDb with
    grades :=
      [{ studentId := "u1", courseId := some "c1", assignment := some "Quiz", score := some 8,
         maxScore := some 10, percentage := some 80, feedback := "", gradedBy := "t1" },
       { studentId := "u1", courseId := some "c1", assignment := some "Essay", score := some 45,
         maxScore := some 50, percentage := some 90, feedback := "", gradedBy := "t1" }] }

/-- The sample store with one grade of its student: 23 of 40 points. -/
def halfPointGradesDb : LmsDb :=
  { sampleDb with
    grades :=
      [{ studentId := "u1", courseId := some "c1", assignment := some "Project",
         score := some 23, maxScore := some 40, percentage := some 57, feedback := "",
         gradedBy := "t1" }] }

end Functions

/-! ## `getUpcomingDeadlines` of `public/js/dataManager.js` and of `public/js/app.js` -/

/-- The property `dueDate` of an assignment as `getUpcomingDeadlines` uses it: unset (a falsy
value), a value that `new Date(dueDate)` turns into a date with the given time value in
milliseconds, or a truthy value that `new Date(dueDate)` turns into an invalid date. -/
inductive DueDate where
  | unset
  | valid (time : Int)
  | invalid
  deriving DecidableEq, Repr

/-- An assignment object held in `currentUserData.assignments`; `completed` is the truth
value of the property of that name. -/
structure Assignment where
  id : Option String
  completed : Bool
  dueDate : DueDate
  fields : Fields
  deriving DecidableEq, Repr

/-- The user data object as `getUpcomingDeadlines` reads it; `assignments = none` stands for
a missing (falsy) `assignments` property. -/
structure DeadlineData where
  assignments : Option (List Assignment)
  fields : Fields
  deriving DecidableEq, Repr

/-- The number that `new Date(dueDate)` is in a subtraction: `none` is `NaN`. -/
def timeValue (d : DueDate) : Option Int :=
  match d with
  | .valid t => some t
  | .unset => none
  | .invalid => none

/-- The test of the `filter` of `getUpcomingDeadlines`: `!a.completed && a.dueDate`. -/
def isUpcoming (a : Assignment) : Bool :=
  !a.completed && decide (a.dueDate ≠ .unset)

/-- The comparator of the `sort` of `getUpcomingDeadlines`,
`new Date(a.dueDate) - new Date(b.dueDate)`, as `Array.prototype.sort` uses it. -/
def compareDue (a b : Assignment) : Int :=
  GradebookManager.sortCompare
    (GradebookManager.jsSub (timeValue a.dueDate) (timeValue b.dueDate))

namespace Utils

/-- Translation of `daysUntil(date)` of `js/utils.js`; `now` is the time of the call in
milliseconds and `none` is `NaN`. -/
def daysUntil (now : Int) (date : DueDate) : Option Int :=
  match date with
  | .unset => some 0
  | .valid t => some (Functions.ceilDiv (t - now) Functions.dayMs)
  | .invalid => none

/-- Translation of `formatDate(date)` of `js/utils.js`; `formatValid` renders a valid date
as month, day and year in local time. -/
def formatDate (formatValid : Int → String) (date : DueDate) : String :=
  match date with
  | .unset => ""
  | .valid t => formatValid t
  | .invalid => "NaN/NaN/NaN"

end Utils

namespace DataManager

/-- An entry of the result of `getUpcomingDeadlines`: the assignment with the two added
properties. -/
structure Deadline where
  assignment : Assignment
  daysUntil : Option Int
  formattedDate : String
  deriving DecidableEq, Repr

/-- Translation of `getUpcomingDeadlines(limit)` of `js/dataManager.js`, for `limit ≥ 0`: the
value returned, or the error thrown, and `currentUserData` after the call. `filter` builds a
new array, which `sort` then sorts in place. -/
def getUpcomingDeadlines (now : Int) (formatValid : Int → String)
    (currentUserData : Option DeadlineData) (limit : Nat) :
    Except JSError (List Deadline) × Option DeadlineData :=
  match currentUserData with
  | none =>
    (.error (.typeError "Cannot read properties of null (reading assignments)"), none)
  | some ud =>
    let assignments := ud.assignments.getD []
    (.ok ((((GradebookManager.jsSort compareDue (assignments.filter isUpcoming)).take limit).map
        (fun a =>
          { assignment := a
            daysUntil := Utils.daysUntil now a.dueDate
            formattedDate := Utils.formatDate formatValid a.dueDate }))),
      some ud)

end DataManager

namespace AppJs

/-- Translation of `DataManager.getUpcomingDeadlines(limit)` of the inline copy in
`js/app.js`, for `limit ≥ 0`. -/
def getUpcomingDeadlines (currentUserData : Option DeadlineData) (limit : Nat) :
    Except JSError (List Assignment) × Option DeadlineData :=
  match currentUserData with
  | none =>
    (.error (.typeError "Cannot read properties of null (reading assignments)"), none)
  | some ud =>
    let assignments := ud.assignments.getD []
    (.ok ((GradebookManager.jsSort compareDue (assignments.filter isUpcoming)).take limit),
      some ud)

end AppJs

/-- The time value of a valid due date, `0` standing in otherwise. -/
def dueTime (a : Assignment) : Int :=
  (timeValue a.dueDate).getD 0

/-- The assignments of a list are in the order of their due dates: of two of them with valid
due dates, the earlier in the list is not due later. -/
def DueOrdered (l : List Assignment) : Prop :=
  l.Pairwise (fun a b => ∀ s t, a.dueDate = .valid s → b.dueDate = .valid t → s ≤ t)

/-- The result is the `k` earliest due of the upcoming assignments of the list: it has at
most `k` entries, all of them assignments of the list that are not completed and have a due
date; it is in the order of the due dates; it is the beginning of an arrangement of all
upcoming assignments in the order of their due dates, so that no assignment left out is due
earlier than one returned, and all are returned when there are at most `k`. -/
def UpcomingSpec (assignments : List Assignment) (k : Nat) (result : List Assignment) : Prop :=
  result.length ≤ k ∧
  (∀ a ∈ result, a ∈ assignments ∧ a.completed = false ∧ a.dueDate ≠ .unset) ∧
  DueOrdered result ∧
  ∃ sorted : List Assignment, sorted.Perm (assignments.filter isUpcoming) ∧
    sorted.Pairwise (fun a b => dueTime a ≤ dueTime b) ∧
    result = sorted.take k ∧
    (∀ a ∈ result, ∀ b ∈ sorted.drop k, dueTime a ≤ dueTime b) ∧
    ((assignments.filter isUpcoming).length ≤ k → result.Perm (assignments.filter isUpcoming))

/-- Three open assignments, the second with a due date that is not a date. -/
def sampleDeadlineData : DeadlineData :=
  { assignments := some
      [{ id := some "x1", completed := false, dueDate := .valid 5, fields := [] },
       { id := some "x2", completed := false, dueDate := .invalid, fields := [] },
       { id := some "x3", completed := false, dueDate := .valid 3, fields := [] }]
    fields := [] }

/-- Four assignments with valid or missing due dates, one of them completed. -/
def sampleValidDeadlineData : DeadlineData :=
  { assignments := some
      [{ id := some "y1", completed := false, dueDate := .valid 5, fields := [] },
       { id := some "y2", completed := true, dueDate := .valid 1, fields := [] },
       { id := some "y3", completed := false, dueDate := .valid 3, fields := [] },
       { id := some "y4", completed := false, dueDate := .unset, fields := [] }]
    fields := [] }

/-! ## Enrollment: theorems -/

namespace PublicApp

/-- C1: for a signed-in user whose document exists and whose `enrolledCourses` already
contains `courseId`, `enrollInCourse(courseId)` issues no document write and leaves the
store, hence the user document and its `enrolledCourses`, as it was. -/
theorem enrollInCourse_enrolled_is_noop (env : Backend) (db : Firestore) (uid courseId : DocId)
    (u : UserDoc) (l : List DocId)
    (hdoc : db.users uid = some u) (hl : u.enrolledCourses = some l) (hmem : courseId ∈ l) :
    (enrollInCourse env (some uid) db courseId).writes = [] ∧
    (enrollInCourse env (some uid) db courseId).db = db ∧
    (enrollInCourse env (some uid) db courseId).db.users uid = some u := by
  unfold enrollInCourse
  by_cases hg : env.getDocFails = true
  · simp [hg, hdoc]
  · simp [hg, hdoc, hl, hmem]

/-- Witness of C1 on the sample store. -/
theorem enrollInCourse_enrolled_is_noop_witness :
    (enrollInCourse ⟨false, false⟩ (some "u1") sampleDb "cs101").writes = [] ∧
    (enrollInCourse ⟨false, false⟩ (some "u1") sampleDb "cs101").db = sampleDb ∧
    (enrollInCourse ⟨false, false⟩ (some "u1") sampleDb "cs101").db.users "u1" =
      some { enrolledCourses := some ["cs101"], fields := [("role", "student")] } :=
  enrollInCourse_enrolled_is_noop ⟨false, false⟩ sampleDb "u1" "cs101"
    { enrolledCourses := some ["cs101"], fields := [("role", "student")] } ["cs101"]
    (by simp [sampleDb]) rfl (by simp)

/-- C2: for a signed-in user with an existing document and a `courseId` not in its
`enrolledCourses`, a successful `enrollInCourse(courseId)` issues the single write of the
old list with `courseId` appended; afterwards the user document has that list as
`enrolledCourses` and its other fields unchanged, and every other user document and the
whole `courses` collection are unchanged. -/
theorem enrollInCourse_changes_only_enrolledCourses (env : Backend) (db : Firestore)
    (uid courseId : DocId) (u : UserDoc)
    (hread : env.getDocFails = false) (hwrite : env.updateDocFails = false)
    (hdoc : db.users uid = some u) (hnot : courseId ∉ u.enrolledCourses.getD []) :
    (enrollInCourse env (some uid) db courseId).writes =
      [{ uid := uid, enrolledCourses := u.enrolledCourses.getD [] ++ [courseId] }] ∧
    (enrollInCourse env (some uid) db courseId).db.users uid =
      some { enrolledCourses := some (u.enrolledCourses.getD [] ++ [courseId]),
             fields := u.fields } ∧
    (∀ k, k ≠ uid → (enrollInCourse env (some uid) db courseId).db.users k = db.users k) ∧
    (enrollInCourse env (some uid) db courseId).db.courses = db.courses := by
  unfold enrollInCourse
  simp only [hread, hdoc]
  simp [hwrite, hnot, updateDoc, hdoc]
  intro k hk
  simp [hk]

/-- Witness of C2 on the sample store. -/
theorem enrollInCourse_changes_only_enrolledCourses_witness :
    (enrollInCourse ⟨false, false⟩ (some "u1") sampleDb "ma201").writes =
      [{ uid := "u1", enrolledCourses := ["cs101", "ma201"] }] ∧
    (enrollInCourse ⟨false, false⟩ (some "u1") sampleDb "ma201").db.users "u1" =
      some { enrolledCourses := some ["cs101", "ma201"], fields := [("role", "student")] } ∧
    (enrollInCourse ⟨false, false⟩ (some "u1") sampleDb "ma201").db.users "u2" =
      sampleDb.users "u2" ∧
    (enrollInCourse ⟨false, false⟩ (some "u1") sampleDb "ma201").db.courses = sampleDb.courses :=
  have h := enrollInCourse_changes_only_enrolledCourses ⟨false, false⟩ sampleDb "u1" "ma201"
    { enrolledCourses := some ["cs101"], fields := [("role", "student")] }
    rfl rfl (by simp [sampleDb]) (by simp)
  ⟨h.1, h.2.1, h.2.2.1 "u2" (by decide), h.2.2.2⟩

end PublicApp

/-- The list that `enrollCourse` works on after defaulting a missing `courses` to `[]`. -/
theorem courses_match_eq_getD (o : Option (List Course)) :
    (match o with
      | none => []
      | some cs => cs) = o.getD [] := by
  cases o <;> rfl

/-- No element satisfies the id test exactly when all ids differ. -/
theorem any_id_eq_false_iff (l : List Course) (course : Course) :
    l.any (fun c => decide (c.id = course.id)) = false ↔ ∀ c ∈ l, c.id ≠ course.id := by
  simp [List.any_eq_false]

namespace DataManager

/-- C3: when no held course has the id of `course` and the document write inside
`saveUserData` fails, `enrollCourse` fails with the error of the write, after having issued
that write, and rolls nothing back: the in-memory `currentUserData.courses` is the old list
with `course` pushed at its end, while the store is unchanged, so that a stored document
that agreed with memory before the call differs from it afterwards. -/
theorem enrollCourse_failed_write_no_rollback (s : DMState) (userId : DocId) (course : Course)
    (ud : UserData) (code : String)
    (hud : s.currentUserData = some ud)
    (hnew : ∀ c ∈ ud.courses.getD [], c.id ≠ course.id) :
    (enrollCourse (some code) s userId course).1 = .error (.firestoreError code) ∧
    (enrollCourse (some code) s userId course).2.currentUserData =
      some { courses := some (ud.courses.getD [] ++ [course]), fields := ud.fields } ∧
    (ud.courses.getD [] ++ [course]).getLast? = some course ∧
    (enrollCourse (some code) s userId course).2.setCalls = s.setCalls ++
      [(userId, { courses := some (ud.courses.getD [] ++ [course]), fields := ud.fields })] ∧
    (enrollCourse (some code) s userId course).2.users = s.users ∧
    (∀ d, s.users userId = some d → d.courses.getD [] = ud.courses.getD [] →
      (enrollCourse (some code) s userId course).2.currentUserData ≠
        (enrollCourse (some code) s userId course).2.users userId) := by
  have hany := (any_id_eq_false_iff (ud.courses.getD []) course).2 hnew
  have hres : enrollCourse (some code) s userId course =
      (.error (.firestoreError code),
        { currentUserData :=
            some { courses := some (ud.courses.getD [] ++ [course]), fields := ud.fields }
          users := s.users
          setCalls := s.setCalls ++
            [(userId, { courses := some (ud.courses.getD [] ++ [course]), fields := ud.fields })] }) := by
    unfold enrollCourse
    simp only [hud, courses_match_eq_getD, hany, saveUserData]
    simp
  rw [hres]
  refine ⟨rfl, rfl, by simp, rfl, rfl, ?_⟩
  intro d hd hsync h
  simp only [hd, Option.some.injEq] at h
  have hc := congrArg (fun x => (UserData.courses x).getD []) h
  simp only [Option.getD_some, hsync] at hc
  have hlen := congrArg List.length hc
  simp at hlen

/-- Witness of C3: enrolling the sample user in another course while the write fails. -/
theorem enrollCourse_failed_write_no_rollback_witness :
    (enrollCourse (some "unavailable") sampleState "u1" otherCourse).1 =
      .error (.firestoreError "unavailable") ∧
    (enrollCourse (some "unavailable") sampleState "u1" otherCourse).2.currentUserData =
      some { courses := some [sampleCourse, otherCourse], fields := [("name", "Ada")] } ∧
    (enrollCourse (some "unavailable") sampleState "u1" otherCourse).2.users "u1" =
      some { courses := some [sampleCourse], fields := [("name", "Ada")] } :=
  have h := enrollCourse_failed_write_no_rollback sampleState "u1" otherCourse
    { courses := some [sampleCourse], fields := [("name", "Ada")] } "unavailable" rfl
    (by decide)
  ⟨h.1, h.2.1, by rw [h.2.2.2.2.1]; simp [sampleState]⟩

end DataManager

/-- Both copies of `enrollCourse` meet `EnrollCourseSpec`, each with its own message. -/
theorem DataManager.enrollCourse_meets_spec :
    EnrollCourseSpec DataManager.enrollCourse "Already enrolled in this course" := by
  open DataManager in
  refine ⟨?_, ?_, ?_⟩
  · intro fault s userId course
    unfold enrollCourse
    cases hcur : s.currentUserData with
    | none => simp
    | some ud =>
      simp only [courses_match_eq_getD]
      by_cases hany : (ud.courses.getD []).any (fun c => decide (c.id = course.id)) = true
      · simp only [hany, if_true, true_iff]
        refine ⟨ud, rfl, ?_⟩
        simpa using hany
      · have hno : ¬ ∃ c ∈ ud.courses.getD [], c.id = course.id := by simpa using hany
        simp only [hany]
        cases fault <;> simp [saveUserData, hno]
  · intro fault s userId course
    unfold enrollCourse
    cases hcur : s.currentUserData with
    | none => simp
    | some ud =>
      simp only [courses_match_eq_getD]
      by_cases hany : (ud.courses.getD []).any (fun c => decide (c.id = course.id)) = true
      · simp only [hany, if_true, forall_const]
        cases hc : ud.courses with
        | none => simp [hc] at hany
        | some cs =>
          cases ud
          simp_all
      · simp only [hany]
        cases fault <;> simp [saveUserData]
  · intro s userId course ud hud hnew
    have hany := (any_id_eq_false_iff (ud.courses.getD []) course).2 hnew
    unfold enrollCourse
    simp only [hud, courses_match_eq_getD, hany, saveUserData]
    simp

/-- The inline copy of `js/app.js` meets `EnrollCourseSpec` with the message it throws. -/
theorem AppJs.enrollCourse_inline_meets_spec :
    EnrollCourseSpec AppJs.enrollCourse "Already enrolled" := by
  open AppJs in
  refine ⟨?_, ?_, ?_⟩
  · intro fault s userId course
    unfold enrollCourse
    cases hcur : s.currentUserData with
    | none => simp
    | some ud =>
      simp only [courses_match_eq_getD]
      by_cases hany : (ud.courses.getD []).any (fun c => decide (c.id = course.id)) = true
      · simp only [hany, if_true, true_iff]
        refine ⟨ud, rfl, ?_⟩
        simpa using hany
      · have hno : ¬ ∃ c ∈ ud.courses.getD [], c.id = course.id := by simpa using hany
        simp only [hany]
        cases fault <;> simp [saveUserData, hno]
  · intro fault s userId course
    unfold enrollCourse
    cases hcur : s.currentUserData with
    | none => simp
    | some ud =>
      simp only [courses_match_eq_getD]
      by_cases hany : (ud.courses.getD []).any (fun c => decide (c.id = course.id)) = true
      · simp only [hany, if_true, forall_const]
        cases hc : ud.courses with
        | none => simp [hc] at hany
        | some cs =>
          cases ud
          simp_all
      · simp only [hany]
        cases fault <;> simp [saveUserData]
  · intro s userId course ud hud hnew
    have hany := (any_id_eq_false_iff (ud.courses.getD []) course).2 hnew
    unfold enrollCourse
    simp only [hud, courses_match_eq_getD, hany, saveUserData]
    simp

/-- C4, as stated, fails on the copy of `DataManager.enrollCourse` in `js/app.js`: the sample
user holds a course with the id of `sampleCourse`, yet the error raised is not
`Already enrolled in this course`. -/
theorem enrollCourse_message_counterexample :
    ¬ ((AppJs.enrollCourse none sampleState "u1" sampleCourse).1 =
          .error (.error "Already enrolled in this course") ↔
        ∃ ud, sampleState.currentUserData = some ud ∧
          ∃ c ∈ ud.courses.getD [], c.id = sampleCourse.id) := by
  intro h
  have hr : ∃ ud, sampleState.currentUserData = some ud ∧
      ∃ c ∈ ud.courses.getD [], c.id = sampleCourse.id :=
    ⟨_, rfl, sampleCourse, by simp, rfl⟩
  have hl := h.2 hr
  simp [AppJs.enrollCourse, sampleState, sampleCourse] at hl

/-- C4, amended: `enrollCourse` raises its already-enrolled error if and only if some held
course has the id of `course`, the message being `Already enrolled in this course` in
`js/dataManager.js` and `Already enrolled` in the copy of `js/app.js`; in that case
`currentUserData` is unchanged and no write is issued, and otherwise, when the write
succeeds, `courses` is the old list with `course` appended. -/
theorem enrollCourse_already_enrolled_iff :
    EnrollCourseSpec DataManager.enrollCourse "Already enrolled in this course" ∧
    EnrollCourseSpec AppJs.enrollCourse "Already enrolled" :=
  ⟨DataManager.enrollCourse_meets_spec, AppJs.enrollCourse_inline_meets_spec⟩

/-- Witness of the amended C4: the sample user is refused the sample course by both copies
and is enrolled in another course when the write succeeds. -/
theorem enrollCourse_already_enrolled_iff_witness :
    (DataManager.enrollCourse none sampleState "u1" sampleCourse).1 =
      .error (.error "Already enrolled in this course") ∧
    (AppJs.enrollCourse none sampleState "u1" sampleCourse).1 =
      .error (.error "Already enrolled") ∧
    (DataManager.enrollCourse none sampleState "u1" otherCourse).2.currentUserData =
      some { courses := some [sampleCourse, otherCourse], fields := [("name", "Ada")] } :=
  ⟨(enrollCourse_already_enrolled_iff.1.1 none sampleState "u1" sampleCourse).2
      ⟨_, rfl, sampleCourse, by simp, rfl⟩,
    (enrollCourse_already_enrolled_iff.2.1 none sampleState "u1" sampleCourse).2
      ⟨_, rfl, sampleCourse, by simp, rfl⟩,
    (enrollCourse_already_enrolled_iff.1.2.2 sampleState "u1" otherCourse
      { courses := some [sampleCourse], fields := [("name", "Ada")] } rfl (by decide)).2.1⟩

/-! ## Search: theorems -/

namespace SearchManager

/-- The test `needle.isPrefixOf l` holds exactly when `l` starts with `needle`. -/
theorem isPrefixOf_iff_append (needle l : List Char) :
    needle.isPrefixOf l = true ↔ ∃ after, l = needle ++ after := by
  induction needle generalizing l with
  | nil => simp
  | cons a t ih =>
    cases l with
    | nil => simp
    | cons b l =>
      simp only [List.isPrefixOf, Bool.and_eq_true, beq_iff_eq, ih, List.cons_append,
        List.cons.injEq]
      constructor
      · rintro ⟨rfl, r, rfl⟩
        exact ⟨r, rfl, rfl⟩
      · rintro ⟨r, rfl, rfl⟩
        exact ⟨rfl, r, rfl⟩

/-- The function `includesChars` decides contiguous occurrence. -/
theorem includesChars_iff (haystack needle : List Char) :
    includesChars haystack needle = true ↔
      ∃ before after, haystack = before ++ needle ++ after := by
  induction haystack with
  | nil =>
    cases needle with
    | nil => simp [includesChars]
    | cons a t => simp [includesChars]
  | cons c s ih =>
    simp only [includesChars, Bool.or_eq_true, isPrefixOf_iff_append, ih]
    constructor
    · rintro (⟨r, h⟩ | ⟨b, r, h⟩)
      · exact ⟨[], r, by simpa using h⟩
      · exact ⟨c :: b, r, by simp [h]⟩
    · rintro ⟨b, r, h⟩
      cases b with
      | nil => exact Or.inl ⟨r, by simpa using h⟩
      | cons x b =>
        simp only [List.cons_append, List.cons.injEq] at h
        exact Or.inr ⟨b, r, h.2⟩

/-- The function `includes` decides `IsSubstring`. -/
theorem includes_iff (haystack needle : String) :
    includes haystack needle = true ↔ IsSubstring needle haystack := by
  simp [includes, IsSubstring, includesChars_iff]

/-- The optional-chain test holds exactly when the field is present and its lower-cased
value contains the needle. -/
theorem fieldIncludes_iff (lower : String → String) (field : Option String) (needle : String) :
    fieldIncludes lower field needle = true ↔
      ∃ v, field = some v ∧ IsSubstring needle (lower v) := by
  cases field with
  | none => simp [fieldIncludes]
  | some v => simp [fieldIncludes, includes_iff]

/-- The test of `searchUsers` is the property `UserContains`. -/
theorem userMatches_iff (env : Backend) (q : String) (u : UserData) :
    userMatches env (env.toLowerCase q) u = true ↔ UserContains env q u := by
  simp [userMatches, UserContains, fieldIncludes_iff]

/-- The test of the description loop of `searchCourses` is the property `CourseContains`. -/
theorem courseTest_iff (env : Backend) (q : String) (c : CourseData) :
    (fieldIncludes env.toLowerCase c.description (env.toLowerCase q)
      || fieldIncludes env.toLowerCase c.code (env.toLowerCase q)) = true ↔
      CourseContains env q c := by
  simp [CourseContains, fieldIncludes_iff]

/-- The loop of `searchUsers` started with fewer than ten users collects the matching
documents in order until ten users are held. -/
theorem usersLoop_eq (env : Backend) (ql : String) (docs : List (Doc UserData))
    (acc : List (Hit UserData)) (hacc : acc.length < 10) :
    usersLoop env ql docs acc =
      acc ++ ((docs.filter (fun d => userMatches env ql d.data)).take (10 - acc.length)).map
        userHit := by
  induction docs generalizing acc with
  | nil => simp [usersLoop]
  | cons d rest ih =>
    by_cases hm : userMatches env ql d.data = true
    · by_cases hfull : acc.length + 1 ≥ 10
      · have h9 : 10 - acc.length = 1 := by omega
        simp [usersLoop, hm, hfull, h9, userHit]
      · have hlt : (acc ++ [userHit d]).length < 10 := by simp; omega
        have hstep : 10 - acc.length = (10 - (acc ++ [userHit d]).length) + 1 := by
          simp; omega
        have := ih (acc ++ [userHit d]) hlt
        simp only [userHit] at this
        simp only [usersLoop, hm, if_true, List.length_append, List.length_singleton, hfull,
          if_false, this, List.filter_cons_of_pos]
        rw [hstep]
        simp [userHit]
    · have hge : ¬ acc.length ≥ 10 := by omega
      simp [usersLoop, hm, hge, ih acc hacc]

/-- The loop of `searchMaterials` never holds more than ten lessons. -/
theorem materialsLoop_length (env : Backend) (ql : String) (docs : List (Doc LessonData))
    (acc : List (Hit LessonData)) (hacc : acc.length < 10) :
    (materialsLoop env ql docs acc).length ≤ 10 := by
  induction docs generalizing acc with
  | nil => simp [materialsLoop]; omega
  | cons d rest ih =>
    simp only [materialsLoop]
    split_ifs with hm hfull hfull
    · simp at hfull ⊢
      omega
    · exact ih _ (by omega)
    · omega
    · exact ih _ hacc

/-- The description loop of `searchCourses` appends the matching courses in order. -/
theorem courseFallback_eq (env : Backend) (q : String) (docs : List (Doc CourseData))
    (acc : List (Hit CourseData)) :
    courseFallback env q docs acc =
      acc ++ (docs.filter (fun d =>
        fieldIncludes env.toLowerCase d.data.description (env.toLowerCase q)
          || fieldIncludes env.toLowerCase d.data.code (env.toLowerCase q))).map courseHit := by
  induction docs generalizing acc with
  | nil => simp [courseFallback]
  | cons d rest ih =>
    by_cases hm : (fieldIncludes env.toLowerCase d.data.description (env.toLowerCase q)
          || fieldIncludes env.toLowerCase d.data.code (env.toLowerCase q)) = true
    · simp only [courseFallback, hm, if_true, ih, List.filter_cons_of_pos]
      simp [courseHit]
    · simp only [courseFallback, hm, if_false, ih]
      simp [hm]

/-- Whatever `query` is bound to, the body of `searchCourses` returns at most ten courses. -/
theorem searchCoursesWith_length (callee : Callee) (env : Backend) (q : String) :
    (searchCoursesWith callee env q).length ≤ 10 := by
  unfold searchCoursesWith
  split
  · simp
  · split
    · simp
    · simp [slice10]

/-- Whatever `query` is bound to, the body of `searchAssignments` returns at most ten
assignments. -/
theorem searchAssignmentsWith_length (callee : Callee) (env : Backend) (q : String) :
    (searchAssignmentsWith callee env q).length ≤ 10 := by
  unfold searchAssignmentsWith
  repeat' split
  all_goals simp [slice10]

/-- Had `query` in call position been the SDK function, `searchCourses` would, when the
title query finds nothing, return the first ten courses whose description or code
contains the query. -/
theorem searchCoursesWith_sdkFunction (env : Backend) (q : String)
    (hread : env.getDocsFails = false)
    (htitle : env.coursesByTitle q (titleUpper q) = []) :
    searchCoursesWith .sdkFunction env q =
      ((env.courses.filter (fun d =>
        fieldIncludes env.toLowerCase d.data.description (env.toLowerCase q)
          || fieldIncludes env.toLowerCase d.data.code (env.toLowerCase q))).take 10).map
        courseHit := by
  simp [searchCoursesWith, call, hread, htitle, courseFallback_eq, slice10, List.map_take]

/-- C5: for every query and every content of the collections (and whether or not the
reads succeed), each of `searchCourses`, `searchAssignments`, `searchUsers` and
`searchMaterials` returns at most 10 results. -/
theorem search_results_at_most_ten (env : Backend) (q : String) :
    (searchCourses env q).length ≤ 10 ∧ (searchAssignments env q).length ≤ 10 ∧
    (searchUsers env q).length ≤ 10 ∧ (searchMaterials env q).length ≤ 10 := by
  refine ⟨searchCoursesWith_length _ env q, searchAssignmentsWith_length _ env q, ?_, ?_⟩
  · unfold searchUsers
    split
    · simp
    · rw [usersLoop_eq env _ env.users [] (by simp)]
      simp
  · unfold searchMaterials
    split
    · simp
    · exact materialsLoop_length env _ env.lessons [] (by simp)

/-- C6: when the `users` collection is read successfully, `searchUsers(q)` returns, in
collection order, the first 10 (or all, if fewer) users whose name or email, lower-cased,
contains the lower-cased `q`; the test it applies is exactly that property, so no other
user is returned. -/
theorem searchUsers_first_ten_matches (env : Backend) (q : String)
    (hread : env.getDocsFails = false) :
    searchUsers env q =
      ((env.users.filter (fun d => userMatches env (env.toLowerCase q) d.data)).take 10).map
        userHit ∧
    (∀ u, userMatches env (env.toLowerCase q) u = true ↔ UserContains env q u) ∧
    (∀ h ∈ searchUsers env q, UserContains env q h.data) := by
  have heq : searchUsers env q =
      ((env.users.filter (fun d => userMatches env (env.toLowerCase q) d.data)).take 10).map
        userHit := by
    unfold searchUsers
    simp only [hread]
    rw [if_neg (by simp), usersLoop_eq env _ env.users [] (by simp)]
    simp
  refine ⟨heq, fun u => userMatches_iff env q u, ?_⟩
  intro h hh
  rw [heq] at hh
  obtain ⟨d, hd, rfl⟩ := List.mem_map.1 hh
  have hd2 := List.mem_of_mem_take hd
  have := (List.mem_filter.1 hd2).2
  exact (userMatches_iff env q d.data).1 this

/-- Witness of C6 on the sample backend: only the user whose name contains the query. -/
theorem searchUsers_first_ten_matches_witness :
    searchUsers sampleBackend "ADA" =
      [{ id := "u1", data := { name := some "Ada Lovelace", email := some "ada@example.org",
                               fields := [] } }] :=
  (searchUsers_first_ten_matches sampleBackend "ADA" rfl).1.trans (by decide)

/-- C7 fails on the code: no title matches `python` and the description of the only course
contains it, yet `searchCourses` returns nothing, because calling the string parameter
`query` throws and the exception is turned into `[]`. -/
theorem searchCourses_never_reaches_descriptions :
    sampleBackend.coursesByTitle "python" (titleUpper "python") = [] ∧
    (sampleBackend.courses.filter (fun d =>
      fieldIncludes sampleBackend.toLowerCase d.data.description
          (sampleBackend.toLowerCase "python")
        || fieldIncludes sampleBackend.toLowerCase d.data.code
          (sampleBackend.toLowerCase "python"))).map courseHit =
      [{ id := "c1", data := { title := some "Intro to Programming",
                               description := some "Learn Python basics",
                               code := some "CS101", fields := [] } }] ∧
    searchCourses sampleBackend "python" = [] := by
  refine ⟨rfl, by decide, rfl⟩

end SearchManager

/-! ## Binary64 arithmetic: theorems -/

namespace Float64

/-- With fuel for all its halvings, a positive `n` lies between the power of two that
`log2Aux` counts and the next one. -/
theorem log2Aux_spec : ∀ (fuel n : Nat), n ≤ fuel → 0 < n →
    2 ^ log2Aux fuel n ≤ n ∧ n < 2 ^ (log2Aux fuel n + 1)
  | 0, n, h, hn => by omega
  | fuel + 1, n, h, hn => by
    unfold log2Aux
    split_ifs with h2
    · obtain ⟨h1, h3⟩ := log2Aux_spec fuel (n / 2) (by omega) (by omega)
      simp only [pow_succ] at h3 ⊢
      generalize 2 ^ log2Aux fuel (n / 2) = p at h1 h3 ⊢
      omega
    · simp
      omega

/-- A positive `n` lies between `2 ^ log2 n` and the next power of two. -/
theorem log2_spec (n : Nat) (hn : 0 < n) : 2 ^ log2 n ≤ n ∧ n < 2 ^ (log2 n + 1) :=
  log2Aux_spec n n le_rfl hn

/-- A power of two with an integer exponent, as a quotient of powers with natural exponents. -/
theorem two_zpow_eq_div (e : Int) :
    (2 : ℚ) ^ e = (2 : ℚ) ^ e.toNat / (2 : ℚ) ^ (-e).toNat := by
  rcases le_total 0 e with h | h
  · obtain ⟨j, rfl⟩ := Int.eq_ofNat_of_zero_le h
    simp
  · obtain ⟨j, hj⟩ := Int.eq_ofNat_of_zero_le (neg_nonneg.2 h)
    have : e = -(j : Int) := by omega
    subst this
    simp

/-- The quotient of positive `n` and `d` lies between `2 ^ floorLog2 n d` and the next power
of two. -/
theorem floorLog2_spec (n d : Nat) (hn : 0 < n) (hd : 0 < d) :
    (2 : ℚ) ^ (floorLog2 n d) ≤ (n : ℚ) / d ∧ (n : ℚ) / d < (2 : ℚ) ^ (floorLog2 n d + 1) := by
  obtain ⟨ha1, ha2⟩ := log2_spec n hn
  obtain ⟨hb1, hb2⟩ := log2_spec d hd
  have hdq : (0 : ℚ) < d := by exact_mod_cast hd
  have ha1q : (2 : ℚ) ^ ((log2 n : Int)) ≤ n := by
    rw [zpow_natCast]; exact_mod_cast ha1
  have ha2q : (n : ℚ) < (2 : ℚ) ^ ((log2 n : Int) + 1) := by
    have : (n : ℚ) < (2 : ℚ) ^ (log2 n + 1) := by exact_mod_cast ha2
    rwa [← zpow_natCast, Nat.cast_add, Nat.cast_one] at this
  have hb1q : (2 : ℚ) ^ ((log2 d : Int)) ≤ d := by
    rw [zpow_natCast]; exact_mod_cast hb1
  have hb2q : (d : ℚ) < (2 : ℚ) ^ ((log2 d : Int) + 1) := by
    have : (d : ℚ) < (2 : ℚ) ^ (log2 d + 1) := by exact_mod_cast hb2
    rwa [← zpow_natCast, Nat.cast_add, Nat.cast_one] at this
  have h2 : (0 : ℚ) < 2 := by norm_num
  have hpos : ∀ z : Int, (0 : ℚ) < (2 : ℚ) ^ z := fun z => zpow_pos h2 z
  set k : Int := (log2 n : Int) - (log2 d : Int) with hk
  have hcond : (d * 2 ^ k.toNat ≤ n * 2 ^ (-k).toNat) ↔ (d : ℚ) * (2 : ℚ) ^ k ≤ n := by
    rw [two_zpow_eq_div k]
    have hp : (0 : ℚ) < (2 : ℚ) ^ (-k).toNat := pow_pos h2 _
    rw [← mul_div_assoc, div_le_iff₀ hp]
    exact_mod_cast Iff.rfl
  have e1 : (2 : ℚ) ^ ((log2 n : Int) + 1) = (2 : ℚ) ^ (k + 1) * (2 : ℚ) ^ (log2 d : Int) := by
    rw [← zpow_add₀ (two_ne_zero)]; congr 1; omega
  have e2 : (2 : ℚ) ^ ((log2 n : Int)) = (2 : ℚ) ^ (k - 1) * (2 : ℚ) ^ ((log2 d : Int) + 1) := by
    rw [← zpow_add₀ (two_ne_zero)]; congr 1; omega
  unfold floorLog2
  simp only [← hk]
  split_ifs with hc
  · rw [hcond] at hc
    constructor
    · rw [le_div_iff₀ hdq]; linarith
    · rw [div_lt_iff₀ hdq]
      calc (n : ℚ) < (2 : ℚ) ^ (k + 1) * (2 : ℚ) ^ (log2 d : Int) := by rw [← e1]; exact ha2q
        _ ≤ (2 : ℚ) ^ (k + 1) * d := by
          exact mul_le_mul_of_nonneg_left hb1q (hpos _).le
  · rw [hcond, not_le] at hc
    constructor
    · rw [le_div_iff₀ hdq]
      calc (2 : ℚ) ^ (k - 1) * d ≤ (2 : ℚ) ^ (k - 1) * (2 : ℚ) ^ ((log2 d : Int) + 1) := by
            exact mul_le_mul_of_nonneg_left hb2q.le (hpos _).le
        _ = (2 : ℚ) ^ ((log2 n : Int)) := e2.symm
        _ ≤ n := ha1q
    · rw [div_lt_iff₀ hdq, sub_add_cancel]; linarith

/-- The integer `roundHalfEven n d` is within one half of `n / d`. -/
theorem roundHalfEven_spec (n d : Nat) (hd : 0 < d) :
    |(roundHalfEven n d : ℚ) - (n : ℚ) / d| ≤ 1 / 2 := by
  have hdq : (0 : ℚ) < d := by exact_mod_cast hd
  have hn : (n : ℚ) = d * (n / d : Nat) + (n % d : Nat) := by
    exact_mod_cast (Nat.div_add_mod n d).symm
  have hr : (n % d : Nat) < d := Nat.mod_lt n hd
  have hdiv : (n : ℚ) / d = (n / d : Nat) + ((n % d : Nat) : ℚ) / d := by
    field_simp
    linarith
  rw [hdiv]
  unfold roundHalfEven
  simp only
  split_ifs with h1 h2 h3
  · have : ((n % d : Nat) : ℚ) / d < 1 / 2 := by
      rw [div_lt_iff₀ hdq]
      have : ((2 * (n % d) : Nat) : ℚ) < d := by exact_mod_cast h1
      push_cast at this; linarith
    have h0 : (0 : ℚ) ≤ ((n % d : Nat) : ℚ) / d := by positivity
    rw [abs_le]; constructor <;> linarith
  · have : (1 : ℚ) / 2 < ((n % d : Nat) : ℚ) / d := by
      rw [lt_div_iff₀ hdq]
      have : (d : ℚ) < ((2 * (n % d) : Nat) : ℚ) := by exact_mod_cast h2
      push_cast at this; linarith
    have h0 : ((n % d : Nat) : ℚ) / d ≤ 1 := by
      rw [div_le_one hdq]; exact_mod_cast hr.le
    rw [abs_le]; push_cast; constructor <;> linarith
  · have : ((n % d : Nat) : ℚ) / d = 1 / 2 := by
      rw [div_eq_iff hdq.ne']
      have : 2 * (n % d) = d := by omega
      have : ((2 * (n % d) : Nat) : ℚ) = d := by exact_mod_cast this
      push_cast at this; linarith
    rw [abs_le]; constructor <;> linarith
  · have : ((n % d : Nat) : ℚ) / d = 1 / 2 := by
      rw [div_eq_iff hdq.ne']
      have : 2 * (n % d) = d := by omega
      have : ((2 * (n % d) : Nat) : ℚ) = d := by exact_mod_cast this
      push_cast at this; linarith
    rw [abs_le]; push_cast; constructor <;> linarith

/-- The absolute value of a rational is the quotient of the absolute value of its numerator
and its denominator. -/
theorem abs_eq_natAbs_div (q : ℚ) : |q| = (q.num.natAbs : ℚ) / (q.den : ℚ) := by
  have hd : (0 : ℚ) < q.den := by exact_mod_cast q.den_pos
  conv_lhs => rw [← Rat.num_div_den q]
  rw [abs_div, abs_of_pos hd, Nat.cast_natAbs, Int.cast_abs]

/-- The sign factor that `ofRat` puts before the magnitude. -/
theorem sign_mul_abs (q : ℚ) : (if q < 0 then (-1 : ℚ) else 1) * |q| = q := by
  split_ifs with h
  · rw [abs_of_neg h]; ring
  · rw [abs_of_nonneg (not_lt.1 h)]; ring

/-- The exponent of a rational other than zero is at least `-1074`, and otherwise 52 below
its leading binary digit. -/
theorem exponent_spec (q : ℚ) (hq : q ≠ 0) :
    ((2 : ℚ) ^ (exponent q + 52) ≤ |q| ∨ exponent q = -1074) ∧ -1074 ≤ exponent q ∧
      |q| < (2 : ℚ) ^ (exponent q + 53) := by
  have hn : 0 < q.num.natAbs := Int.natAbs_pos.2 (Rat.num_ne_zero.2 hq)
  obtain ⟨hl1, hl2⟩ := floorLog2_spec q.num.natAbs q.den hn q.den_pos
  rw [← abs_eq_natAbs_div] at hl1 hl2
  unfold exponent
  refine ⟨?_, le_max_right _ _, ?_⟩
  · rcases le_total (floorLog2 q.num.natAbs q.den - 52) (-1074) with h | h
    · right; exact max_eq_right h
    · left; rw [max_eq_left h, sub_add_cancel]; exact hl1
  · refine lt_of_lt_of_le hl2 (zpow_le_zpow_right₀ (by norm_num) ?_)
    have := le_max_left (floorLog2 q.num.natAbs q.den - 52) (-1074)
    omega

/-- The mantissa is within one half of the magnitude in units of the last place. -/
theorem mantissa_spec (q : ℚ) :
    |(mantissa q : ℚ) - |q| * (2 : ℚ) ^ (-exponent q)| ≤ 1 / 2 := by
  unfold mantissa
  generalize exponent q = e
  have hD : 0 < q.den * 2 ^ e.toNat := Nat.mul_pos q.den_pos (pow_pos (by norm_num) _)
  have h := roundHalfEven_spec (q.num.natAbs * 2 ^ (-e).toNat) (q.den * 2 ^ e.toNat) hD
  have heq : ((q.num.natAbs * 2 ^ (-e).toNat : Nat) : ℚ) / ((q.den * 2 ^ e.toNat : Nat) : ℚ) =
      |q| * (2 : ℚ) ^ (-e) := by
    rw [abs_eq_natAbs_div, two_zpow_eq_div (-e), neg_neg]
    push_cast
    rw [mul_div_mul_comm]
  rwa [heq] at h

/-- Zero is a double. -/
theorem ofRat_zero : ofRat 0 = some 0 := by
  simp [ofRat]

/-- The double nearest to a rational differs from it by at most half a unit in the last
place: a relative error of `2 ^ (-53)`, or `2 ^ (-1075)` among the subnormal numbers. -/
theorem ofRat_error (q r : ℚ) (h : ofRat q = some r) :
    |r - q| ≤ |q| / 2 ^ 53 + 1 / 2 ^ 1075 := by
  by_cases hq : q = 0
  · subst hq
    rw [ofRat_zero] at h
    cases h
    simp
  · obtain ⟨hlow, -, -⟩ := exponent_spec q hq
    have hm := mantissa_spec q
    have hsa := sign_mul_abs q
    have hsign : |(if q < 0 then (-1 : ℚ) else 1)| = 1 := by
      split_ifs <;> simp
    unfold ofRat at h
    rw [if_neg hq] at h
    generalize (if q < 0 then (-1 : ℚ) else 1) = s at h hsa hsign
    generalize mantissa q = m at h hm
    generalize exponent q = e at h hm hlow
    by_cases hov : 2 ^ 1024 ≤ m * 2 ^ e.toNat
    · rw [if_pos hov] at h; cases h
    rw [if_neg hov] at h
    obtain rfl : s * (m : ℚ) * (2 : ℚ) ^ e = r := Option.some.inj h
    have h2 : (0 : ℚ) < 2 := by norm_num
    have hpe : (0 : ℚ) < (2 : ℚ) ^ e := zpow_pos h2 e
    have hinv : (2 : ℚ) ^ e * (2 : ℚ) ^ (-e) = 1 := by
      rw [← zpow_add₀ (two_ne_zero)]; simp
    have hsub : s * (m : ℚ) * (2 : ℚ) ^ e - q =
        s * ((2 : ℚ) ^ e * ((m : ℚ) - |q| * (2 : ℚ) ^ (-e))) := by
      calc s * (m : ℚ) * (2 : ℚ) ^ e - q = s * (m : ℚ) * (2 : ℚ) ^ e - s * |q| * 1 := by
            rw [mul_one, hsa]
        _ = s * (m : ℚ) * (2 : ℚ) ^ e - s * |q| * ((2 : ℚ) ^ e * (2 : ℚ) ^ (-e)) := by rw [hinv]
        _ = s * ((2 : ℚ) ^ e * ((m : ℚ) - |q| * (2 : ℚ) ^ (-e))) := by ring
    rw [hsub, abs_mul, hsign, one_mul, abs_mul, abs_of_pos hpe]
    have hbound : (2 : ℚ) ^ e * |(m : ℚ) - |q| * (2 : ℚ) ^ (-e)| ≤ (2 : ℚ) ^ e * (1 / 2) :=
      mul_le_mul_of_nonneg_left hm hpe.le
    have hq0 : (0 : ℚ) ≤ |q| / 2 ^ 53 := by positivity
    rcases hlow with hlow | hlow
    · have : (2 : ℚ) ^ (e + 52) = (2 : ℚ) ^ e * 2 ^ 52 := by
        rw [zpow_add₀ (two_ne_zero), zpow_ofNat]
      rw [this] at hlow
      have h53 : (2 : ℚ) ^ e * (1 / 2) ≤ |q| / 2 ^ 53 := by
        rw [le_div_iff₀ (by positivity)]
        calc (2 : ℚ) ^ e * (1 / 2) * 2 ^ 53 = (2 : ℚ) ^ e * 2 ^ 52 := by ring
          _ ≤ |q| := hlow
      have : (0 : ℚ) ≤ 1 / 2 ^ 1075 := by positivity
      linarith
    · subst hlow
      have : (2 : ℚ) ^ (-1074 : Int) * (1 / 2) = 1 / 2 ^ 1075 := by
        rw [zpow_neg, zpow_ofNat, show (2 : ℚ) ^ 1075 = 2 ^ 1074 * 2 from pow_succ 2 1074,
          one_div, one_div, mul_inv]
      linarith

/-- A power of two with an exponent that is not negative, as a power with a natural
exponent. -/
theorem two_zpow_toNat (e : Int) (he : 0 ≤ e) : ((2 : ℚ) ^ e.toNat) = (2 : ℚ) ^ e := by
  obtain ⟨j, rfl⟩ := Int.eq_ofNat_of_zero_le he
  simp

/-- A rational of magnitude at most `2 ^ 1023` rounds to a finite double. -/
theorem ofRat_isSome (q : ℚ) (h : |q| ≤ 2 ^ 1023) : ∃ r, ofRat q = some r := by
  by_cases hq : q = 0
  · exact ⟨0, by rw [hq, ofRat_zero]⟩
  · obtain ⟨hlow, he, hup⟩ := exponent_spec q hq
    have hm := mantissa_spec q
    unfold ofRat
    rw [if_neg hq]
    generalize mantissa q = m at hm ⊢
    generalize exponent q = e at hm hlow he hup ⊢
    have h2 : (0 : ℚ) < 2 := by norm_num
    have hpe : (0 : ℚ) < (2 : ℚ) ^ e := zpow_pos h2 e
    have hinv : (2 : ℚ) ^ (-e) * (2 : ℚ) ^ e = 1 := by
      rw [← zpow_add₀ (two_ne_zero)]; simp
    have hmle : (m : ℚ) * (2 : ℚ) ^ e ≤ |q| + (2 : ℚ) ^ e / 2 := by
      have h1 : (m : ℚ) ≤ |q| * (2 : ℚ) ^ (-e) + 1 / 2 := by
        have := (abs_le.1 hm).2; linarith
      calc (m : ℚ) * (2 : ℚ) ^ e ≤ (|q| * (2 : ℚ) ^ (-e) + 1 / 2) * (2 : ℚ) ^ e :=
            mul_le_mul_of_nonneg_right h1 hpe.le
        _ = |q| * ((2 : ℚ) ^ (-e) * (2 : ℚ) ^ e) + (2 : ℚ) ^ e / 2 := by ring
        _ = |q| + (2 : ℚ) ^ e / 2 := by rw [hinv, mul_one]
    rw [if_neg]
    · exact ⟨_, rfl⟩
    · intro hov
      have hovq : (((2 : Nat) ^ 1024 : Nat) : ℚ) ≤ ((m * 2 ^ e.toNat : Nat) : ℚ) :=
        Nat.cast_le.2 hov
      rw [Nat.cast_pow, Nat.cast_mul, Nat.cast_pow, Nat.cast_ofNat] at hovq
      rcases le_or_lt e 0 with he0 | he0
      · have ht : e.toNat = 0 := Int.toNat_eq_zero.2 he0
        rw [ht, pow_zero, mul_one] at hovq
        have h53 : (2 : ℚ) ^ (e + 53) = (2 : ℚ) ^ e * 2 ^ 53 := by
          rw [zpow_add₀ (two_ne_zero), zpow_ofNat]
        have hle1 : (2 : ℚ) ^ e ≤ 1 := by
          have := zpow_le_zpow_right₀ (show (1 : ℚ) ≤ 2 by norm_num) he0
          simpa using this
        have : |q| ≤ 2 ^ 53 := by
          rw [h53] at hup
          have : (2 : ℚ) ^ e * 2 ^ 53 ≤ 1 * 2 ^ 53 :=
            mul_le_mul_of_nonneg_right hle1 (by positivity)
          linarith
        have hmq : (m : ℚ) = (m : ℚ) * (2 : ℚ) ^ e * (2 : ℚ) ^ (-e) := by
          rw [mul_assoc, mul_comm ((2 : ℚ) ^ e), hinv, mul_one]
        have h1 : (m : ℚ) ≤ |q| * (2 : ℚ) ^ (-e) + 1 / 2 := by
          have := (abs_le.1 hm).2; linarith
        have h3 : |q| * (2 : ℚ) ^ (-e) ≤ 2 ^ 53 := by
          have hlt : |q| ≤ (2 : ℚ) ^ e * 2 ^ 53 := by rw [← h53]; exact hup.le
          calc |q| * (2 : ℚ) ^ (-e) ≤ (2 : ℚ) ^ e * 2 ^ 53 * (2 : ℚ) ^ (-e) :=
                mul_le_mul_of_nonneg_right hlt (zpow_pos h2 _).le
            _ = 2 ^ 53 * ((2 : ℚ) ^ (-e) * (2 : ℚ) ^ e) := by ring
            _ = 2 ^ 53 := by rw [hinv, mul_one]
        have h54 : (2 : ℚ) ^ 54 ≤ 2 ^ 1024 := pow_le_pow_right₀ (by norm_num) (by norm_num)
        have h53lt : (2 : ℚ) ^ 53 + 1 / 2 < 2 ^ 54 := by norm_num
        linarith
      · rw [two_zpow_toNat e he0.le] at hovq
        rcases hlow with hlow | hlow
        · have h52 : (2 : ℚ) ^ (e + 52) = (2 : ℚ) ^ e * 2 ^ 52 := by
            rw [zpow_add₀ (two_ne_zero), zpow_ofNat]
          rw [h52] at hlow
          have : (2 : ℚ) ^ 1024 ≤ |q| + |q| / 2 ^ 53 := by
            have : (2 : ℚ) ^ e / 2 ≤ |q| / 2 ^ 53 := by
              rw [le_div_iff₀ (by positivity)]
              calc (2 : ℚ) ^ e / 2 * 2 ^ 53 = (2 : ℚ) ^ e * 2 ^ 52 := by ring
                _ ≤ |q| := hlow
            linarith
          have hdiv : |q| / 2 ^ 53 ≤ 2 ^ 1023 / 2 ^ 53 :=
            div_le_div_of_nonneg_right h (by positivity)
          have hsucc : (2 : ℚ) ^ 1024 = 2 ^ 1023 * 2 := pow_succ 2 1023
          have hX : (0 : ℚ) < 2 ^ 1023 := by positivity
          have hlt : (2 : ℚ) ^ 1023 / 2 ^ 53 < 2 ^ 1023 :=
            div_lt_self hX (by norm_num)
          linarith
        · omega

/-- An integer rounds to itself. -/
theorem roundHalfEven_one (n : Nat) : roundHalfEven n 1 = n := by
  simp [roundHalfEven, Nat.mod_one]

/-- An integer of magnitude below `2 ^ 53` is a double. -/
theorem ofRat_intCast (n : Int) (h : |n| < 2 ^ 53) : ofRat (n : ℚ) = some (n : ℚ) := by
  by_cases hn : n = 0
  · subst hn; simp [ofRat]
  · have hq : (n : ℚ) ≠ 0 := by exact_mod_cast hn
    have hpos : 0 < n.natAbs := Int.natAbs_pos.2 hn
    obtain ⟨hl1, hl2⟩ := floorLog2_spec n.natAbs 1 hpos Nat.one_pos
    simp only [Nat.cast_one, div_one] at hl1 hl2
    have hlt : (n.natAbs : ℚ) < 2 ^ 53 := by
      have : ((n.natAbs : Int)) < 2 ^ 53 := by rwa [Int.natCast_natAbs]
      exact_mod_cast this
    have hge : (1 : ℚ) ≤ n.natAbs := by exact_mod_cast hpos
    have hL0 : 0 ≤ floorLog2 n.natAbs 1 := by
      by_contra hneg
      push_neg at hneg
      have : (2 : ℚ) ^ (floorLog2 n.natAbs 1 + 1) ≤ 2 ^ (0 : Int) :=
        zpow_le_zpow_right₀ (by norm_num) (by omega)
      simp at this
      linarith
    have hL52 : floorLog2 n.natAbs 1 ≤ 52 := by
      by_contra hbig
      push_neg at hbig
      have : (2 : ℚ) ^ (53 : Int) ≤ 2 ^ (floorLog2 n.natAbs 1) :=
        zpow_le_zpow_right₀ (by norm_num) (by omega)
      have h53 : (2 : ℚ) ^ (53 : Int) = 2 ^ 53 := by norm_cast
      rw [h53] at this
      linarith
    obtain ⟨j, hj⟩ : ∃ j : Nat, floorLog2 n.natAbs 1 = 52 - (j : Int) ∧ j ≤ 52 :=
      ⟨(52 - floorLog2 n.natAbs 1).toNat, by omega, by omega⟩
    obtain ⟨hj, hj52⟩ := hj
    have he : max (floorLog2 n.natAbs 1 - 52) (-1074) = -(j : Int) := by
      rw [max_eq_left (by omega)]; omega
    have hbound : n.natAbs * 2 ^ j < 2 ^ 1024 := by
      have h1 : (n.natAbs : ℚ) * 2 ^ j < 2 ^ 53 := by
        have h2 : (n.natAbs : ℚ) < (2 : ℚ) ^ ((52 : Int) - j + 1) := by rw [← hj]; exact hl2
        have h3 : (2 : ℚ) ^ ((52 : Int) - j + 1) * 2 ^ j = 2 ^ 53 := by
          rw [← zpow_natCast, ← zpow_add₀ (two_ne_zero)]
          have : (52 : Int) - j + 1 + j = (53 : Nat) := by omega
          rw [this, zpow_natCast]
        calc (n.natAbs : ℚ) * 2 ^ j < (2 : ℚ) ^ ((52 : Int) - j + 1) * 2 ^ j :=
              mul_lt_mul_of_pos_right h2 (by positivity)
          _ = 2 ^ 53 := h3
      have h4 : n.natAbs * 2 ^ j < 2 ^ 53 := by exact_mod_cast h1
      exact lt_of_lt_of_le h4 (Nat.pow_le_pow_right (by norm_num) (by norm_num))
    have hexp : exponent (n : ℚ) = -(j : Int) := by
      simp only [exponent, Rat.num_intCast, Rat.den_intCast, he]
    have hman : mantissa (n : ℚ) = n.natAbs * 2 ^ j := by
      simp only [mantissa, hexp, Rat.num_intCast, Rat.den_intCast, neg_neg, Int.toNat_ofNat,
        Int.toNat_neg_nat, pow_zero, mul_one, roundHalfEven_one]
    unfold ofRat
    rw [if_neg hq, hexp, hman, Int.toNat_neg_nat, pow_zero, mul_one, if_neg (not_le.2 hbound)]
    congr 1
    have hz : ((2 : ℚ) ^ j) * (2 : ℚ) ^ (-(j : Int)) = 1 := by
      rw [← zpow_natCast, ← zpow_add₀ (two_ne_zero)]; simp
    have habs : (if (n : ℚ) < 0 then (-1 : ℚ) else 1) * (n.natAbs : ℚ) = n := by
      have := sign_mul_abs (n : ℚ)
      rwa [abs_eq_natAbs_div, Rat.num_intCast, Rat.den_intCast, Nat.cast_one, div_one] at this
    push_cast
    calc (if (n : ℚ) < 0 then (-1 : ℚ) else 1) * ((n.natAbs : ℚ) * 2 ^ j) * (2 : ℚ) ^ (-(j : Int))
        = ((if (n : ℚ) < 0 then (-1 : ℚ) else 1) * (n.natAbs : ℚ)) *
            (((2 : ℚ) ^ j) * (2 : ℚ) ^ (-(j : Int))) := by ring
      _ = n := by rw [hz, habs, mul_one]

/-- The error bound of `ofRat` with a bound of the subnormal term that is easier to add up. -/
theorem ofRat_error_le (q r : ℚ) (h : ofRat q = some r) :
    |r - q| ≤ |q| / 2 ^ 53 + 1 / 2 ^ 100 := by
  have h1 := ofRat_error q r h
  have h2 : (1 : ℚ) / 2 ^ 1075 ≤ 1 / 2 ^ 100 :=
    one_div_le_one_div_of_le (by positivity) (pow_le_pow_right₀ (by norm_num) (by norm_num))
  linarith

/-- A rational of magnitude at most `2 ^ 100` rounds to a double, with the error bound. -/
theorem ofRat_of_le (q : ℚ) (h : |q| ≤ 2 ^ 100) :
    ∃ r, ofRat q = some r ∧ |r - q| ≤ |q| / 2 ^ 53 + 1 / 2 ^ 100 := by
  have h1 : |q| ≤ 2 ^ 1023 :=
    h.trans (pow_le_pow_right₀ (by norm_num) (by norm_num))
  obtain ⟨r, hr⟩ := ofRat_isSome q h1
  exact ⟨r, hr, ofRat_error_le q r hr⟩

/-- The Number value for an integer of magnitude below `2 ^ 53` is the integer. -/
theorem ofInt_of_lt (n : Int) (h : |n| < 2 ^ 53) : ofInt n = some (n : ℚ) :=
  ofRat_intCast n h

/-- The quotient of two integers of magnitude below `2 ^ 53`, times 100, is a finite number
within a relative error of `2 ^ (-51)` of the exact value. -/
theorem percentOf_error (s m : Int) (hm : m ≠ 0) (hs : |s| < 2 ^ 53) (hm53 : |m| < 2 ^ 53) :
    ∃ t, percentOf s m = some t ∧
      |t - (s : ℚ) / (m : ℚ) * 100| ≤ |(s : ℚ) / (m : ℚ) * 100| / 2 ^ 51 + 1 / 2 ^ 90 := by
  have hmq : (m : ℚ) ≠ 0 := by exact_mod_cast hm
  have hm1 : (1 : ℚ) ≤ |(m : ℚ)| := by
    have : (1 : Int) ≤ |m| := Int.one_le_abs hm
    exact_mod_cast this
  have hsq : |(s : ℚ)| < 2 ^ 53 := by exact_mod_cast hs
  have hA : |(s : ℚ) / (m : ℚ)| ≤ 2 ^ 53 := by
    rw [abs_div, div_le_iff₀ (by linarith)]
    have : |(s : ℚ)| * 1 ≤ 2 ^ 53 * |(m : ℚ)| := by
      have h0 : (0 : ℚ) ≤ |(s : ℚ)| := abs_nonneg _
      nlinarith
    linarith
  obtain ⟨q1, hq1, he1⟩ := ofRat_of_le ((s : ℚ) / (m : ℚ))
    (hA.trans (pow_le_pow_right₀ (by norm_num) (by norm_num)))
  have hB : |q1| ≤ |(s : ℚ) / (m : ℚ)| + |q1 - (s : ℚ) / (m : ℚ)| := by
    have := abs_add ((s : ℚ) / (m : ℚ)) (q1 - (s : ℚ) / (m : ℚ))
    rwa [add_sub_cancel] at this
  have hA0 : (0 : ℚ) ≤ |(s : ℚ) / (m : ℚ)| := abs_nonneg _
  have hq100 : |q1 * 100| ≤ 2 ^ 100 := by
    rw [abs_mul, abs_of_pos (show (0 : ℚ) < 100 by norm_num)]
    norm_num at he1 hA ⊢
    linarith
  obtain ⟨t, ht, he2⟩ := ofRat_of_le (q1 * 100) hq100
  refine ⟨t, ?_, ?_⟩
  · simp only [percentOf, divInt, mul, ofInt_of_lt s hs, ofInt_of_lt m hm53, if_neg hmq, hq1, ht]
  · have htri : |t - (s : ℚ) / (m : ℚ) * 100| ≤
        |t - q1 * 100| + 100 * |q1 - (s : ℚ) / (m : ℚ)| := by
      have := abs_add (t - q1 * 100) (100 * (q1 - (s : ℚ) / (m : ℚ)))
      rw [abs_mul, abs_of_pos (show (0 : ℚ) < 100 by norm_num)] at this
      have heq : t - q1 * 100 + 100 * (q1 - (s : ℚ) / (m : ℚ)) = t - (s : ℚ) / (m : ℚ) * 100 := by
        ring
      rwa [heq] at this
    rw [abs_mul, abs_of_pos (show (0 : ℚ) < 100 by norm_num)] at he2 ⊢
    norm_num at he1 he2 hA ⊢
    linarith

/-- A rational with denominator `b` that is not an integer is at least `1 / |b|` away from
the integers below and above it. -/
theorem fract_ge_of_div (a b : Int) (hb : b ≠ 0) (hne : (a : ℚ) / (b : ℚ) ≠ ⌊(a : ℚ) / (b : ℚ)⌋) :
    (⌊(a : ℚ) / (b : ℚ)⌋ : ℚ) + 1 / |(b : ℚ)| ≤ (a : ℚ) / (b : ℚ) ∧
      (a : ℚ) / (b : ℚ) + 1 / |(b : ℚ)| ≤ (⌊(a : ℚ) / (b : ℚ)⌋ : ℚ) + 1 := by
  have hbq : (b : ℚ) ≠ 0 := by exact_mod_cast hb
  have habs : (0 : ℚ) < |(b : ℚ)| := abs_pos.2 hbq
  set z : ℚ := (a : ℚ) / (b : ℚ) with hz
  obtain ⟨k, hk⟩ : ∃ k : Int, z * |(b : ℚ)| = (k : ℚ) := by
    rcases abs_choice (b : ℚ) with h | h
    · exact ⟨a, by rw [h, hz, div_mul_cancel₀ _ hbq]⟩
    · refine ⟨-a, ?_⟩
      rw [h, hz, mul_neg, div_mul_cancel₀ _ hbq]
      push_cast
      ring
  have hfl : (⌊z⌋ : ℚ) ≤ z := Int.floor_le z
  have hlt : z < (⌊z⌋ : ℚ) + 1 := Int.lt_floor_add_one z
  have hlt' : (⌊z⌋ : ℚ) < z := lt_of_le_of_ne hfl (Ne.symm hne)
  constructor
  · have h1 : ((⌊z⌋ * |b| : Int) : ℚ) < (k : ℚ) := by
      rw [← hk]; push_cast
      exact mul_lt_mul_of_pos_right hlt' habs
    have h2 : ⌊z⌋ * |b| + 1 ≤ k := by exact_mod_cast h1
    have h3 : ((⌊z⌋ * |b| + 1 : Int) : ℚ) ≤ (k : ℚ) := by exact_mod_cast h2
    rw [← hk] at h3
    push_cast at h3
    rw [← sub_nonneg] at h3 ⊢
    have : z - ((⌊z⌋ : ℚ) + 1 / |(b : ℚ)|) = (z * |(b : ℚ)| - (↑⌊z⌋ * |(b : ℚ)| + 1)) / |(b : ℚ)| := by
      field_simp
    rw [this]
    exact div_nonneg h3 habs.le
  · have h1 : (k : ℚ) < (((⌊z⌋ + 1) * |b| : Int) : ℚ) := by
      rw [← hk]; push_cast
      exact mul_lt_mul_of_pos_right hlt habs
    have h2 : k + 1 ≤ (⌊z⌋ + 1) * |b| := by exact_mod_cast h1
    have h3 : ((k + 1 : Int) : ℚ) ≤ (((⌊z⌋ + 1) * |b| : Int) : ℚ) := by exact_mod_cast h2
    push_cast at h3
    rw [← hk] at h3
    rw [← sub_nonneg] at h3 ⊢
    have : (⌊z⌋ : ℚ) + 1 - (z + 1 / |(b : ℚ)|) =
        (((⌊z⌋ : ℚ) + 1) * |(b : ℚ)| - (z * |(b : ℚ)| + 1)) / |(b : ℚ)| := by
      field_simp
    rw [this]
    exact div_nonneg h3 habs.le

/-- The value of `Math.round((s / m) * 100)` for integers `s` of magnitude at most `2 ^ 43` and
`m` other than zero of magnitude below `2 ^ 53`: the exact quotient times 100 rounded to the
nearest integer, or, when the exact value lies halfway between two integers, possibly the
lower one of the two. -/
theorem mathRound_percentOf (s m : Int) (hm : m ≠ 0) (hs : |s| ≤ 2 ^ 43) (hm53 : |m| < 2 ^ 53) :
    ∃ p, mathRound (percentOf s m) = some p ∧
      (p = ⌊(s : ℚ) / (m : ℚ) * 100 + 1 / 2⌋ ∨
        (p = ⌊(s : ℚ) / (m : ℚ) * 100 + 1 / 2⌋ - 1 ∧
          (s : ℚ) / (m : ℚ) * 100 + 1 / 2 = ⌊(s : ℚ) / (m : ℚ) * 100 + 1 / 2⌋)) := by
  have hs53 : |s| < 2 ^ 53 := lt_of_le_of_lt hs (by norm_num)
  obtain ⟨t, ht, herr⟩ := percentOf_error s m hm hs53 hm53
  have hmq : (m : ℚ) ≠ 0 := by exact_mod_cast hm
  have hM1 : (1 : ℚ) ≤ |(m : ℚ)| := by
    have : (1 : Int) ≤ |m| := Int.one_le_abs hm
    exact_mod_cast this
  have hM53 : |(m : ℚ)| < 2 ^ 53 := by exact_mod_cast hm53
  have hS : |(s : ℚ)| ≤ 2 ^ 43 := by exact_mod_cast hs
  have hb : (2 * m : Int) ≠ 0 := by omega
  have hz : (s : ℚ) / (m : ℚ) * 100 + 1 / 2 = ((200 * s + m : Int) : ℚ) / ((2 * m : Int) : ℚ) := by
    push_cast
    field_simp
    ring
  have hbabs : |((2 * m : Int) : ℚ)| = 2 * |(m : ℚ)| := by
    push_cast
    rw [abs_mul, abs_of_pos (show (0 : ℚ) < 2 by norm_num)]
  have hdelta : |(s : ℚ) / (m : ℚ) * 100| / 2 ^ 51 + 1 / 2 ^ 90 < 1 / (2 * |(m : ℚ)|) := by
    rw [lt_div_iff₀ (by positivity), abs_mul, abs_div,
      abs_of_pos (show (0 : ℚ) < 100 by norm_num)]
    have heq : (|(s : ℚ)| / |(m : ℚ)| * 100 / 2 ^ 51 + 1 / 2 ^ 90) * (2 * |(m : ℚ)|) =
        |(s : ℚ)| * 200 / 2 ^ 51 + 2 * |(m : ℚ)| / 2 ^ 90 := by
      field_simp
      ring
    rw [heq]
    norm_num at hS hM53 ⊢
    linarith
  have hclose : |t + 1 / 2 - ((s : ℚ) / (m : ℚ) * 100 + 1 / 2)| < 1 / (2 * |(m : ℚ)|) := by
    have : t + 1 / 2 - ((s : ℚ) / (m : ℚ) * 100 + 1 / 2) = t - (s : ℚ) / (m : ℚ) * 100 := by ring
    rw [this]
    exact lt_of_le_of_lt herr hdelta
  have hhalf : 1 / (2 * |(m : ℚ)|) ≤ 1 / 2 := by
    rw [div_le_div_iff₀ (by positivity) (by norm_num)]
    linarith
  refine ⟨⌊t + 1 / 2⌋, by rw [ht]; rfl, ?_⟩
  generalize (s : ℚ) / (m : ℚ) * 100 + 1 / 2 = z at hz hclose ⊢
  obtain ⟨hc1, hc2⟩ := abs_lt.1 hclose
  by_cases hint : z = ⌊z⌋
  · have hfl : (⌊z⌋ : ℚ) ≤ z := Int.floor_le z
    by_cases hge : (⌊z⌋ : ℚ) ≤ t + 1 / 2
    · left
      rw [Int.floor_eq_iff]
      constructor
      · exact hge
      · linarith
    · right
      refine ⟨?_, hint⟩
      rw [Int.floor_eq_iff]
      push_cast
      constructor <;> linarith
  · left
    have hne : ((200 * s + m : Int) : ℚ) / ((2 * m : Int) : ℚ) ≠
        ⌊((200 * s + m : Int) : ℚ) / ((2 * m : Int) : ℚ)⌋ := by rwa [← hz]
    obtain ⟨h1, h2⟩ := fract_ge_of_div (200 * s + m) (2 * m) hb hne
    rw [← hz, hbabs] at h1 h2
    rw [Int.floor_eq_iff]
    constructor <;> linarith

/-- The quotient of the Number values for an integer of magnitude at most `2 ^ 1000` and an
integer other than zero, times 100, is a finite number. -/
theorem percentOf_isSome (g m : Int) (hm : m ≠ 0) (hg : |g| ≤ 2 ^ 1000) :
    ∃ t, percentOf g m = some t := by
  have hgq : |(g : ℚ)| ≤ 2 ^ 1000 := by
    have h := (Int.cast_le (R := ℚ)).2 hg
    rwa [Int.cast_abs, Int.cast_pow, Int.cast_ofNat] at h
  have hM1 : (1 : ℚ) ≤ |(m : ℚ)| := by
    have : (1 : Int) ≤ |m| := Int.one_le_abs hm
    exact_mod_cast this
  have h1023 : (2 : ℚ) ^ 1023 = 2 ^ 1000 * 2 ^ 23 := pow_add 2 1000 23
  have hB1 : (1 : ℚ) ≤ 2 ^ 1000 := one_le_pow₀ (by norm_num)
  generalize (2 : ℚ) ^ 1000 = B at hgq h1023 hB1
  have h23 : (2 : ℚ) ^ 23 = 8388608 := by norm_num
  rw [h23] at h1023
  have hfin : ∀ q : ℚ, |q| ≤ 2000 * B → ∃ r, ofRat q = some r ∧ |r| ≤ 2 * |q| + 1 := by
    intro q hq
    obtain ⟨r, hr⟩ := ofRat_isSome q (by rw [h1023]; linarith)
    refine ⟨r, hr, ?_⟩
    have herr := ofRat_error_le q r hr
    have habs := abs_add q (r - q)
    rw [add_sub_cancel] at habs
    have h0 := abs_nonneg q
    norm_num at herr ⊢
    linarith
  obtain ⟨x, hx, hxle⟩ := hfin (g : ℚ) (by linarith [abs_nonneg (g : ℚ)])
  have hofg : ofInt g = some x := hx
  cases hy : ofInt m with
  | none =>
    refine ⟨0, ?_⟩
    simp only [percentOf, divInt, mul, hofg, hy, zero_mul, ofRat_zero]
  | some y =>
    have herry := ofRat_error_le (m : ℚ) y hy
    have hyhalf : (1 : ℚ) / 2 ≤ |y| := by
      have habs := abs_add y ((m : ℚ) - y)
      rw [add_sub_cancel, abs_sub_comm] at habs
      norm_num at herry ⊢
      linarith
    have hy0 : y ≠ 0 := by
      intro h
      rw [h, abs_zero] at hyhalf
      norm_num at hyhalf
    have hquot : |x / y| ≤ 2 * |x| := by
      rw [abs_div, div_le_iff₀ (by linarith)]
      have h0 := abs_nonneg x
      nlinarith
    obtain ⟨q1, hq1, hq1le⟩ := hfin (x / y) (by linarith)
    have hq100 : |q1 * 100| ≤ 2000 * B := by
      rw [abs_mul, abs_of_pos (show (0 : ℚ) < 100 by norm_num)]
      linarith
    obtain ⟨t, ht, -⟩ := hfin (q1 * 100) hq100
    exact ⟨t, by simp only [percentOf, divInt, mul, hofg, hy, if_neg hy0, hq1, ht]⟩

end Float64

/-! ## Gradebook: theorems -/

namespace GradebookManager

/-- For a grade other than zero of magnitude at most `2 ^ 1000` and maximal points other than
zero, `calculatePercentage` is the value of `Math.round((grade / maxPoints) * 100)`, an
integer. -/
theorem calculatePercentage_eq_mathRound (g m : Int) (hg0 : g ≠ 0) (hm0 : m ≠ 0)
    (hg : |g| ≤ 2 ^ 1000) :
    Float64.mathRound (Float64.percentOf g m) = some (calculatePercentage (some g) (some m)) := by
  obtain ⟨t, ht⟩ := Float64.percentOf_isSome g m hm0 hg
  have hor : ¬ (g = 0 ∨ m = 0) := by
    rintro (h | h)
    · exact hg0 h
    · exact hm0 h
  simp only [calculatePercentage, if_neg hor, ht, Float64.mathRound, Option.map_some',
    Option.getD_some]

/-- A filter whose callback never throws is the plain filter. -/
theorem filterE_eq_filter {α : Type} (f : α → Except JSError Bool) (p : α → Bool)
    (l : List α) (h : ∀ a ∈ l, f a = .ok (p a)) :
    filterE f l = .ok (l.filter p) := by
  induction l with
  | nil => rfl
  | cons a l ih =>
    have ha := h a (by simp)
    have hl := ih (fun b hb => h b (by simp [hb]))
    simp only [filterE, ha, hl, List.filter_cons]

/-- The range test of `applyFilters` keeps the percentages between the two bounds. -/
theorem range_test_eq (lo hi pct : Int) :
    (if pct < lo ∨ hi < pct then (Except.ok false : Except JSError Bool) else Except.ok true) =
      Except.ok (decide (lo ≤ pct) && decide (pct ≤ hi)) := by
  split_ifs with h
  · have : ¬ (lo ≤ pct ∧ pct ≤ hi) := fun hh => by omega
    simp only [Except.ok.injEq]
    symm
    simpa using this
  · have h1 : lo ≤ pct := by omega
    have h2 : pct ≤ hi := by omega
    simp [h1, h2]

/-- For a grade filter that is empty or a letter, the callback of `applyFilters` returns
whether the entry passes the two filters. -/
theorem filterCallback_eq (c g : String) (e : GradeEntry)
    (hg : g = "" ∨ g = "A" ∨ g = "B" ∨ g = "C" ∨ g = "D" ∨ g = "F") :
    filterCallback c g e = .ok (decide (PassesFilters c g e)) := by
  by_cases hc : c ≠ "" ∧ e.courseId ≠ some c
  · have : ¬ PassesFilters c g e := by
      rintro ⟨h | h, _⟩
      · exact hc.1 h
      · exact hc.2 h
    simp [filterCallback, hc, this]
  · have hc2 : c = "" ∨ e.courseId = some c := by
      by_cases h : c = ""
      · exact Or.inl h
      · exact Or.inr (by simpa [h] using hc)
    rcases hg with rfl | rfl | rfl | rfl | rfl | rfl <;>
      simp [filterCallback, hc, PassesFilters, hc2, gradeRanges]
    all_goals exact range_test_eq _ _ _

/-- C8: for a grade filter that is empty or one of the letters, `applyFilters` succeeds;
afterwards `filteredGrades` is `allGrades` restricted, in the original order, to the entries
with (`c` empty or `courseId = c`) and (`g` empty or the percentage within the band of `g`:
A 90..100, B 80..89, C 70..79, D 60..69, F 0..59), `currentPage` is 1 and nothing else
changed. -/
theorem applyFilters_filters_and_resets (c g : String) (s : Gradebook)
    (hg : g = "" ∨ g = "A" ∨ g = "B" ∨ g = "C" ∨ g = "D" ∨ g = "F") :
    applyFilters c g s =
      .ok { allGrades := s.allGrades
            filteredGrades := s.allGrades.filter (fun e => decide (PassesFilters c g e))
            currentPage := 1
            itemsPerPage := s.itemsPerPage } := by
  unfold applyFilters
  rw [filterE_eq_filter (filterCallback c g) (fun e => decide (PassesFilters c g e)) s.allGrades
    (fun e _ => filterCallback_eq c g e hg)]

/-- Witness of C8: course `c1` and band `B` keep only the first row of the sample. -/
theorem applyFilters_filters_and_resets_witness :
    applyFilters "c1" "B" sampleGradebook =
      .ok { allGrades := sampleGradebook.allGrades
            filteredGrades :=
              [{ id := "s1", studentName := "Ada", courseId := some "c1", grade := some 85,
                 maxPoints := some 100, status := some "graded", submittedAt := some 3,
                 fields := [] }]
            currentPage := 1
            itemsPerPage := 20 } :=
  (applyFilters_filters_and_resets "c1" "B" sampleGradebook (by decide)).trans
    (congrArg Except.ok (by decide!))

/-- Slicing a list whose first `k` elements were dropped is slicing the list `k` further. -/
theorem slice_drop {α : Type} (l : List α) (k a b : Nat) :
    slice (l.drop k) a b = slice l (a + k) (b + k) := by
  apply List.ext_getElem?
  intro i
  simp only [slice, List.getElem?_drop, List.getElem?_take]
  by_cases h : a + i < b
  · have h2 : a + k + i < b + k := by omega
    simp only [h, h2, if_true]
    congr 1
    omega
  · have h2 : ¬ a + k + i < b + k := by omega
    simp [h, h2]

/-- The pages of size `k` of a list, one after the other, give the list back, as soon as
there are enough pages to reach its end. -/
theorem pages_flatten {α : Type} (k m : Nat) (l : List α) (h : l.length ≤ m * k) :
    ((List.range m).map (fun i => slice l (i * k) (i * k + k))).flatten = l := by
  induction m generalizing l with
  | zero =>
    have : l = [] := List.eq_nil_of_length_eq_zero (by omega)
    simp [this]
  | succ m ih =>
    have hlen : (l.drop k).length ≤ m * k := by
      simp only [List.length_drop]
      have : (m + 1) * k = m * k + k := by ring
      omega
    have hrest := ih (l.drop k) hlen
    rw [List.range_succ_eq_map, List.map_cons, List.map_map, List.flatten_cons]
    have hfun : ((fun i => slice l (i * k) (i * k + k)) ∘ Nat.succ) =
        fun i => slice (l.drop k) (i * k) (i * k + k) := by
      funext i
      simp only [Function.comp, slice_drop]
      congr 1 <;> simp [Nat.succ_mul]
    rw [hfun, hrest]
    simp [slice]

/-- C9: with 20 items per page and at least one filtered entry, every page from 1 to
`maxPage` that `displayGrades` shows is non-empty and has at most 20 entries, and the pages
concatenated in page order are `filteredGrades`. -/
theorem displayGrades_pages_partition (s : Gradebook) (hipp : s.itemsPerPage = 20)
    (hn : 1 ≤ s.filteredGrades.length) :
    1 ≤ maxPage s ∧
    (∀ p, 1 ≤ p → p ≤ maxPage s →
      displayGrades { s with currentPage := p } ≠ [] ∧
      (displayGrades { s with currentPage := p }).length ≤ 20) ∧
    ((List.range (maxPage s)).map
      (fun i => displayGrades { s with currentPage := i + 1 })).flatten = s.filteredGrades := by
  refine ⟨?_, ?_, ?_⟩
  · simp only [maxPage, hipp]
    omega
  · intro p hp1 hp2
    simp only [maxPage, hipp] at hp2
    have hlen : (displayGrades { s with currentPage := p }).length =
        min ((p - 1) * 20 + 20) s.filteredGrades.length - (p - 1) * 20 := by
      simp [displayGrades, slice, hipp]
    constructor
    · intro hnil
      have := congrArg List.length hnil
      rw [hlen] at this
      simp only [List.length_nil] at this
      omega
    · rw [hlen]
      omega
  · have h := pages_flatten 20 (maxPage s) s.filteredGrades (by
      simp only [maxPage, hipp]
      omega)
    simpa [displayGrades, hipp] using h

/-- Witness of C9: the second page of 25 rows is non-empty, and the two pages give the rows. -/
theorem displayGrades_pages_partition_witness :
    displayGrades { pagedGradebook with currentPage := 2 } ≠ [] ∧
    (displayGrades { pagedGradebook with currentPage := 2 }).length ≤ 20 ∧
    ((List.range (maxPage pagedGradebook)).map
      (fun i => displayGrades { pagedGradebook with currentPage := i + 1 })).flatten =
        pagedGradebook.filteredGrades :=
  have h := displayGrades_pages_partition pagedGradebook rfl (by decide)
  ⟨(h.2.1 2 (by decide) (by decide)).1, (h.2.1 2 (by decide) (by decide)).2, h.2.2⟩

/-- Inserting an element keeps all elements. -/
theorem sortInsert_perm {α : Type} (cmp : α → α → Int) (a : α) (l : List α) :
    (sortInsert cmp a l).Perm (a :: l) := by
  induction l with
  | nil => simp [sortInsert]
  | cons b l ih =>
    simp only [sortInsert]
    split_ifs
    · exact List.Perm.refl _
    · exact (List.Perm.cons b ih).trans (List.Perm.swap a b l)

/-- Sorting permutes. -/
theorem jsSort_perm {α : Type} (cmp : α → α → Int) (l : List α) :
    (jsSort cmp l).Perm l := by
  induction l with
  | nil => simp [jsSort]
  | cons a l ih =>
    simp only [jsSort]
    exact (sortInsert_perm cmp a _).trans (List.Perm.cons a ih)

/-- Insertion only looks at the comparator on the inserted element and the list. -/
theorem sortInsert_congr {α : Type} (cmp cmp2 : α → α → Int) (a : α) (l : List α)
    (h : ∀ b ∈ l, cmp a b = cmp2 a b) :
    sortInsert cmp a l = sortInsert cmp2 a l := by
  induction l with
  | nil => rfl
  | cons b l ih =>
    simp only [sortInsert, h b (by simp), ih (fun c hc => h c (by simp [hc]))]

/-- Sorting only looks at the comparator on the elements of the list. -/
theorem jsSort_congr {α : Type} (cmp cmp2 : α → α → Int) (l : List α)
    (h : ∀ a ∈ l, ∀ b ∈ l, cmp a b = cmp2 a b) :
    jsSort cmp l = jsSort cmp2 l := by
  induction l with
  | nil => rfl
  | cons a l ih =>
    have hl := ih (fun x hx y hy => h x (by simp [hx]) y (by simp [hy]))
    simp only [jsSort, hl]
    apply sortInsert_congr
    intro b hb
    have hb2 : b ∈ l := (jsSort_perm cmp2 l).mem_iff.1 hb
    exact h a (by simp) b (by simp [hb2])

/-- Inserting by descending key into a list in descending order keeps it in descending
order. -/
theorem sortInsert_sorted {α : Type} (key : α → Int) (a : α) (l : List α)
    (hl : l.Pairwise (fun x y => key y ≤ key x)) :
    (sortInsert (fun x y => key y - key x) a l).Pairwise (fun x y => key y ≤ key x) := by
  induction l with
  | nil => simp [sortInsert]
  | cons b l ih =>
    have hb := List.pairwise_cons.1 hl
    simp only [sortInsert]
    split_ifs with hab
    · refine List.pairwise_cons.2 ⟨?_, hl⟩
      intro c hc
      rcases List.mem_cons.1 hc with rfl | hc
      · omega
      · have := hb.1 c hc
        omega
    · refine List.pairwise_cons.2 ⟨?_, ih hb.2⟩
      intro c hc
      have hc2 := (sortInsert_perm _ a l).mem_iff.1 hc
      rcases List.mem_cons.1 hc2 with rfl | hc2
      · omega
      · exact hb.1 c hc2

/-- Sorting by descending key gives descending order. -/
theorem jsSort_sorted {α : Type} (key : α → Int) (l : List α) :
    (jsSort (fun x y => key y - key x) l).Pairwise (fun x y => key y ≤ key x) := by
  induction l with
  | nil => simp [jsSort]
  | cons a l ih => exact sortInsert_sorted key a _ ih

/-- Inserting by descending key puts the element in front of the elements of its key. -/
theorem sortInsert_filter {α : Type} (key : α → Int) (g : Int) (a : α) (l : List α) :
    (sortInsert (fun x y => key y - key x) a l).filter (fun x => decide (key x = g)) =
      (a :: l).filter (fun x => decide (key x = g)) := by
  induction l with
  | nil => simp [sortInsert]
  | cons b l ih =>
    simp only [sortInsert]
    split_ifs with hab
    · rfl
    · have hne : key b ≠ key a := by omega
      rw [List.filter_cons, ih]
      by_cases ha : key a = g
      · have hbg : ¬ key b = g := fun h => hne (h.trans ha.symm)
        simp [List.filter_cons, ha, hbg]
      · simp [List.filter_cons, ha]

/-- Sorting by descending key is stable: the elements of each key keep their order. -/
theorem jsSort_stable {α : Type} (key : α → Int) (g : Int) (l : List α) :
    (jsSort (fun x y => key y - key x) l).filter (fun x => decide (key x = g)) =
      l.filter (fun x => decide (key x = g)) := by
  induction l with
  | nil => simp [jsSort]
  | cons a l ih =>
    simp only [jsSort]
    rw [sortInsert_filter, List.filter_cons, List.filter_cons, ih]

/-- On entries with numeric grades the comparator of `sortBy = 'grade'` is the difference
of the grades. -/
theorem sortGrades_by_grade_eq (localeCompare : String → String → Int) (s : Gradebook)
    (hnum : ∀ e ∈ s.filteredGrades, e.grade ≠ none) :
    (sortGrades localeCompare "grade" s).filteredGrades =
      jsSort (fun a b => gradeValue b - gradeValue a) s.filteredGrades := by
  unfold sortGrades
  apply jsSort_congr
  intro a ha b hb
  obtain ⟨x, hx⟩ := Option.ne_none_iff_exists'.1 (hnum a ha)
  obtain ⟨y, hy⟩ := Option.ne_none_iff_exists'.1 (hnum b hb)
  simp [compareGrades, jsSub, sortCompare, gradeValue, hx, hy]

/-- C10: when every filtered entry has a numeric grade, `sortGrades` with `sortBy = 'grade'`
leaves `filteredGrades` a permutation of its previous contents, in non-increasing order of
grade, the entries of each grade keeping their previous relative order; the other fields of
the gradebook are unchanged. -/
theorem sortGrades_by_grade_sorted_stable (localeCompare : String → String → Int)
    (s : Gradebook) (hnum : ∀ e ∈ s.filteredGrades, e.grade ≠ none) :
    (sortGrades localeCompare "grade" s).filteredGrades.Perm s.filteredGrades ∧
    (sortGrades localeCompare "grade" s).filteredGrades.Pairwise
      (fun a b => ∃ x y, a.grade = some x ∧ b.grade = some y ∧ y ≤ x) ∧
    (∀ g : Int,
      (sortGrades localeCompare "grade" s).filteredGrades.filter
          (fun e => decide (e.grade = some g)) =
        s.filteredGrades.filter (fun e => decide (e.grade = some g))) ∧
    (sortGrades localeCompare "grade" s).allGrades = s.allGrades ∧
    (sortGrades localeCompare "grade" s).currentPage = s.currentPage := by
  have heq := sortGrades_by_grade_eq localeCompare s hnum
  have hperm : (sortGrades localeCompare "grade" s).filteredGrades.Perm s.filteredGrades := by
    rw [heq]
    exact jsSort_perm _ _
  have hnum2 : ∀ e ∈ (sortGrades localeCompare "grade" s).filteredGrades, e.grade ≠ none :=
    fun e he => hnum e (hperm.mem_iff.1 he)
  have hkey : ∀ (e : GradeEntry) (g : Int), e.grade ≠ none →
      (decide (e.grade = some g) = decide (gradeValue e = g)) := by
    intro e g he
    obtain ⟨x, hx⟩ := Option.ne_none_iff_exists'.1 he
    simp [gradeValue, hx]
  refine ⟨hperm, ?_, ?_, rfl, rfl⟩
  · have hs := jsSort_sorted gradeValue s.filteredGrades
    rw [← heq] at hs
    refine (List.Pairwise.and_mem.1 hs).imp ?_
    rintro a b ⟨ha, hb, hab⟩
    obtain ⟨x, hx⟩ := Option.ne_none_iff_exists'.1 (hnum2 a ha)
    obtain ⟨y, hy⟩ := Option.ne_none_iff_exists'.1 (hnum2 b hb)
    refine ⟨x, y, hx, hy, ?_⟩
    simpa [gradeValue, hx, hy] using hab
  · intro g
    rw [List.filter_congr (fun e he => hkey e g (hnum2 e he)),
      List.filter_congr (fun e he => hkey e g (hnum e he)), heq]
    exact jsSort_stable gradeValue g s.filteredGrades

/-- Witness of C10: the three sample rows sorted by grade, highest first. -/
theorem sortGrades_by_grade_sorted_stable_witness :
    (sortGrades (fun _ _ => 0) "grade"
        { sampleGradebook with filteredGrades := sampleGradebook.allGrades }).filteredGrades.Perm
      sampleGradebook.allGrades ∧
    ((sortGrades (fun _ _ => 0) "grade"
        { sampleGradebook with filteredGrades := sampleGradebook.allGrades }).filteredGrades.map
      (fun e => e.id)) = ["s2", "s1", "s3"] :=
  ⟨(sortGrades_by_grade_sorted_stable (fun _ _ => 0)
      { sampleGradebook with filteredGrades := sampleGradebook.allGrades } (by decide)).1,
    by decide⟩

end GradebookManager

/-! ## Email validation and registration: theorems -/

namespace Utils

/-- With no item left only the empty input matches. -/
theorem matchItems_nil (s : List Char) : matchItems [] s = true ↔ s = [] := by
  cases s <;> simp [matchItems]

/-- An item quantified once consumes exactly one character of its class. -/
theorem matchItems_one (p : Char → Bool) (rest : List Item) (s : List Char) :
    matchItems (⟨p, .one⟩ :: rest) s = true ↔
      ∃ c t, s = c :: t ∧ p c = true ∧ matchItems rest t = true := by
  cases s with
  | nil => simp [matchItems]
  | cons c t =>
    simp only [matchItems, Bool.and_eq_true, List.cons.injEq]
    constructor
    · rintro ⟨hc, ht⟩
      exact ⟨c, t, ⟨rfl, rfl⟩, hc, ht⟩
    · rintro ⟨x, u, ⟨rfl, rfl⟩, hc, ht⟩
      exact ⟨hc, ht⟩

/-- An item quantified `+` consumes a non-empty run of characters of its class. -/
theorem matchItems_plus (p : Char → Bool) (rest : List Item) (s : List Char) :
    matchItems (⟨p, .plus⟩ :: rest) s = true ↔
      ∃ a t, s = a ++ t ∧ a ≠ [] ∧ (∀ c ∈ a, p c = true) ∧ matchItems rest t = true := by
  induction s with
  | nil =>
    simp only [matchItems, Bool.false_eq_true, false_iff]
    rintro ⟨a, t, h, ha, -⟩
    cases a with
    | nil => exact ha rfl
    | cons x a => simp at h
  | cons c s ih =>
    simp only [matchItems, Bool.and_eq_true, Bool.or_eq_true, ih]
    constructor
    · rintro ⟨hc, ⟨a, t, rfl, -, ha, ht⟩ | ht⟩
      · refine ⟨c :: a, t, rfl, by simp, ?_, ht⟩
        intro x hx
        rcases List.mem_cons.1 hx with rfl | hx
        · exact hc
        · exact ha x hx
      · exact ⟨[c], s, rfl, by simp, by simpa using hc, ht⟩
    · rintro ⟨a, t, h, ha, hall, ht⟩
      cases a with
      | nil => exact absurd rfl ha
      | cons x a =>
        simp only [List.cons_append, List.cons.injEq] at h
        obtain ⟨rfl, rfl⟩ := h
        refine ⟨hall c (by simp), ?_⟩
        cases a with
        | nil => exact Or.inr (by simpa using ht)
        | cons y a =>
          exact Or.inl ⟨y :: a, t, rfl, by simp, fun z hz => hall z (by simp [hz]), ht⟩

/-- The input matches the regular expression of `isValidEmail` exactly when it is a
non-empty run, an at sign, a non-empty run, a dot and a non-empty run, the runs being free
of white space and of at signs. -/
theorem matchItems_emailRegex (s : List Char) :
    matchItems emailRegex s = true ↔
      ∃ a b c, s = a ++ atSign :: (b ++ dot :: c) ∧
        a ≠ [] ∧ b ≠ [] ∧ c ≠ [] ∧
        (∀ x ∈ a, notSpaceNorAt x = true) ∧ (∀ x ∈ b, notSpaceNorAt x = true) ∧
        (∀ x ∈ c, notSpaceNorAt x = true) := by
  simp only [emailRegex, matchItems_plus, matchItems_one, matchItems_nil, decide_eq_true_eq]
  constructor
  · rintro ⟨a, t, rfl, ha, hpa, x, t2, rfl, rfl, b, t3, rfl, hb, hpb, y, t4, rfl, rfl, c, t5,
      rfl, hc, hpc, rfl⟩
    exact ⟨a, b, c, by simp, ha, hb, hc, hpa, hpb, hpc⟩
  · rintro ⟨a, b, c, rfl, ha, hb, hc, hpa, hpb, hpc⟩
    exact ⟨a, _, rfl, ha, hpa, _, _, rfl, rfl, b, _, rfl, hb, hpb, _, _, rfl, rfl, c, [],
      by simp, hc, hpc, rfl⟩

end Utils
namespace Utils

/-- A run of the class `[^\s@]` has no white space and no at sign. -/
theorem run_notSpaceNorAt (a : List Char) (h : ∀ x ∈ a, notSpaceNorAt x = true) :
    (∀ x ∈ a, isRegexSpace x = false) ∧ a.count atSign = 0 := by
  constructor
  · intro x hx
    have := h x hx
    simp only [notSpaceNorAt, Bool.and_eq_true, Bool.not_eq_true'] at this
    exact this.1
  · rw [List.count_eq_zero]
    intro hmem
    have := h atSign hmem
    simp [notSpaceNorAt] at this

/-- The matcher of `js/utils.js` accepts exactly the strings of the stated shape. -/
theorem isValidEmail_iff_shape (s : String) : isValidEmail s = true ↔ ValidEmailShape s := by
  unfold isValidEmail ValidEmailShape
  rw [matchItems_emailRegex]
  have hat : isRegexSpace atSign = false := by decide
  have hdot : isRegexSpace dot = false := by decide
  have hne : dot ≠ atSign := by decide
  constructor
  · rintro ⟨a, b, c, hs, ha, hb, hc, hpa, hpb, hpc⟩
    obtain ⟨hsa, hca⟩ := run_notSpaceNorAt a hpa
    obtain ⟨hsb, hcb⟩ := run_notSpaceNorAt b hpb
    obtain ⟨hsc, hcc⟩ := run_notSpaceNorAt c hpc
    refine ⟨?_, ?_, a, b ++ dot :: c, hs, ha, b, c, rfl, hb, hc⟩
    · intro x hx
      rw [hs] at hx
      simp only [List.mem_append, List.mem_cons] at hx
      rcases hx with hx | rfl | hx | rfl | hx
      · exact hsa x hx
      · exact hat
      · exact hsb x hx
      · exact hdot
      · exact hsc x hx
    · rw [hs]
      simp [List.count_append, List.count_cons, hca, hcb, hcc, hne]
  · rintro ⟨hsp, hcount, loc, dom, hs, hloc, b, c, rfl, hb, hc⟩
    rw [hs] at hcount
    simp only [List.count_append, List.count_cons, beq_self_eq_true, if_true,
      beq_iff_eq, hne, if_false] at hcount
    have hmem : ∀ x, x ∈ loc ∨ x ∈ b ∨ x ∈ c → x ∈ s.data := by
      intro x hx
      rw [hs]
      simp only [List.mem_append, List.mem_cons]
      tauto
    have hrun : ∀ l : List Char, (∀ x ∈ l, x ∈ s.data) → l.count atSign = 0 →
        ∀ x ∈ l, notSpaceNorAt x = true := by
      intro l hl hz x hx
      have h1 := hsp x (hl x hx)
      have h2 : x ≠ atSign := by
        rintro rfl
        exact (List.count_eq_zero.1 hz) hx
      simp [notSpaceNorAt, h1, h2]
    refine ⟨loc, b, c, hs, hloc, hb, hc, ?_, ?_, ?_⟩
    · exact hrun loc (fun x hx => hmem x (Or.inl hx)) (by omega)
    · exact hrun b (fun x hx => hmem x (Or.inr (Or.inl hx))) (by omega)
    · exact hrun c (fun x hx => hmem x (Or.inr (Or.inr hx))) (by omega)

/-- C18: `isValidEmail(s)` is true if and only if `s` contains no white space, contains
exactly one at sign with at least one character before it, and the part after the at sign
contains a dot with at least one character before it and at least one after it; the copy
of `public/app.js` and the copy of `public/js/utils.js` agree on every string. -/
theorem isValidEmail_characterisation :
    (∀ s : String, isValidEmail s = true ↔ ValidEmailShape s) ∧
    (∀ s : String, PublicApp.isValidEmail s = isValidEmail s) :=
  ⟨isValidEmail_iff_shape, fun _ => rfl⟩

end Utils

namespace AuthManager

/-- C17: `registerWithEmail` calls `createUserWithEmailAndPassword` if and only if the three
strings are non-empty, the passwords are equal, the password has at least 6 characters and
`isValidEmail(email)` holds, and then it calls it once with the email and the password;
otherwise it throws, before any backend call or document write, the error of the first
failing check in the order: fill in all fields, passwords do not match, password length,
invalid email address. -/
theorem registerWithEmail_validation (backend : AuthBackend)
    (email password confirmPassword : String) (userData : RegisterData) :
    ((registerWithEmail backend email password confirmPassword userData).createUserCalls ≠ [] ↔
      (email ≠ "" ∧ password ≠ "" ∧ confirmPassword ≠ "") ∧ password = confirmPassword ∧
        6 ≤ Utils.jsLength password ∧ Utils.isValidEmail email = true) ∧
    (((email ≠ "" ∧ password ≠ "" ∧ confirmPassword ≠ "") ∧ password = confirmPassword ∧
        6 ≤ Utils.jsLength password ∧ Utils.isValidEmail email = true) →
      (registerWithEmail backend email password confirmPassword userData).createUserCalls =
        [(email, password)]) ∧
    ((email = "" ∨ password = "" ∨ confirmPassword = "") →
      ThrowsBeforeAnyCall (registerWithEmail backend email password confirmPassword userData)
        "Please fill in all fields") ∧
    (¬ (email = "" ∨ password = "" ∨ confirmPassword = "") → password ≠ confirmPassword →
      ThrowsBeforeAnyCall (registerWithEmail backend email password confirmPassword userData)
        "Passwords do not match") ∧
    (¬ (email = "" ∨ password = "" ∨ confirmPassword = "") → password = confirmPassword →
      Utils.jsLength password < 6 →
      ThrowsBeforeAnyCall (registerWithEmail backend email password confirmPassword userData)
        "Password must be at least 6 characters") ∧
    (¬ (email = "" ∨ password = "" ∨ confirmPassword = "") → password = confirmPassword →
      6 ≤ Utils.jsLength password → Utils.isValidEmail email = false →
      ThrowsBeforeAnyCall (registerWithEmail backend email password confirmPassword userData)
        "Invalid email address") := by
  have hcalls : ∀ h1 : ¬ (email = "" ∨ password = "" ∨ confirmPassword = ""),
      password = confirmPassword → 6 ≤ Utils.jsLength password →
      Utils.isValidEmail email = true →
      (registerWithEmail backend email password confirmPassword userData).createUserCalls =
        [(email, password)] := by
    intro h1 h2 h3 h4
    have h3' : ¬ Utils.jsLength password < 6 := by omega
    unfold registerWithEmail
    rw [if_neg h1, if_neg (by simpa using h2), if_neg h3', if_neg (by simp [h4])]
    cases backend.createUserFault <;> cases backend.updateProfileFault <;>
      cases backend.setFault <;> rfl
  have hfill : (email = "" ∨ password = "" ∨ confirmPassword = "") →
      ThrowsBeforeAnyCall (registerWithEmail backend email password confirmPassword userData)
        "Please fill in all fields" := by
    intro h
    unfold registerWithEmail
    rw [if_pos h]
    exact ⟨rfl, rfl, rfl, rfl⟩
  have hmatch : ¬ (email = "" ∨ password = "" ∨ confirmPassword = "") →
      password ≠ confirmPassword →
      ThrowsBeforeAnyCall (registerWithEmail backend email password confirmPassword userData)
        "Passwords do not match" := by
    intro h1 h2
    unfold registerWithEmail
    rw [if_neg h1, if_pos h2]
    exact ⟨rfl, rfl, rfl, rfl⟩
  have hlen : ¬ (email = "" ∨ password = "" ∨ confirmPassword = "") →
      password = confirmPassword → Utils.jsLength password < 6 →
      ThrowsBeforeAnyCall (registerWithEmail backend email password confirmPassword userData)
        "Password must be at least 6 characters" := by
    intro h1 h2 h3
    unfold registerWithEmail
    rw [if_neg h1, if_neg (by simpa using h2), if_pos h3]
    exact ⟨rfl, rfl, rfl, rfl⟩
  have hmail : ¬ (email = "" ∨ password = "" ∨ confirmPassword = "") →
      password = confirmPassword → 6 ≤ Utils.jsLength password →
      Utils.isValidEmail email = false →
      ThrowsBeforeAnyCall (registerWithEmail backend email password confirmPassword userData)
        "Invalid email address" := by
    intro h1 h2 h3 h4
    have h3' : ¬ Utils.jsLength password < 6 := by omega
    unfold registerWithEmail
    rw [if_neg h1, if_neg (by simpa using h2), if_neg h3', if_pos (by simp [h4])]
    exact ⟨rfl, rfl, rfl, rfl⟩
  refine ⟨⟨?_, ?_⟩, ?_, hfill, hmatch, hlen, hmail⟩
  · intro hne
    by_cases h1 : email = "" ∨ password = "" ∨ confirmPassword = ""
    · exact absurd (hfill h1).2.1 hne
    · by_cases h2 : password = confirmPassword
      · by_cases h3 : Utils.jsLength password < 6
        · exact absurd (hlen h1 h2 h3).2.1 hne
        · by_cases h4 : Utils.isValidEmail email = true
          · refine ⟨?_, h2, by omega, h4⟩
            simpa [not_or] using h1
          · exact absurd (hmail h1 h2 (by omega) (by simpa using h4)).2.1 hne
      · exact absurd (hmatch h1 h2).2.1 hne
  · rintro ⟨⟨e1, e2, e3⟩, h2, h3, h4⟩
    rw [hcalls (by simp [e1, e2, e3]) h2 h3 h4]
    simp
  · rintro ⟨⟨e1, e2, e3⟩, h2, h3, h4⟩
    exact hcalls (by simp [e1, e2, e3]) h2 h3 h4

end AuthManager

/-! ## File selection and Google login: theorems -/

namespace SubmissionManager

/-- C20: `handleFileSelect(file)` sets `selectedFile` to the file (and shows its preview,
without an error toast) if and only if the size is at most `10 * 1024 * 1024` bytes and the
MIME type is one of the six allowed types; otherwise `selectedFile` and the preview keep
their previous values. -/
theorem handleFileSelect_accepts_iff (s : FileState) (file : File) :
    (((handleFileSelect s file).selectedFile = some file ∧
        (handleFileSelect s file).preview = some file ∧
        (handleFileSelect s file).toasts = s.toasts) ↔
      (file.size ≤ 10 * 1024 * 1024 ∧
        file.type ∈ ["application/pdf",
          "application/vnd.openxmlformats-officedocument.wordprocessingml.document",
          "application/msword", "text/plain", "image/jpeg", "image/png"])) ∧
    (¬ (file.size ≤ 10 * 1024 * 1024 ∧
        file.type ∈ ["application/pdf",
          "application/vnd.openxmlformats-officedocument.wordprocessingml.document",
          "application/msword", "text/plain", "image/jpeg", "image/png"]) →
      (handleFileSelect s file).selectedFile = s.selectedFile ∧
      (handleFileSelect s file).preview = s.preview) := by
  have happ : ∀ (l : List (String × String)) (x : String × String), l ++ [x] ≠ l := by
    intro l x h
    have := congrArg List.length h
    simp at this
  unfold handleFileSelect
  by_cases hsize : file.size > maxSize
  · have hs : ¬ file.size ≤ 10 * 1024 * 1024 := by
      simp only [maxSize] at hsize
      omega
    rw [if_pos hsize]
    exact ⟨⟨fun h => absurd h.2.2 (happ _ _), fun h => absurd h.1 hs⟩, fun _ => ⟨rfl, rfl⟩⟩
  · have hs : file.size ≤ 10 * 1024 * 1024 := by
      simp only [maxSize] at hsize
      omega
    rw [if_neg hsize]
    by_cases htype : allowedTypes.contains file.type = true
    · have hmem : file.type ∈ allowedTypes := by simpa using htype
      rw [if_neg (by simpa using hmem)]
      exact ⟨⟨fun _ => ⟨hs, hmem⟩, fun _ => ⟨rfl, rfl, rfl⟩⟩, fun h => absurd ⟨hs, hmem⟩ h⟩
    · have hmem : ¬ file.type ∈ allowedTypes := by simpa using htype
      rw [if_pos (by simpa using hmem)]
      exact ⟨⟨fun h => absurd h.2.2 (happ _ _), fun h => absurd h.2 hmem⟩,
        fun _ => ⟨rfl, rfl⟩⟩

/-- Witness of C20: a PDF of 2 kB is selected, an archive leaves the selection as it was. -/
theorem handleFileSelect_accepts_iff_witness :
    (handleFileSelect ⟨none, none, []⟩ samplePdf).selectedFile = some samplePdf ∧
    (handleFileSelect ⟨some samplePdf, some samplePdf, []⟩ sampleZip).selectedFile =
      some samplePdf :=
  ⟨((handleFileSelect_accepts_iff ⟨none, none, []⟩ samplePdf).1.2 (by decide)).1,
    ((handleFileSelect_accepts_iff ⟨some samplePdf, some samplePdf, []⟩ sampleZip).2
      (by decide)).1⟩

end SubmissionManager

namespace PublicApp

/-- C19: after a successful Google sign-in whose document read succeeds, `handleGoogleLogin`
issues a `setDoc` of the user profile if and only if no `users/{uid}` document exists;
when one exists it writes nothing and the store is unchanged, and when none exists the
single profile written (which is the new document when the write succeeds) has role
`student`, provider `google` and an empty `enrolledCourses`. -/
theorem handleGoogleLogin_creates_profile_iff (env : GoogleBackend) (db : Firestore)
    (user : GoogleUser) (hsign : env.signIn = .ok user) (hread : env.getDocFault = none) :
    ((handleGoogleLogin env db).setCalls ≠ [] ↔ db.users user.uid = none) ∧
    (db.users user.uid ≠ none →
      (handleGoogleLogin env db).setCalls = [] ∧ (handleGoogleLogin env db).db = db) ∧
    (db.users user.uid = none →
      (handleGoogleLogin env db).setCalls = [(user.uid, googleProfile user)] ∧
      (env.setDocFault = none →
        (handleGoogleLogin env db).db.users user.uid = some (googleProfile user)) ∧
      (googleProfile user).fields.lookup "role" = some "student" ∧
      (googleProfile user).fields.lookup "provider" = some "google" ∧
      (googleProfile user).enrolledCourses = some []) := by
  unfold handleGoogleLogin
  simp only [hsign, hread]
  cases hdoc : db.users user.uid with
  | none =>
    refine ⟨?_, fun h => absurd rfl h, fun _ => ⟨?_, ?_, ?_, ?_, rfl⟩⟩
    · cases env.setDocFault <;> simp
    · cases env.setDocFault <;> rfl
    · intro hset
      simp [hset, setUserDoc]
    · simp [googleProfile, List.lookup]
    · simp [googleProfile, List.lookup]
  | some d =>
    simp

/-- Witness of C19: a first Google login on the sample store writes the profile. -/
theorem handleGoogleLogin_creates_profile_iff_witness :
    (handleGoogleLogin ⟨.ok sampleGoogleUser, none, none⟩ sampleDb).setCalls =
        [("g1", googleProfile sampleGoogleUser)] ∧
    (googleProfile sampleGoogleUser).fields.lookup "role" = some "student" :=
  have h := handleGoogleLogin_creates_profile_iff ⟨.ok sampleGoogleUser, none, none⟩ sampleDb
    sampleGoogleUser rfl rfl
  ⟨(h.2.2 (by simp [sampleDb, sampleGoogleUser])).1,
    (h.2.2 (by simp [sampleDb, sampleGoogleUser])).2.2.1⟩

end PublicApp

/-! ## CSV export: theorems -/

namespace GradebookManager

/-- A text without line feed is a single line. -/
theorem splitLines_of_not_mem (a : List Char) (h : lineFeed ∉ a) : splitLines a = [a] := by
  induction a with
  | nil => rfl
  | cons c a ih =>
    have hc : c ≠ lineFeed := fun hc => h (by simp [hc])
    have ha : lineFeed ∉ a := fun ha => h (by simp [ha])
    simp [splitLines, hc, ih ha]

/-- A line feed after a text without line feed ends the first line. -/
theorem splitLines_append (a rest : List Char) (h : lineFeed ∉ a) :
    splitLines (a ++ lineFeed :: rest) = a :: splitLines rest := by
  induction a with
  | nil => simp [splitLines]
  | cons c a ih =>
    have hc : c ≠ lineFeed := fun hc => h (by simp [hc])
    have ha : lineFeed ∉ a := fun ha => h (by simp [ha])
    simp [splitLines, hc, ih ha]

/-- Texts without line feed joined by line feeds are the lines of the result. -/
theorem splitLines_joinChars (ls : List (List Char)) (hne : ls ≠ [])
    (h : ∀ l ∈ ls, lineFeed ∉ l) : splitLines (joinChars [lineFeed] ls) = ls := by
  induction ls with
  | nil => exact absurd rfl hne
  | cons a ls ih =>
    cases ls with
    | nil => simpa [joinChars] using splitLines_of_not_mem a (h a (by simp))
    | cons b ls =>
      have hrest := ih (by simp) (fun l hl => h l (by simp [hl]))
      simp only [joinChars, List.append_assoc, List.singleton_append]
      rw [splitLines_append a _ (h a (by simp))]
      simp only [joinChars] at hrest
      rw [hrest]

/-- A character of a joined text comes from the separator or from one of the pieces. -/
theorem mem_joinChars (sep : List Char) (ls : List (List Char)) (c : Char)
    (h : c ∈ joinChars sep ls) : c ∈ sep ∨ ∃ l ∈ ls, c ∈ l := by
  induction ls with
  | nil => simp [joinChars] at h
  | cons a ls ih =>
    cases ls with
    | nil => exact Or.inr ⟨a, by simp, by simpa [joinChars] using h⟩
    | cons b ls =>
      simp only [joinChars, List.mem_append] at h
      rcases h with (h | h) | h
      · exact Or.inr ⟨a, by simp, h⟩
      · exact Or.inl h
      · rcases ih h with h | ⟨l, hl, hc⟩
        · exact Or.inl h
        · exact Or.inr ⟨l, by simp [hl], hc⟩

/-- A data line built from cells without line feed has no line feed. -/
theorem csvLine_no_lineFeed (row : List String) (h : ∀ cell ∈ row, lineFeed ∉ cell.data) :
    lineFeed ∉ (csvLine row).data := by
  intro hmem
  simp only [csvLine, join] at hmem
  rcases mem_joinChars _ _ _ hmem with hsep | ⟨l, hl, hc⟩
  · revert hsep
    decide
  · simp only [List.map_map, List.mem_map, Function.comp] at hl
    obtain ⟨cell, hcell, rfl⟩ := hl
    have hq : lineFeed ≠ doubleQuote := by decide
    have hin : lineFeed ∈ cell.data := by simpa [quoteCell, hq] using hc
    exact h cell hcell hin

/-- Every row has 10 cells, the 7th being the percentage followed by the percent sign and
the 8th the letter grade of the percentage. -/
theorem csvRow_cells (fmt : Option Int → Option String) (e : GradeEntry) (row : List String)
    (h : csvRow fmt e = some row) :
    row.length = 10 ∧
    row[6]? = some (showInt (calculatePercentage e.grade e.maxPoints) ++ "%") ∧
    row[7]? = some (getLetterGrade (calculatePercentage e.grade e.maxPoints)) := by
  unfold csvRow at h
  cases hf : fmt e.submittedAt with
  | none => simp [hf] at h
  | some d =>
    simp only [hf, Option.some.injEq] at h
    subst h
    simp

/-- The rows are built entry by entry, in order, when no row throws. -/
theorem csvRows_forall2 (fmt : Option Int → Option String) (l : List GradeEntry)
    (hfmt : ∀ e ∈ l, fmt e.submittedAt ≠ none) :
    ∃ rows, csvRows fmt l = some rows ∧
      List.Forall₂ (fun e row => csvRow fmt e = some row) l rows := by
  induction l with
  | nil => exact ⟨[], rfl, List.Forall₂.nil⟩
  | cons e l ih =>
    obtain ⟨rows, hrows, hall⟩ := ih (fun x hx => hfmt x (by simp [hx]))
    obtain ⟨d, hd⟩ := Option.ne_none_iff_exists'.1 (hfmt e (by simp))
    have hrow : ∃ row, csvRow fmt e = some row := by
      simp [csvRow, hd]
    obtain ⟨row, hrow⟩ := hrow
    exact ⟨row :: rows, by simp [csvRows, hrow, hrows], List.Forall₂.cons hrow hall⟩

/-- C11: when every filtered entry has a submission date that can be formatted and no cell
value contains a line feed, `exportToCSV` builds a CSV text of exactly `n + 1` lines for the
`n` entries of `filteredGrades`: the header line of 10 columns, then one line per entry,
in list order; each data line is the comma-joined list of its 10 double-quoted cells, the
7th cell being the percentage followed by the percent sign and the 8th the letter grade of
that percentage. -/
theorem exportToCSV_lines (fmt : Option Int → Option String) (s : Gradebook)
    (hfmt : ∀ e ∈ s.filteredGrades, fmt e.submittedAt ≠ none)
    (hlf : ∀ e ∈ s.filteredGrades, ∀ row ∈ csvRow fmt e, ∀ cell ∈ row,
      lineFeed ∉ cell.data) :
    ∃ csv rows, exportToCSV fmt s = some csv ∧
      linesOf csv = join "," csvHeaders :: rows.map csvLine ∧
      (linesOf csv).length = s.filteredGrades.length + 1 ∧
      csvHeaders.length = 10 ∧
      List.Forall₂
        (fun e row => row.length = 10 ∧
          row[6]? = some (showInt (calculatePercentage e.grade e.maxPoints) ++ "%") ∧
          row[7]? = some (getLetterGrade (calculatePercentage e.grade e.maxPoints)))
        s.filteredGrades rows := by
  obtain ⟨rows, hrows, hall⟩ := csvRows_forall2 fmt s.filteredGrades hfmt
  have hlen : rows.length = s.filteredGrades.length := hall.length_eq.symm
  have hcells : ∀ row ∈ rows, ∀ cell ∈ row, lineFeed ∉ cell.data := by
    intro row hrow
    obtain ⟨i, hi, rfl⟩ := List.getElem_of_mem hrow
    have hi2 : i < s.filteredGrades.length := by omega
    have := List.Forall₂.get hall hi2 hi
    exact hlf _ (List.getElem_mem hi2) _ (by simpa using this)
  have hlines : linesOf (join (String.singleton lineFeed)
      (join "," csvHeaders :: rows.map csvLine)) = join "," csvHeaders :: rows.map csvLine := by
    have hsep : (String.singleton lineFeed).data = [lineFeed] := rfl
    simp only [linesOf, join, hsep]
    rw [splitLines_joinChars _ (by simp)]
    · simp [List.map_map, Function.comp, join]
    · intro l hl
      simp only [List.map_cons, List.map_map, List.mem_cons, List.mem_map,
        Function.comp] at hl
      rcases hl with rfl | ⟨row, hrow, rfl⟩
      · decide
      · exact csvLine_no_lineFeed row (hcells row hrow)
  refine ⟨_, rows, by simp [exportToCSV, hrows], hlines, ?_, rfl, ?_⟩
  · rw [hlines]
    simp [hlen]
  · exact hall.imp (fun e row h => csvRow_cells fmt e row h)

/-- Witness of C11: the three sample rows give a text of four lines. -/
theorem exportToCSV_lines_witness :
    ((exportToCSV sampleFormat
        { sampleGradebook with filteredGrades := sampleGradebook.allGrades }).map
      (fun csv => (linesOf csv).length)) = some 4 :=
  have h := exportToCSV_lines sampleFormat
    { sampleGradebook with filteredGrades := sampleGradebook.allGrades }
    (by decide!) (by decide!)
  by
    obtain ⟨csv, rows, hcsv, -, hlen, -⟩ := h
    rw [hcsv]
    simpa using hlen

end GradebookManager

/-! ## `getUserStats`: theorems -/

namespace Functions

/-- Without a failing read the inner loop adds, for the assignments it visits, the graded
ones to `submittedAssignments` and the others to `pendingAssignments`. -/
theorem countAssignments_ok (faults : ReadFaults) (db : LmsDb) (uid : DocId)
    (hsub : faults.submissionRead = none) (l : List (Stored AssignmentRecord)) (acc : Nat × Nat) :
    countAssignments faults db uid l acc =
      .ok (acc.1 + l.countP (fun a => !submissionGraded db uid a),
           acc.2 + l.countP (submissionGraded db uid)) := by
  induction l generalizing acc with
  | nil => simp [countAssignments]
  | cons a l ih =>
    simp only [countAssignments, hsub]
    cases hfind : findNested db a.id uid with
    | none =>
      have hg : submissionGraded db uid a = false := by simp [submissionGraded, hfind]
      simp only [ih, List.countP_cons, hg]
      simp [Nat.add_assoc, Nat.add_comm]
    | some submission =>
      by_cases hst : submission.status = some "graded"
      · have hg : submissionGraded db uid a = true := by simp [submissionGraded, hfind, hst]
        simp only [hst, if_true, ih, List.countP_cons, hg]
        simp [Nat.add_assoc, Nat.add_comm]
      · have hg : submissionGraded db uid a = false := by simp [submissionGraded, hfind, hst]
        simp only [hst, if_false, ih, List.countP_cons, hg]
        simp [Nat.add_assoc, Nat.add_comm]

/-- Without a failing read the outer loop counts all assignments found for the course ids. -/
theorem countCourses_ok (faults : ReadFaults) (db : LmsDb) (uid : DocId)
    (hasg : faults.assignmentsRead = none) (hsub : faults.submissionRead = none)
    (courseIds : List DocId) (acc : Nat × Nat) :
    countCourses faults db uid courseIds acc =
      .ok (acc.1 + (assignmentsFound db courseIds).countP (fun a => !submissionGraded db uid a),
           acc.2 + (assignmentsFound db courseIds).countP (submissionGraded db uid)) := by
  induction courseIds generalizing acc with
  | nil => simp [countCourses, assignmentsFound]
  | cons c rest ih =>
    simp only [countCourses, hasg, countAssignments_ok faults db uid hsub, ih]
    simp [assignmentsFound, List.flatMap_cons, List.countP_append, Nat.add_assoc]

/-- Graded and not graded assignments together are all assignments. -/
theorem countP_graded_add (db : LmsDb) (uid : DocId) (l : List (Stored AssignmentRecord)) :
    l.countP (fun a => !submissionGraded db uid a) + l.countP (submissionGraded db uid) =
      l.length := by
  induction l with
  | nil => rfl
  | cons a l ih =>
    simp only [List.countP_cons, List.length_cons]
    cases submissionGraded db uid a <;> simp <;> omega

/-- The response for an existing user when no read fails. -/
theorem getUserStats_ok (db : LmsDb) (uid : DocId) (user : UserRecord)
    (huid : uid ≠ "") (huser : findDoc db.users uid = some user) :
    getUserStats noReadFaults db (some uid) =
      { status := 200
        body := .stats
          { activeCourses := (user.enrolledCourses.getD []).length
            completedCourses := 0
            pendingAssignments :=
              (assignmentsFound db (user.enrolledCourses.getD [])).countP
                (fun a => !submissionGraded db uid a)
            submittedAssignments :=
              (assignmentsFound db (user.enrolledCourses.getD [])).countP
                (submissionGraded db uid)
            averageGrade := averageGrade (db.grades.filter (fun g => g.studentId = uid)) } } := by
  have h1 : noReadFaults.userRead = none := rfl
  have h2 : noReadFaults.gradesRead = none := rfl
  have hc := countCourses_ok noReadFaults db uid rfl rfl (user.enrolledCourses.getD []) (0, 0)
  unfold getUserStats
  simp only [if_neg huid, h1, h2, huser]
  rw [hc]
  simp

/-- C12: `getUserStats` responds with status 400 and `Missing UID parameter` if and only if
`uid` is absent or empty; a response with status 404 and `User not found` means that `uid`
is given and no `users/{uid}` document exists, and it is given in that case whenever the
read of the user document succeeds; otherwise, when no read fails, the response is the
stats object with status 200. -/
theorem getUserStats_responses (faults : ReadFaults) (db : LmsDb) (uid : Option String) :
    ((getUserStats faults db uid).status = 400 ↔ (uid = none ∨ uid = some "")) ∧
    ((uid = none ∨ uid = some "") →
      getUserStats faults db uid = { status := 400, body := .error "Missing UID parameter" none }) ∧
    ((getUserStats faults db uid).status = 404 →
      (∃ u, uid = some u ∧ u ≠ "" ∧ findDoc db.users u = none) ∧
      getUserStats faults db uid = { status := 404, body := .error "User not found" none }) ∧
    (faults.userRead = none →
      ((getUserStats faults db uid).status = 404 ↔
        ∃ u, uid = some u ∧ u ≠ "" ∧ findDoc db.users u = none)) ∧
    (faults = noReadFaults → ∀ u, uid = some u → u ≠ "" → findDoc db.users u ≠ none →
      ∃ stats, getUserStats faults db uid = { status := 200, body := .stats stats }) := by
  have hfill : (uid = none ∨ uid = some "") →
      getUserStats faults db uid =
        { status := 400, body := .error "Missing UID parameter" none } := by
    rintro (rfl | rfl) <;> simp [getUserStats]
  have hcases : ∀ u, uid = some u → u ≠ "" →
      ((getUserStats faults db uid).status = 500) ∨
      (faults.userRead = none ∧ findDoc db.users u = none ∧
        getUserStats faults db uid = { status := 404, body := .error "User not found" none }) ∨
      (findDoc db.users u ≠ none ∧
        ∃ stats, getUserStats faults db uid = { status := 200, body := .stats stats }) := by
    rintro u rfl hu
    simp only [getUserStats, hu, if_false]
    cases faults.userRead with
    | some m => exact Or.inl rfl
    | none =>
      cases hdoc : findDoc db.users u with
      | none => exact Or.inr (Or.inl ⟨rfl, rfl, rfl⟩)
      | some user =>
        cases faults.gradesRead with
        | some m => exact Or.inl rfl
        | none =>
          simp only []
          cases countCourses faults db u (user.enrolledCourses.getD []) (0, 0) with
          | error m => exact Or.inl rfl
          | ok counts => exact Or.inr (Or.inr ⟨by simp, _, rfl⟩)
  have h404 : (getUserStats faults db uid).status = 404 →
      (∃ u, uid = some u ∧ u ≠ "" ∧ findDoc db.users u = none) ∧
      getUserStats faults db uid = { status := 404, body := .error "User not found" none } := by
    intro h
    cases huid : uid with
    | none => rw [hfill (Or.inl huid)] at h; simp at h
    | some u =>
      by_cases hu : u = ""
      · rw [hfill (Or.inr (by rw [huid, hu]))] at h; simp at h
      · rcases hcases u huid hu with h5 | ⟨-, hnone, hres⟩ | ⟨-, stats, hres⟩
        · rw [h5] at h; simp at h
        · exact ⟨⟨u, rfl, hu, hnone⟩, huid ▸ hres⟩
        · rw [hres] at h; simp at h
  refine ⟨⟨?_, fun h => by rw [hfill h]⟩, hfill, h404, ?_, ?_⟩
  · intro h
    cases huid : uid with
    | none => exact Or.inl rfl
    | some u =>
      by_cases hu : u = ""
      · exact Or.inr (by rw [hu])
      · rcases hcases u huid hu with h5 | ⟨-, -, hres⟩ | ⟨-, stats, hres⟩
        · rw [h5] at h; simp at h
        · rw [hres] at h; simp at h
        · rw [hres] at h; simp at h
  · intro hread
    refine ⟨fun h => (h404 h).1, ?_⟩
    rintro ⟨u, rfl, hu, hnone⟩
    simp [getUserStats, hu, hread, hnone]
  · rintro rfl u rfl hu hdoc
    rcases hcases u rfl hu with h5 | ⟨-, hnone, -⟩ | ⟨-, hres⟩
    · exfalso
      obtain ⟨user, huser⟩ := Option.ne_none_iff_exists'.1 hdoc
      rw [getUserStats_ok db u user hu huser] at h5
      simp at h5
    · exact absurd hnone hdoc
    · exact hres

/-- Witness of C12: an empty `uid` gives 400, an unknown one 404. -/
theorem getUserStats_responses_witness :
    getUserStats noReadFaults sampleDb (some "") =
      { status := 400, body := .error "Missing UID parameter" none } ∧
    (getUserStats noReadFaults sampleDb (some "nobody")).status = 404 :=
  ⟨(getUserStats_responses noReadFaults sampleDb (some "")).2.1 (Or.inr rfl),
    ((getUserStats_responses noReadFaults sampleDb (some "nobody")).2.2.2.1 rfl).2
      ⟨"nobody", rfl, by decide, by decide⟩⟩

/-- C13: for an existing user, when no read fails, `getUserStats` returns stats in which
`activeCourses` is the length of `enrolledCourses`, `submittedAssignments` counts the
assignments found for the ids of `enrolledCourses` whose submission document of the user
exists with status `graded`, `pendingAssignments` counts the other ones, and the two
together are the number of assignment documents found. -/
theorem getUserStats_counts (db : LmsDb) (uid : DocId) (user : UserRecord)
    (huid : uid ≠ "") (huser : findDoc db.users uid = some user) :
    ∃ stats, getUserStats noReadFaults db (some uid) = { status := 200, body := .stats stats } ∧
      stats.activeCourses = (user.enrolledCourses.getD []).length ∧
      stats.submittedAssignments =
        (assignmentsFound db (user.enrolledCourses.getD [])).countP (submissionGraded db uid) ∧
      stats.pendingAssignments =
        (assignmentsFound db (user.enrolledCourses.getD [])).countP
          (fun a => !submissionGraded db uid a) ∧
      stats.pendingAssignments + stats.submittedAssignments =
        (assignmentsFound db (user.enrolledCourses.getD [])).length := by
  refine ⟨_, getUserStats_ok db uid user huid huser, rfl, rfl, rfl, ?_⟩
  exact countP_graded_add db uid _

/-- Witness of C13 on the sample store: one course, one pending and one graded assignment. -/
theorem getUserStats_counts_witness :
    getUserStats noReadFaults sampleDb (some "u1") =
      { status := 200
        body := .stats { activeCourses := 1, completedCourses := 0, pendingAssignments := 1,
                         submittedAssignments := 1, averageGrade := some 0 } } :=
  have h := getUserStats_counts sampleDb "u1"
    { email := some "ada@example.org", enrolledCourses := some ["c1"], submissions := none,
      fields := [] } (by decide) (by decide)
  by
    obtain ⟨stats, hres, -⟩ := h
    rw [hres]
    have : getUserStats noReadFaults sampleDb (some "u1") =
        { status := 200
          body := .stats { activeCourses := 1, completedCourses := 0, pendingAssignments := 1,
                           submittedAssignments := 1, averageGrade := some 0 } } := by
      decide
    rw [hres] at this
    exact this

end Functions

/-! ## Grading and enrollment confirmation: theorems -/

namespace InstructorDashboard

/-- Updating a submission leaves at its path the old document with the new status, score
and feedback. -/
theorem findNested_updateNested (db : LmsDb) (assignmentId studentId : DocId)
    (score : Option Int) (feedback : String) :
    findNested (updateNested db assignmentId studentId score feedback) assignmentId studentId =
      (findNested db assignmentId studentId).map (fun d =>
        { d with status := some "graded", score := score, feedback := some feedback }) := by
  simp only [findNested, updateNested]
  induction db.nestedSubmissions with
  | nil => rfl
  | cons d l ih =>
    by_cases h : d.assignmentId = assignmentId ∧ d.studentId = studentId
    · simp [List.find?_cons, h]
    · rw [List.map_cons, if_neg h, List.find?_cons_of_neg _ (by simpa using h),
        List.find?_cons_of_neg _ (by simpa using h)]
      exact ih

/-- The percentage stored with a grade, for a score of magnitude at most `2 ^ 43` and a
maximal score other than zero of magnitude below `2 ^ 53`: the exact percentage rounded to
the nearest integer, or, when the exact percentage lies halfway between two integers,
possibly the lower one of the two. -/
theorem jsPercentage_round (s m : Int) (hm : m ≠ 0) (hs : |s| ≤ 2 ^ 43) (hm53 : |m| < 2 ^ 53) :
    jsPercentage (some s) (some m) = some ⌊(s : ℚ) / (m : ℚ) * 100 + 1 / 2⌋ ∨
      (jsPercentage (some s) (some m) = some (⌊(s : ℚ) / (m : ℚ) * 100 + 1 / 2⌋ - 1) ∧
        (s : ℚ) / (m : ℚ) * 100 + 1 / 2 = ⌊(s : ℚ) / (m : ℚ) * 100 + 1 / 2⌋) := by
  obtain ⟨p, hp, h⟩ := Float64.mathRound_percentOf s m hm hs hm53
  simp only [jsPercentage, hp]
  rcases h with h | ⟨h, hz⟩
  · left; rw [h]
  · right; exact ⟨by rw [h], hz⟩

/-- C14, amended: a run of `gradeSubmission` that reports success has added exactly one grade
document; its `studentId` is the student, its `score` is `parseInt(score)` and its
`feedback` the feedback, both as stored on the submission, its `courseId` and `maxScore`
are those of the assignment, and its `percentage` is `Math.round` of the double
`(score / maxScore) * 100`: for a score of magnitude at most `2 ^ 43` and a `maxScore` other
than zero of magnitude below `2 ^ 53` that is `score / maxScore * 100` rounded to the nearest
integer, or, when `score / maxScore * 100` lies halfway between two integers, possibly the
lower one of the two. -/
theorem gradeSubmission_adds_one_grade (parseInt : String → Option Int) (faults : GradeFaults)
    (currentUser : Option DocId) (db : LmsDb) (assignmentId studentId : DocId)
    (score feedback : String)
    (hsuccess : ("Submission graded successfully!", "success") ∈
      (gradeSubmission parseInt faults currentUser db assignmentId studentId score
        feedback).messages) :
    ∃ assignment grade submission,
      findDoc db.assignments assignmentId = some assignment ∧
      (gradeSubmission parseInt faults currentUser db assignmentId studentId score
        feedback).db.grades = db.grades ++ [grade] ∧
      findNested (gradeSubmission parseInt faults currentUser db assignmentId studentId score
        feedback).db assignmentId studentId = some submission ∧
      submission.status = some "graded" ∧
      grade.studentId = studentId ∧
      grade.score = parseInt score ∧ submission.score = parseInt score ∧
      grade.feedback = feedback ∧ submission.feedback = some feedback ∧
      grade.courseId = assignment.courseId ∧ grade.maxScore = assignment.maxScore ∧
      grade.percentage = jsPercentage (parseInt score) assignment.maxScore ∧
      (∀ s m, parseInt score = some s → assignment.maxScore = some m → m ≠ 0 →
        |s| ≤ 2 ^ 43 → |m| < 2 ^ 53 →
        (grade.percentage = some ⌊(s : ℚ) / (m : ℚ) * 100 + 1 / 2⌋ ∨
          (grade.percentage = some (⌊(s : ℚ) / (m : ℚ) * 100 + 1 / 2⌋ - 1) ∧
            (s : ℚ) / (m : ℚ) * 100 + 1 / 2 = ⌊(s : ℚ) / (m : ℚ) * 100 + 1 / 2⌋))) := by
  have hne : ("Submission graded successfully!", "success") ≠ gradingFailed := by decide
  unfold gradeSubmission at hsuccess ⊢
  cases hu : faults.updateFault with
  | some c => simp [hu, hne] at hsuccess
  | none =>
    cases hn : findNested db assignmentId studentId with
    | none => simp [hu, hn, hne] at hsuccess
    | some sub =>
      cases hg : faults.getFault with
      | some c => simp [hu, hn, hg, hne] at hsuccess
      | none =>
        have hasg : (updateNested db assignmentId studentId (parseInt score)
            feedback).assignments = db.assignments := rfl
        cases ha : findDoc db.assignments assignmentId with
        | none => simp [hu, hn, hg, hasg, ha, hne] at hsuccess
        | some assignment =>
          cases hc : currentUser with
          | none => simp [hu, hn, hg, hasg, ha, hc, hne] at hsuccess
          | some gradedBy =>
            cases hadd : faults.addFault with
            | some c => simp [hu, hn, hg, hasg, ha, hc, hadd, hne] at hsuccess
            | none =>
              have hfind := findNested_updateNested db assignmentId studentId (parseInt score)
                feedback
              rw [hn] at hfind
              refine ⟨assignment,
                { studentId := studentId
                  courseId := assignment.courseId
                  assignment := assignment.title
                  score := parseInt score
                  maxScore := assignment.maxScore
                  percentage := jsPercentage (parseInt score) assignment.maxScore
                  feedback := feedback
                  gradedBy := gradedBy },
                { sub with status := some "graded", score := parseInt score,
                           feedback := some feedback }, rfl, ?_, ?_, rfl, rfl, rfl, rfl, rfl,
                rfl, rfl, rfl, rfl, ?_⟩
              · simp only [hasg, ha]
                cases faults.reloadFault <;> rfl
              · simp only [hasg, ha]
                cases faults.reloadFault <;> exact hfind
              · intro s m hs hm hm0 hs43 hm53
                simp only [hs, hm]
                exact jsPercentage_round s m hm0 hs43 hm53

end InstructorDashboard

namespace Functions

/-- No id is new exactly when every id of the new list is in the old list. -/
theorem newCourseId_eq_none_iff (oldCourses newCourses : List DocId) :
    newCourseId oldCourses newCourses = none ↔ ∀ id ∈ newCourses, id ∈ oldCourses := by
  simp [newCourseId, List.find?_eq_none]

/-- C15, as stated, fails on the code: the update adds the id `ghost`, which the old list
does not contain, but no course document has that id, and no email is sent. -/
theorem confirmCourseEnrollment_counterexample :
    ¬ ((∃ id ∈ sampleAfterGhost.enrolledCourses.getD [],
          id ∉ sampleBefore.enrolledCourses.getD []) →
        (confirmCourseEnrollment noMailFaults sampleDb sampleBefore sampleAfterGhost).sent.length
          = 1) := by
  decide

/-- C15, amended: `confirmCourseEnrollment` sends no email when every id of the new
`enrolledCourses` was already in the old list; when the first id of the new list that is not
in the old list is a non-empty string, its course document exists, and the read of the
course and the mail transport succeed, it sends exactly one email, to the email of the
updated document, for that id; and it never sends more than one email nor one for another
id or recipient. -/
theorem confirmCourseEnrollment_emails (faults : MailFaults) (db : LmsDb)
    (before after : UserRecord) :
    ((∀ id ∈ after.enrolledCourses.getD [], id ∈ before.enrolledCourses.getD []) →
      confirmCourseEnrollment faults db before after = { result := true, sent := [] }) ∧
    (∀ id course,
      newCourseId (before.enrolledCourses.getD []) (after.enrolledCourses.getD []) = some id →
      id ≠ "" → findDoc db.courses id = some course → faults = noMailFaults →
      confirmCourseEnrollment faults db before after =
        { result := true
          sent := [{ recipient := after.email, courseId := id, courseTitle := course.title }] }) ∧
    (confirmCourseEnrollment faults db before after).sent.length ≤ 1 ∧
    (∀ mail ∈ (confirmCourseEnrollment faults db before after).sent,
      mail.recipient = after.email ∧
      newCourseId (before.enrolledCourses.getD []) (after.enrolledCourses.getD []) =
        some mail.courseId) := by
  refine ⟨?_, ?_, ?_, ?_⟩
  · intro h
    have := (newCourseId_eq_none_iff _ _).2 h
    simp [confirmCourseEnrollment, this]
  · rintro id course hid hne hdoc rfl
    simp [confirmCourseEnrollment, hid, hne, hdoc, noMailFaults]
  · unfold confirmCourseEnrollment
    simp only []
    repeat' split
    all_goals simp
  · unfold confirmCourseEnrollment
    simp only []
    cases hid : newCourseId (before.enrolledCourses.getD []) (after.enrolledCourses.getD []) with
    | none => simp
    | some id =>
      simp only []
      repeat' split
      all_goals simp

/-- Witness of the amended C15: enrolling the sample user in the course of the sample store
sends one email to the user. -/
theorem confirmCourseEnrollment_emails_witness :
    confirmCourseEnrollment noMailFaults sampleDb sampleBefore sampleAfter =
      { result := true
        sent := [{ recipient := some "ada@example.org", courseId := "c1",
                   courseTitle := some "Programming" }] } :=
  (confirmCourseEnrollment_emails noMailFaults sampleDb sampleBefore sampleAfter).2.1 "c1"
    { title := some "Programming", fields := [] } (by decide) (by decide) (by decide) rfl

end Functions

namespace InstructorDashboard

/-- Witness of C14: grading the existing submission of the sample store with 9 of 10 points
adds one grade of 90 percent. -/
theorem gradeSubmission_adds_one_grade_witness :
    ∃ grade,
      (gradeSubmission sampleParseInt noGradeFaults (some "t1") Functions.sampleDb "a2" "u1" "9"
        "Well done").db.grades = Functions.sampleDb.grades ++ [grade] ∧
      grade.score = some 9 ∧ grade.maxScore = some 10 ∧ grade.percentage = some 90 := by
  obtain ⟨assignment, grade, submission, ha, hg, -, -, -, hs, -, -, -, -, hm, -, hp⟩ :=
    gradeSubmission_adds_one_grade sampleParseInt noGradeFaults (some "t1") Functions.sampleDb
      "a2" "u1" "9" "Well done" (by decide)
  have ha2 : assignment.maxScore = some 10 := by
    have : findDoc Functions.sampleDb.assignments "a2" =
        some { courseId := some "c1", title := some "Quiz", maxScore := some 10,
               dueDate := some 900000000, fields := [] } := by decide
    rw [this] at ha
    simp only [Option.some.injEq] at ha
    rw [← ha]
  have hs2 : sampleParseInt "9" = some 9 := by decide
  have hfloor : ⌊((9 : Int) : ℚ) / ((10 : Int) : ℚ) * 100 + 1 / 2⌋ = 90 := by
    rw [Int.floor_eq_iff]
    norm_num
  refine ⟨grade, hg, by rw [hs, hs2], by rw [hm, ha2], ?_⟩
  rcases hp 9 10 hs2 ha2 (by decide) (by decide) (by decide) with h | ⟨-, hz⟩
  · rw [h, hfloor]
  · rw [hfloor] at hz
    norm_num at hz

/-- C14, as stated, fails on the code: grading with 23 of 40 points reports success and adds
one grade document, whose percentage is 57, while `23 / 40 * 100 = 57.5` rounds to 58. The
double nearest to `23 / 40` is below it, and its product with 100 rounds to the double below
57.5. -/
theorem gradeSubmission_percentage_counterexample :
    ∃ grade,
      ("Submission graded successfully!", "success") ∈
        (gradeSubmission sampleParseInt noGradeFaults (some "t1") halfPointDb "a3" "u1" "23"
          "Fair").messages ∧
      (gradeSubmission sampleParseInt noGradeFaults (some "t1") halfPointDb "a3" "u1" "23"
        "Fair").db.grades = halfPointDb.grades ++ [grade] ∧
      grade.score = some 23 ∧ grade.maxScore = some 40 ∧
      grade.percentage = some 57 ∧
      ⌊((23 : Int) : ℚ) / ((40 : Int) : ℚ) * 100 + 1 / 2⌋ = 58 ∧
      grade.percentage ≠ some ⌊((23 : Int) : ℚ) / ((40 : Int) : ℚ) * 100 + 1 / 2⌋ := by
  have hfloor : ⌊((23 : Int) : ℚ) / ((40 : Int) : ℚ) * 100 + 1 / 2⌋ = 58 := by
    rw [Int.floor_eq_iff]
    norm_num
  refine ⟨{ studentId := "u1", courseId := some "c1", assignment := some "Project",
            score := some 23, maxScore := some 40, percentage := some 57, feedback := "Fair",
            gradedBy := "t1" }, by decide!, by decide!, rfl, rfl, rfl, hfloor, ?_⟩
  rw [hfloor]
  decide

end InstructorDashboard

/-! ## Reminders and submissions: theorems -/

namespace SubmissionManager

/-- Submitting an assignment never touches the `submissions` subcollection of any
assignment, nor the assignments or the courses: it writes the top-level collection
`submissions` and the user document only. -/
theorem submitAssignment_keeps_nested (env : SubmitEnv) (s : SubmitState) (db : LmsDb) :
    (submitAssignment env s db).db.nestedSubmissions = db.nestedSubmissions ∧
    (submitAssignment env s db).db.assignments = db.assignments ∧
    (submitAssignment env s db).db.courses = db.courses := by
  have hstats : ∀ (d : LmsDb) (u : DocId),
      (updateUserStats env d u).nestedSubmissions = d.nestedSubmissions ∧
      (updateUserStats env d u).assignments = d.assignments ∧
      (updateUserStats env d u).courses = d.courses := by
    intro d u
    unfold updateUserStats
    cases env.statsFault <;> exact ⟨rfl, rfl, rfl⟩
  have hstore : ∀ (u : DocId) (d : SubmissionDoc),
      (storeSubmission env s db u d).db.nestedSubmissions = db.nestedSubmissions ∧
      (storeSubmission env s db u d).db.assignments = db.assignments ∧
      (storeSubmission env s db u d).db.courses = db.courses := by
    intro u d
    unfold storeSubmission
    split
    · exact ⟨rfl, rfl, rfl⟩
    · split
      · split
        · exact ⟨rfl, rfl, rfl⟩
        · exact hstats _ _
      · exact hstats _ _
  unfold submitAssignment
  split
  · exact ⟨rfl, rfl, rfl⟩
  · split
    · exact ⟨rfl, rfl, rfl⟩
    · split
      · exact ⟨rfl, rfl, rfl⟩
      · exact hstore _ _

/-- C16 fails on the code: in the sample store the student `u1` is enrolled in the course of
assignment `a1`, due within the next 24 hours, and submits it through `submitAssignment`,
which stores a document with status `submitted` in the top-level collection `submissions`;
`sendAssignmentReminders` looks for `assignments/a1/submissions/u1`, finds nothing, and sends
the student a reminder for `a1`. -/
theorem sendAssignmentReminders_reminds_submitter :
    (submitAssignment sampleSubmitEnv sampleSubmitState Functions.sampleDb).toast =
      ("Assignment submitted successfully", "success") ∧
    (submitAssignment sampleSubmitEnv sampleSubmitState Functions.sampleDb).db.submissions =
      [{ id := "s1"
         data := { assignmentId := "a1", courseId := some "c1", studentId := "u1",
                   status := "submitted", comments := "", content := some "My essay",
                   fileUrl := none, fileName := none } }] ∧
    Functions.sendAssignmentReminders Functions.noReminderFaults
        (submitAssignment sampleSubmitEnv sampleSubmitState Functions.sampleDb).db 0 =
      { sent := [{ recipient := some "ada@example.org", assignmentId := "a1", studentId := "u1",
                   assignmentTitle := some "Essay", courseTitle := some "Programming",
                   daysUntil := 1 }]
        thrown := none } := by
  refine ⟨by decide, by decide, by decide⟩

end SubmissionManager

/-! ## Email login: theorems -/

namespace PublicApp

/-- Whatever the role stored for the user, a login that redirects goes to the student
dashboard: `redirectUser` is called without a role. -/
theorem handleEmailLogin_redirect_eq (env : LoginBackend) (db : Firestore)
    (email password page : String)
    (h : (handleEmailLogin env db email password).redirect = some page) :
    page = "dashboard.html" := by
  have hdef : redirectUser none = "dashboard.html" := by decide
  unfold handleEmailLogin at h
  split at h
  · simp at h
  · split at h
    · simp at h
    · split at h
      · simp at h
      · split at h
        · simp at h
        · split at h
          · simpa [hdef] using h.symm
          · split at h
            · split at h
              · simp at h
              · simpa [hdef] using h.symm
            · simpa [hdef] using h.symm

/-- C21 fails on the code: the user `i1` of the sample store has the role `instructor` and
logs in successfully with email and password, and the browser is sent to `dashboard.html`,
not to `instructor-dashboard.html`, which `redirectUser` returns when it is given that
role. -/
theorem handleEmailLogin_ignores_role :
    (sampleLoginDb.users "i1").bind roleOf = some "instructor" ∧
    (handleEmailLogin ⟨.ok "i1", none, none⟩ sampleLoginDb "ida@example.org" "secret1").toast =
      some ("Login successful!", "success") ∧
    (handleEmailLogin ⟨.ok "i1", none, none⟩ sampleLoginDb "ida@example.org"
      "secret1").redirect = some "dashboard.html" ∧
    redirectUser (some "instructor") = "instructor-dashboard.html" ∧
    redirectUser (some "admin") = "admin-dashboard.html" := by
  refine ⟨by decide, by decide, by decide, by decide, by decide⟩

end PublicApp

/-! ## Grade filter and letter grade: theorems -/

namespace GradebookManager

/-- For a percentage from 0 to 100 the band of a letter in `applyFilters` holds exactly the
percentages to which `getLetterGrade` gives that letter. -/
theorem gradeFilter_agrees_in_range (e : GradeEntry) (letter : String)
    (hletter : letter = "A" ∨ letter = "B" ∨ letter = "C" ∨ letter = "D" ∨ letter = "F")
    (hlo : 0 ≤ calculatePercentage e.grade e.maxPoints)
    (hhi : calculatePercentage e.grade e.maxPoints ≤ 100) :
    PassesFilters "" letter e ↔
      getLetterGrade (calculatePercentage e.grade e.maxPoints) = letter := by
  generalize hp : calculatePercentage e.grade e.maxPoints = pct at hlo hhi
  unfold PassesFilters getLetterGrade
  rw [hp]
  rcases hletter with rfl | rfl | rfl | rfl | rfl
  all_goals
    simp only [true_or, true_and, String.reduceEq, false_or, false_and, or_false, ge_iff_le]
    split_ifs <;> simp <;> omega

/-- C24 fails on the code: the row graded 110 of 100 points has the percentage 110 and the
letter grade `A`, yet the grade filter `A` of `applyFilters`, whose band ends at 100, drops
it. -/
theorem gradeFilter_disagrees_with_letter :
    calculatePercentage extraCreditEntry.grade extraCreditEntry.maxPoints = 110 ∧
    getLetterGrade (calculatePercentage extraCreditEntry.grade extraCreditEntry.maxPoints) =
      "A" ∧
    ¬ PassesFilters "" "A" extraCreditEntry ∧
    (applyFilters "" "A" extraCreditGradebook).toOption.map (fun s => s.filteredGrades) =
      some [] := by
  refine ⟨by decide!, by decide!, by decide!, by decide!⟩

end GradebookManager

/-! ## Cached and reported average grade: theorems -/

namespace Functions

/-- The two functions accumulate the same `totalScore` over the same grade documents. -/
theorem cachedTotalScore_eq_totalScore (grades : List GradeRecord) :
    cachedTotalScore grades = totalScore grades := by
  unfold cachedTotalScore totalScore
  congr 1
  funext total grade
  simp only [gradePercent]
  cases grade.score <;> cases grade.maxScore <;> cases total <;> rfl

/-- The running sum of the percentages of grade documents with scores of magnitude at most
`2 ^ 20` and maximal scores other than zero of magnitude below `2 ^ 53`, over at most 1024
documents in all, stays finite and within `2 ^ (-15)` per document of the exact sum. -/
theorem foldl_add_error (l : List GradeRecord)
    (hl : ∀ g ∈ l, (∃ s, g.score = some s ∧ |s| ≤ 2 ^ 20) ∧
      ∃ m, g.maxScore = some m ∧ m ≠ 0 ∧ |m| < 2 ^ 53) :
    ∀ (k : Nat) (a A : ℚ), k + l.length ≤ 1024 → |a - A| ≤ k / 2 ^ 15 →
      |A| ≤ k * 104857600 →
      ∃ a1, l.foldl (fun total grade => Float64.add total (gradePercent grade)) (some a) =
          some a1 ∧
        |a1 - (A + (l.map (fun g =>
          ((g.score.getD 0 : Int) : ℚ) / ((g.maxScore.getD 0 : Int) : ℚ) * 100)).sum)| ≤
          ((k + l.length : Nat) : ℚ) / 2 ^ 15 ∧
        |A + (l.map (fun g =>
          ((g.score.getD 0 : Int) : ℚ) / ((g.maxScore.getD 0 : Int) : ℚ) * 100)).sum| ≤
          ((k + l.length : Nat) : ℚ) * 104857600 := by
  induction l with
  | nil =>
    intro k a A _ ha hA
    exact ⟨a, rfl, by simpa using ha, by simpa using hA⟩
  | cons g rest ih =>
    intro k a A hk ha hA
    obtain ⟨⟨s, hs, hs20⟩, m, hm, hm0, hm53⟩ := hl g (by simp)
    have hs53 : |s| < 2 ^ 53 := lt_of_le_of_lt hs20 (by norm_num)
    obtain ⟨t, ht, herr⟩ := Float64.percentOf_error s m hm0 hs53 hm53
    have hmq : (m : ℚ) ≠ 0 := by exact_mod_cast hm0
    have hM1 : (1 : ℚ) ≤ |(m : ℚ)| := by
      have : (1 : Int) ≤ |m| := Int.one_le_abs hm0
      exact_mod_cast this
    have hS : |(s : ℚ)| ≤ 2 ^ 20 := by exact_mod_cast hs20
    have hx : |(s : ℚ) / (m : ℚ) * 100| ≤ 104857600 := by
      rw [abs_mul, abs_div, abs_of_pos (show (0 : ℚ) < 100 by norm_num)]
      have : |(s : ℚ)| / |(m : ℚ)| ≤ 2 ^ 20 := by
        rw [div_le_iff₀ (by linarith)]
        have h0 : (0 : ℚ) ≤ |(s : ℚ)| := abs_nonneg _
        nlinarith
      norm_num at this ⊢
      linarith
    have hlen : ((k + (rest.length + 1) : Nat) : ℚ) ≤ 1024 := by
      have : k + (rest.length + 1) ≤ 1024 := by simpa using hk
      exact_mod_cast this
    have hk0 : (0 : ℚ) ≤ (k : ℚ) := Nat.cast_nonneg k
    have hr0 : (0 : ℚ) ≤ (rest.length : ℚ) := Nat.cast_nonneg _
    push_cast at hlen
    set x : ℚ := (s : ℚ) / (m : ℚ) * 100 with hxdef
    have hAx : |A + x| ≤ ((k + 1 : Nat) : ℚ) * 104857600 := by
      have := abs_add A x
      push_cast
      linarith
    have hsum : |a + t - (A + x)| ≤ (k : ℚ) / 2 ^ 15 + (|x| / 2 ^ 51 + 1 / 2 ^ 90) := by
      have := abs_add (a - A) (t - x)
      have heq : a - A + (t - x) = a + t - (A + x) := by ring
      rw [heq] at this
      linarith
    have hat : |a + t| ≤ |A + x| + |a + t - (A + x)| := by
      have := abs_add (A + x) (a + t - (A + x))
      rwa [add_sub_cancel] at this
    have hW : |a + t| ≤ 2 ^ 100 := by
      push_cast at hAx
      norm_num at hsum hx hAx ⊢
      linarith
    obtain ⟨a1, ha1, herr1⟩ := Float64.ofRat_of_le (a + t) hW
    have hstep : |a1 - (A + x)| ≤ ((k + 1 : Nat) : ℚ) / 2 ^ 15 := by
      have := abs_add (a1 - (a + t)) (a + t - (A + x))
      have heq : a1 - (a + t) + (a + t - (A + x)) = a1 - (A + x) := by ring
      rw [heq] at this
      push_cast at hAx ⊢
      norm_num at hsum hx hAx herr1 this ⊢
      linarith
    obtain ⟨a2, ha2, herr2, hbound2⟩ := ih (fun g hg => hl g (by simp [hg])) (k + 1) a1 (A + x)
      (by simp at hk ⊢; omega) hstep hAx
    have hg : gradePercent g = some t := by
      simp only [gradePercent, hs, hm, ht]
    have hterm : ((g.score.getD 0 : Int) : ℚ) / ((g.maxScore.getD 0 : Int) : ℚ) * 100 = x := by
      simp only [hs, hm, Option.getD_some, hxdef]
    have hidx : k + 1 + rest.length = k + (g :: rest).length := by
      simp only [List.length_cons]; omega
    refine ⟨a2, ?_, ?_, ?_⟩
    · rw [List.foldl_cons, hg]
      simp only [Float64.add, ha1]
      exact ha2
    · rw [List.map_cons, List.sum_cons, hterm, ← add_assoc, ← hidx]
      exact herr2
    · rw [List.map_cons, List.sum_cons, hterm, ← add_assoc, ← hidx]
      exact hbound2

/-- For at least one and at most 1024 grade documents with scores of magnitude at most
`2 ^ 20` and maximal scores other than zero of magnitude below `2 ^ 53`, the average grade is
an integer within `1 / 2 + 1 / 10000` of the arithmetic mean of the exact percentages. -/
theorem averageGrade_near_mean (grades : List GradeRecord) (hne : grades ≠ [])
    (hlen : grades.length ≤ 1024)
    (hl : ∀ g ∈ grades, (∃ s, g.score = some s ∧ |s| ≤ 2 ^ 20) ∧
      ∃ m, g.maxScore = some m ∧ m ≠ 0 ∧ |m| < 2 ^ 53) :
    ∃ p : Int, averageGrade grades = some p ∧
      |(p : ℚ) - meanPercent grades| ≤ 1 / 2 + 1 / 10000 := by
  have hpos : 0 < grades.length := List.length_pos.2 hne
  obtain ⟨a, ha, herr, hbound⟩ := foldl_add_error grades hl 0 0 0 (by simpa using hlen)
    (by simp) (by simp)
  simp only [zero_add] at herr hbound
  set S : ℚ := (grades.map (fun g =>
    ((g.score.getD 0 : Int) : ℚ) / ((g.maxScore.getD 0 : Int) : ℚ) * 100)).sum with hS
  have hnq : (0 : ℚ) < (grades.length : ℚ) := by exact_mod_cast hpos
  have hn1 : (1 : ℚ) ≤ (grades.length : ℚ) := by exact_mod_cast hpos
  have hn1024 : (grades.length : ℚ) ≤ 1024 := by exact_mod_cast hlen
  have hofInt : Float64.ofInt (grades.length : Int) = some ((grades.length : Int) : ℚ) := by
    apply Float64.ofInt_of_lt
    rw [abs_of_nonneg (by positivity)]
    have : (grades.length : Int) ≤ 1024 := by exact_mod_cast hlen
    exact lt_of_le_of_lt this (by norm_num)
  have hdiv1 : |a / (grades.length : ℚ) - S / (grades.length : ℚ)| ≤ 1 / 2 ^ 15 := by
    rw [← sub_div, abs_div, abs_of_pos hnq, div_le_iff₀ hnq]
    calc |a - S| ≤ (grades.length : ℚ) / 2 ^ 15 := herr
      _ = 1 / 2 ^ 15 * (grades.length : ℚ) := by ring
  have hmean : |S / (grades.length : ℚ)| ≤ 104857600 := by
    rw [abs_div, abs_of_pos hnq, div_le_iff₀ hnq]
    linarith
  have hquot : |a / (grades.length : ℚ)| ≤ |S / (grades.length : ℚ)| +
      |a / (grades.length : ℚ) - S / (grades.length : ℚ)| := by
    have := abs_add (S / (grades.length : ℚ)) (a / (grades.length : ℚ) - S / (grades.length : ℚ))
    rwa [add_sub_cancel] at this
  obtain ⟨v, hv, herrv⟩ := Float64.ofRat_of_le (a / (grades.length : ℚ)) (by
    norm_num at hdiv1 hmean ⊢
    linarith)
  have hfl1 : ((⌊v + 1 / 2⌋ : Int) : ℚ) ≤ v + 1 / 2 := Int.floor_le _
  have hfl2 : v + 1 / 2 < ((⌊v + 1 / 2⌋ : Int) : ℚ) + 1 := Int.lt_floor_add_one _
  refine ⟨⌊v + 1 / 2⌋, ?_, ?_⟩
  · have hn0 : ((grades.length : Int) : ℚ) ≠ 0 := by
      have := hnq.ne'
      exact_mod_cast this
    simp only [averageGrade, hpos, gt_iff_lt, if_true, totalScore, ha, Float64.divInt, hofInt, if_neg hn0,
      Float64.mathRound]
    rw [show ((grades.length : Int) : ℚ) = (grades.length : ℚ) by norm_cast, hv]
    rfl
  · have hm : meanPercent grades = S / (grades.length : ℚ) := rfl
    rw [hm, abs_le]
    obtain ⟨h1, h2⟩ := abs_le.1 herrv
    obtain ⟨h3, h4⟩ := abs_le.1 hdiv1
    norm_num at hmean hquot h1 h2 h3 h4 hdiv1 ⊢
    constructor <;> linarith

/-- The stats of a user depend on the store through its grade documents only. -/
theorem statsOf_congr (d1 d2 : LmsDb) (userDoc : Stored UserRecord)
    (h : d1.grades = d2.grades) : statsOf d1 userDoc = statsOf d2 userDoc := by
  simp only [statsOf, h]

/-- When no call is rejected, the loop issues one update per user document of the snapshot,
in order, with the stats of that user. -/
theorem updateUsers_updates (l : List (Stored UserRecord)) (out : StatsOutcome) :
    (updateUsers noStatsFaults l out).updates =
      out.updates ++ l.map (fun u => (u.id, statsOf out.db u)) := by
  induction l generalizing out with
  | nil => simp [updateUsers]
  | cons u rest ih =>
    have h1 : noStatsFaults.gradesRead = none := rfl
    have h2 : noStatsFaults.update = none := rfl
    simp only [updateUsers, h1, h2, ih, List.map_cons, List.append_assoc, List.singleton_append]
    congr 2

/-- A document of a collection is found by its id, or hidden by an earlier document with
the same id. -/
theorem findDoc_ne_none_of_mem {α : Type} (collection : List (Stored α)) (d : Stored α)
    (h : d ∈ collection) : findDoc collection d.id ≠ none := by
  simp only [findDoc, ne_eq, Option.map_eq_none', List.find?_eq_none, decide_eq_true_eq,
    not_forall, Classical.not_not]
  exact ⟨d, h, rfl⟩

/-- C23, amended: for a user with at least one grade document, the `averageGrade` that
`updateUserStatistics` writes on the user document is the `averageGrade` that `getUserStats`
returns for the same grade documents, namely `Math.round` of the double `totalScore / size`,
where `totalScore` adds up the doubles `(score / maxScore) * 100` in snapshot order. For at
most 1024 grade documents with scores of magnitude at most `2 ^ 20` and maximal scores other
than zero of magnitude below `2 ^ 53` it is an integer within `1 / 2 + 1 / 10000` of the
arithmetic mean of `score / maxScore * 100`. -/
theorem averageGrade_cached_eq_reported (db : LmsDb) (userDoc : Stored UserRecord)
    (hmem : userDoc ∈ db.users) (hid : userDoc.id ≠ "")
    (hgrades : db.grades.filter (fun g => g.studentId = userDoc.id) ≠ []) :
    ∃ stats,
      (userDoc.id, statsOf db userDoc) ∈ (updateUserStatistics noStatsFaults db).updates ∧
      getUserStats noReadFaults db (some userDoc.id) = { status := 200, body := .stats stats } ∧
      (statsOf db userDoc).averageGrade = some stats.averageGrade ∧
      stats.averageGrade = averageGrade (db.grades.filter (fun g => g.studentId = userDoc.id)) ∧
      ((db.grades.filter (fun g => g.studentId = userDoc.id)).length ≤ 1024 →
        (∀ g ∈ db.grades.filter (fun g => g.studentId = userDoc.id),
          (∃ s, g.score = some s ∧ |s| ≤ 2 ^ 20) ∧
            ∃ m, g.maxScore = some m ∧ m ≠ 0 ∧ |m| < 2 ^ 53) →
        ∃ p : Int, stats.averageGrade = some p ∧
          |(p : ℚ) - meanPercent (db.grades.filter (fun g => g.studentId = userDoc.id))| ≤
            1 / 2 + 1 / 10000) := by
  obtain ⟨user, huser⟩ := Option.ne_none_iff_exists'.1 (findDoc_ne_none_of_mem db.users userDoc hmem)
  have hlen : (db.grades.filter (fun g => g.studentId = userDoc.id)).length > 0 :=
    List.length_pos.2 hgrades
  refine ⟨_, ?_, getUserStats_ok db userDoc.id user hid huser, ?_, rfl, ?_⟩
  · have hu : (updateUserStatistics noStatsFaults db).updates =
        db.users.map (fun u => (u.id, statsOf db u)) := by
      have h0 : noStatsFaults.usersRead = none := rfl
      simp only [updateUserStatistics, h0, updateUsers_updates, List.nil_append]
    rw [hu]
    exact List.mem_map.2 ⟨userDoc, hmem, rfl⟩
  · simp only [statsOf, hlen, if_true, cachedTotalScore_eq_totalScore, averageGrade]
  · intro hcount hrange
    exact averageGrade_near_mean _ hgrades hcount hrange

/-- Witness of C23: for the two grades of the sample student, 80 and 90 percent, the cached
average is 85, the reported one, and it is within the stated distance of the mean, which is
85. -/
theorem averageGrade_cached_eq_reported_witness :
    (statsOf sampleGradesDb
      { id := "u1", data := { email := some "ada@example.org", enrolledCourses := some ["c1"],
                              submissions := none, fields := [] } }).averageGrade =
      some (some 85) ∧
    meanPercent (sampleGradesDb.grades.filter (fun g => g.studentId = "u1")) = 85 ∧
    ∃ p : Int, averageGrade (sampleGradesDb.grades.filter (fun g => g.studentId = "u1")) =
        some p ∧
      |(p : ℚ) - meanPercent (sampleGradesDb.grades.filter (fun g => g.studentId = "u1"))| ≤
        1 / 2 + 1 / 10000 := by
  obtain ⟨stats, -, -, hcached, havg, hnear⟩ := averageGrade_cached_eq_reported sampleGradesDb
    { id := "u1", data := { email := some "ada@example.org", enrolledCourses := some ["c1"],
                            submissions := none, fields := [] } }
    (by decide) (by decide) (by decide)
  have hf : sampleGradesDb.grades.filter (fun g => g.studentId = "u1") =
      sampleGradesDb.grades := by decide
  have hmean : meanPercent (sampleGradesDb.grades.filter (fun g => g.studentId = "u1")) = 85 := by
    rw [hf]
    simp only [meanPercent, sampleGradesDb]
    norm_num
  refine ⟨?_, hmean, ?_⟩
  · rw [hcached, havg]
    decide!
  · obtain ⟨p, hp, hdist⟩ := hnear (by decide) (by
      intro g hg
      rw [hf] at hg
      simp only [sampleGradesDb, List.mem_cons, List.mem_singleton, List.not_mem_nil,
        or_false] at hg
      rcases hg with rfl | rfl
      · exact ⟨⟨8, rfl, by decide⟩, 10, rfl, by decide, by decide⟩
      · exact ⟨⟨45, rfl, by decide⟩, 50, rfl, by decide, by decide⟩)
    exact ⟨p, havg ▸ hp, hdist⟩

/-- C23, as stated, fails on the code: for one grade of 23 of 40 points the cached and the
reported `averageGrade` are both 57, while the mean of `score / maxScore * 100`, which is
57.5, rounds to 58. -/
theorem averageGrade_mean_counterexample :
    (statsOf halfPointGradesDb
      { id := "u1", data := { email := some "ada@example.org", enrolledCourses := some ["c1"],
                              submissions := none, fields := [] } }).averageGrade =
      some (some 57) ∧
    (∃ stats, getUserStats noReadFaults halfPointGradesDb (some "u1") =
        { status := 200, body := .stats stats } ∧ stats.averageGrade = some 57) ∧
    meanPercent (halfPointGradesDb.grades.filter (fun g => g.studentId = "u1")) = 115 / 2 ∧
    ⌊meanPercent (halfPointGradesDb.grades.filter (fun g => g.studentId = "u1")) + 1 / 2⌋ =
      58 := by
  have hmean : meanPercent (halfPointGradesDb.grades.filter (fun g => g.studentId = "u1")) =
      115 / 2 := by
    have hf : halfPointGradesDb.grades.filter (fun g => g.studentId = "u1") =
        halfPointGradesDb.grades := by decide
    rw [hf]
    simp only [meanPercent, halfPointGradesDb]
    norm_num
  have hget := getUserStats_ok halfPointGradesDb "u1"
    { email := some "ada@example.org", enrolledCourses := some ["c1"], submissions := none,
      fields := [] } (by decide) (by decide)
  refine ⟨by decide!, ⟨_, hget, by decide!⟩, hmean, ?_⟩
  rw [hmean, Int.floor_eq_iff]
  norm_num

end Functions

/-! ## Upcoming deadlines: theorems -/

/-- On assignments with valid due dates the comparator is the difference of the due times. -/
theorem compareDue_eq_sub (a b : Assignment) (s t : Int) (ha : a.dueDate = .valid s)
    (hb : b.dueDate = .valid t) :
    compareDue a b = (-(dueTime b)) - (-(dueTime a)) := by
  simp only [compareDue, dueTime, ha, hb, timeValue, GradebookManager.jsSub,
    GradebookManager.sortCompare, Option.getD_some]
  omega

/-- An upcoming assignment of a list without invalid due dates has a valid due date. -/
theorem valid_of_isUpcoming (l : List Assignment) (hvalid : ∀ a ∈ l, a.dueDate ≠ .invalid)
    (a : Assignment) (ha : a ∈ l.filter isUpcoming) :
    a ∈ l ∧ a.completed = false ∧ a.dueDate ≠ .unset ∧ ∃ t, a.dueDate = .valid t := by
  obtain ⟨hmem, hup⟩ := List.mem_filter.1 ha
  simp only [isUpcoming, Bool.and_eq_true, Bool.not_eq_true', decide_eq_true_eq] at hup
  refine ⟨hmem, hup.1, hup.2, ?_⟩
  cases hd : a.dueDate with
  | unset => exact absurd hd hup.2
  | valid t => exact ⟨t, rfl⟩
  | invalid => exact absurd hd (hvalid a hmem)

/-- Without invalid due dates the sort arranges the upcoming assignments by due time. -/
theorem upcoming_sorted (l : List Assignment) (hvalid : ∀ a ∈ l, a.dueDate ≠ .invalid) :
    (GradebookManager.jsSort compareDue (l.filter isUpcoming)).Perm (l.filter isUpcoming) ∧
    (GradebookManager.jsSort compareDue (l.filter isUpcoming)).Pairwise
      (fun a b => dueTime a ≤ dueTime b) := by
  have hcongr : GradebookManager.jsSort compareDue (l.filter isUpcoming) =
      GradebookManager.jsSort (fun x y => (-(dueTime y)) - (-(dueTime x)))
        (l.filter isUpcoming) := by
    apply GradebookManager.jsSort_congr
    intro a ha b hb
    obtain ⟨-, -, -, s, hs⟩ := valid_of_isUpcoming l hvalid a ha
    obtain ⟨-, -, -, t, ht⟩ := valid_of_isUpcoming l hvalid b hb
    exact compareDue_eq_sub a b s t hs ht
  refine ⟨GradebookManager.jsSort_perm _ _, ?_⟩
  rw [hcongr]
  refine (GradebookManager.jsSort_sorted (fun a => -(dueTime a)) (l.filter isUpcoming)).imp ?_
  intro a b hab
  omega

/-- Without invalid due dates the first `k` assignments of the sorted upcoming assignments
meet `UpcomingSpec`. -/
theorem upcomingSpec_take (l : List Assignment) (k : Nat)
    (hvalid : ∀ a ∈ l, a.dueDate ≠ .invalid) :
    UpcomingSpec l k ((GradebookManager.jsSort compareDue (l.filter isUpcoming)).take k) := by
  obtain ⟨hperm, hsorted⟩ := upcoming_sorted l hvalid
  have hmem : ∀ a ∈ (GradebookManager.jsSort compareDue (l.filter isUpcoming)).take k,
      a ∈ l.filter isUpcoming := fun a ha => hperm.mem_iff.1 (List.mem_of_mem_take ha)
  refine ⟨List.length_take_le _ _, ?_, ?_, _, hperm, hsorted, rfl, ?_, ?_⟩
  · intro a ha
    obtain ⟨h1, h2, h3, -⟩ := valid_of_isUpcoming l hvalid a (hmem a ha)
    exact ⟨h1, h2, h3⟩
  · refine (hsorted.sublist (List.take_sublist _ _)).imp ?_
    intro a b hab s t hs ht
    simpa [dueTime, timeValue, hs, ht] using hab
  · have happ := hsorted
    rw [← List.take_append_drop k (GradebookManager.jsSort compareDue (l.filter isUpcoming)),
      List.pairwise_append] at happ
    exact happ.2.2
  · intro hlen
    have hlen2 : (GradebookManager.jsSort compareDue (l.filter isUpcoming)).length ≤ k := by
      rw [hperm.length_eq]
      exact hlen
    rw [List.take_of_length_le hlen2]
    exact hperm

/-- C22, as stated, fails on the code: of three open assignments due at 5, at a date that is
not a date, and at 3, all three are returned in this order, the one due at 5 before the one
due at 3, because the comparator is `NaN` whenever the invalid date is compared. -/
theorem getUpcomingDeadlines_invalid_counterexample :
    ¬ (∀ r, (AppJs.getUpcomingDeadlines (some sampleDeadlineData) 3).1 = .ok r →
        DueOrdered r) := by
  intro h
  have hr := h _ rfl
  have heq : (GradebookManager.jsSort compareDue
      ((sampleDeadlineData.assignments.getD []).filter isUpcoming)).take 3 =
      [{ id := some "x1", completed := false, dueDate := .valid 5, fields := [] },
       { id := some "x2", completed := false, dueDate := .invalid, fields := [] },
       { id := some "x3", completed := false, dueDate := .valid 3, fields := [] }] := by
    decide
  rw [heq] at hr
  have h53 := (List.pairwise_cons.1 hr).1
    { id := some "x3", completed := false, dueDate := .valid 3, fields := [] } (by simp) 5 3
    rfl rfl
  omega

/-- C22, amended: for every assignments list in which every set due date is a valid date
and every limit `k ≥ 0`, `getUpcomingDeadlines(k)`, in `js/dataManager.js` and in the copy
of `js/app.js`, returns at most `k` entries, each derived from an assignment of the list
with falsy `completed` and a set `dueDate`, in the order of non-decreasing due date, and
they are the `k` earliest due such assignments (all of them when there are at most `k`);
`currentUserData` and its assignments list are as before. -/
theorem getUpcomingDeadlines_earliest (now : Int) (formatValid : Int → String)
    (ud : DeadlineData) (k : Nat)
    (hvalid : ∀ a ∈ ud.assignments.getD [], a.dueDate ≠ .invalid) :
    (∃ r, DataManager.getUpcomingDeadlines now formatValid (some ud) k = (.ok r, some ud) ∧
      UpcomingSpec (ud.assignments.getD []) k (r.map (fun d => d.assignment)) ∧
      ∀ d ∈ r, d.daysUntil = Utils.daysUntil now d.assignment.dueDate ∧
        d.formattedDate = Utils.formatDate formatValid d.assignment.dueDate) ∧
    (∃ r, AppJs.getUpcomingDeadlines (some ud) k = (.ok r, some ud) ∧
      UpcomingSpec (ud.assignments.getD []) k r) := by
  refine ⟨⟨_, rfl, ?_, ?_⟩, ⟨_, rfl, upcomingSpec_take _ k hvalid⟩⟩
  · rw [List.map_map]
    have hid : ((fun d : DataManager.Deadline => d.assignment) ∘ fun a =>
        ({ assignment := a
           daysUntil := Utils.daysUntil now a.dueDate
           formattedDate := Utils.formatDate formatValid a.dueDate } : DataManager.Deadline)) =
        id := rfl
    rw [hid, List.map_id]
    exact upcomingSpec_take _ k hvalid
  · intro d hd
    obtain ⟨a, -, rfl⟩ := List.mem_map.1 hd
    exact ⟨rfl, rfl⟩

/-- Witness of the amended C22: of the four sample assignments, the earliest due open one
is returned for the limit 1, and the user data is as before. -/
theorem getUpcomingDeadlines_earliest_witness :
    ∃ r, AppJs.getUpcomingDeadlines (some sampleValidDeadlineData) 1 =
        (.ok r, some sampleValidDeadlineData) ∧
      r = [{ id := some "y3", completed := false, dueDate := .valid 3, fields := [] }] := by
  obtain ⟨r, hr, -, -, -, sorted, -, -, htake, -⟩ :=
    (getUpcomingDeadlines_earliest 0 (fun _ => "") sampleValidDeadlineData 1 (by decide)).2
  refine ⟨r, hr, ?_⟩
  have hres : (AppJs.getUpcomingDeadlines (some sampleValidDeadlineData) 1).1 =
      .ok [{ id := some "y3", completed := false, dueDate := .valid 3, fields := [] }] := by
    have : (GradebookManager.jsSort compareDue
        ((sampleValidDeadlineData.assignments.getD []).filter isUpcoming)).take 1 =
        [{ id := some "y3", completed := false, dueDate := .valid 3, fields := [] }] := by
      decide
    simp only [AppJs.getUpcomingDeadlines, this]
  rw [hr] at hres
  simpa using hres

end EduResource
